import Mathlib

/-!
Shallow embedding of the TiKV apply subsystem
(components/raftstore/src/store/fsm/apply.rs) and proofs about it.

Machine integers (u64, usize) are modelled as Nat; byte strings (Vec<u8>)
as lists of naturals compared lexicographically; fallible Rust functions
returning Result become Except; process aborts (panic, assert,
unimplemented, unreachable) become an explicit Fatal outcome.
External collaborators that live outside the embedded sources
(keys module, region-epoch checks, peer lookup helpers, persisted-state
helpers) are modelled from the specification and marked as such.
-/

namespace TikvApply

/-- Byte strings (Rust Vec of u8) are lists of naturals. -/
abbrev Bytes := List Nat

/-- Strict lexicographic comparison of byte strings, mirroring the Ord
instance of Rust byte vectors (a strict prefix is smaller). -/
def bytesLt : Bytes → Bytes → Bool
  | [], [] => false
  | [], _ :: _ => true
  | _ :: _, [] => false
  | a :: as, b :: bs => a < b || (a == b && bytesLt as bs)

/-- Non-strict lexicographic comparison of byte strings. -/
def bytesLe (x y : Bytes) : Bool := !(bytesLt y x)

/-- The largest u64 value, used by the code as an index wildcard. -/
def U64_MAX : Nat := 2 ^ 64 - 1

/-- Region epoch: membership generation and range generation. -/
structure RegionEpoch where
  conf_ver : Nat
  version : Nat
deriving Repr, DecidableEq

/-- A peer (replica) of a region. -/
structure PeerMeta where
  id : Nat
  store_id : Nat
  is_learner : Bool
deriving Repr, DecidableEq

/-- Region descriptor. An empty end key means the range is right-unbounded. -/
structure Region where
  id : Nat
  start_key : Bytes
  end_key : Bytes
  peers : List PeerMeta
  epoch : RegionEpoch
deriving Repr, DecidableEq

/-- The raft log position before which the log has been compacted. -/
structure RaftTruncatedState where
  index : Nat
  term : Nat
deriving Repr, DecidableEq

/-- Persisted apply state of a region. -/
structure RaftApplyState where
  applied_index : Nat
  truncated_state : RaftTruncatedState
  commit_index : Nat
  commit_term : Nat
  last_commit_index : Nat
deriving Repr, DecidableEq

/-- A pending proposal: its log position and its client callback.
Callbacks are opaque; they are identified by a numeric token, and `none`
means the callback has already been taken. -/
structure PendingCmd where
  index : Nat
  term : Nat
  cb : Option Nat
deriving Repr, DecidableEq

/-- PendingCmd::new. -/
def PendingCmd.new (index term : Nat) (cb : Nat) : PendingCmd :=
  { index := index, term := term, cb := some cb }

/-- SHRINK_PENDING_CMD_QUEUE_CAP in apply.rs. -/
def SHRINK_PENDING_CMD_QUEUE_CAP : Nat := 64

/-- The pending-command queue: an ordered queue of normal proposals and a
single slot for a conf-change proposal. The deque of normals is modelled
as a list together with its current allocated capacity; `shrink_to_fit`
reduces the capacity to the current length. -/
structure PendingCmdQueue where
  normals : List PendingCmd
  normals_cap : Nat
  conf_change : Option PendingCmd
deriving Repr, DecidableEq

/-- An empty pending-command queue. -/
def PendingCmdQueue.empty : PendingCmdQueue :=
  { normals := [], normals_cap := 0, conf_change := none }

/-- Lexicographic strict order on (term, index) pairs, as the Rust tuple
comparison `(cmd.term, cmd.index) > (term, index)`. -/
def pairGt (a b : Nat × Nat) : Bool :=
  a.1 > b.1 || (a.1 == b.1 && a.2 > b.2)

/-- PendingCmdQueue::pop_normal. Pops the head of the normal queue, shrinks
the backing storage when its capacity exceeds the threshold while its length
is below it, and re-inserts the head (returning nothing) when the head is
newer than the given position. -/
def PendingCmdQueue.pop_normal (q : PendingCmdQueue) (index term : Nat) :
    Option PendingCmd × PendingCmdQueue :=
  match q.normals with
  | [] => (none, q)
  | cmd :: rest =>
    let cap :=
      if q.normals_cap > SHRINK_PENDING_CMD_QUEUE_CAP
          && rest.length < SHRINK_PENDING_CMD_QUEUE_CAP then
        rest.length
      else q.normals_cap
    if pairGt (cmd.term, cmd.index) (term, index) then
      (none, { q with normals := cmd :: rest, normals_cap := cap })
    else
      (some cmd, { q with normals := rest, normals_cap := cap })

/-- PendingCmdQueue::append_normal. -/
def PendingCmdQueue.append_normal (q : PendingCmdQueue) (cmd : PendingCmd) :
    PendingCmdQueue :=
  { q with normals := q.normals ++ [cmd],
           normals_cap := max q.normals_cap (q.normals.length + 1) }

/-- PendingCmdQueue::take_conf_change. -/
def PendingCmdQueue.take_conf_change (q : PendingCmdQueue) :
    Option PendingCmd × PendingCmdQueue :=
  (q.conf_change, { q with conf_change := none })

/-- PendingCmdQueue::set_conf_change. -/
def PendingCmdQueue.set_conf_change (q : PendingCmdQueue) (cmd : PendingCmd) :
    PendingCmdQueue :=
  { q with conf_change := some cmd }

/-- The deterministic client-visible errors of the apply layer. -/
inductive KvError where
  | epochNotMatch (regions : List Region)
  | staleCommand
  | keyNotInRegion (key : Bytes) (region : Region)
  | regionNotFound (region_id : Nat)
  | other (msg : String)
deriving Repr, DecidableEq

/-- Sub-request command types (CmdType in the raft command protobuf). -/
inductive CmdType where
  | put | delete | deleteRange | ingestSst | snap | get | prewrite | invalid
  | readIndex
deriving Repr, DecidableEq

/-- Admin command types (AdminCmdType in the raft command protobuf). -/
inductive AdminCmdType where
  | changePeer | split | batchSplit | compactLog | transferLeader
  | computeHash | verifyHash | prepareMerge | commitMerge | rollbackMerge
  | invalidAdmin
deriving Repr, DecidableEq

/-- A key range of an SST file. -/
structure KeyRange where
  start : Bytes
  stop : Bytes
deriving Repr, DecidableEq

/-- Metadata of an SST file proposed for ingestion. -/
structure SstMeta where
  uuid : Bytes
  cf_name : String
  region_id : Nat
  region_epoch : RegionEpoch
  range : KeyRange
deriving Repr, DecidableEq

/-- A sub-request of a write command. -/
inductive Request where
  | put (cf : String) (key value : Bytes)
  | delete (cf : String) (key : Bytes)
  | deleteRange (cf : String) (start_key end_key : Bytes) (notify_only : Bool)
  | ingestSst (sst : SstMeta)
  | get (cf : String) (key : Bytes)
  | snap
  | prewrite
  | invalid
  | readIndex
deriving Repr, DecidableEq

/-- Request::get_cmd_type. -/
def Request.cmd_type : Request → CmdType
  | .put _ _ _ => .put
  | .delete _ _ => .delete
  | .deleteRange _ _ _ _ => .deleteRange
  | .ingestSst _ => .ingestSst
  | .get _ _ => .get
  | .snap => .snap
  | .prewrite => .prewrite
  | .invalid => .invalid
  | .readIndex => .readIndex

/-- Request::has_delete_range. -/
def Request.has_delete_range : Request → Bool
  | .deleteRange _ _ _ _ => true
  | _ => false

/-- Request::has_ingest_sst. -/
def Request.has_ingest_sst : Request → Bool
  | .ingestSst _ => true
  | _ => false

/-- Conf-change kinds. -/
inductive ConfChangeType where
  | addNode | removeNode | addLearnerNode
deriving Repr, DecidableEq

/-- A ChangePeer admin request payload. -/
structure ChangePeerRequest where
  change_type : ConfChangeType
  peer : PeerMeta
deriving Repr, DecidableEq

/-- A single split request inside a (Batch)Split admin command. -/
structure SplitRequest where
  split_key : Bytes
  new_region_id : Nat
  new_peer_ids : List Nat
  right_derive : Bool
deriving Repr, DecidableEq

/-- The persisted merge progress of a merging region. -/
structure MergeState where
  min_index : Nat
  target : Region
  commit : Nat
deriving Repr, DecidableEq

/-- A CommitMerge admin request payload (the carried source log entries do
not influence delegate execution and are omitted). -/
structure CommitMergeRequest where
  source : Region
  commit : Nat
deriving Repr, DecidableEq

/-- An admin request. -/
inductive AdminRequest where
  | changePeer (cp : ChangePeerRequest)
  | split (req : SplitRequest)
  | batchSplit (right_derive : Bool) (requests : List SplitRequest)
  | compactLog (compact_index compact_term : Nat)
  | transferLeader
  | computeHash
  | verifyHash (index : Nat) (hash : Bytes)
  | prepareMerge (min_index : Nat) (target : Region)
  | commitMerge (merge : CommitMergeRequest)
  | rollbackMerge (commit : Nat)
  | invalidAdmin
deriving Repr, DecidableEq

/-- AdminRequest::get_cmd_type. -/
def AdminRequest.cmd_type : AdminRequest → AdminCmdType
  | .changePeer _ => .changePeer
  | .split _ => .split
  | .batchSplit _ _ => .batchSplit
  | .compactLog _ _ => .compactLog
  | .transferLeader => .transferLeader
  | .computeHash => .computeHash
  | .verifyHash _ _ => .verifyHash
  | .prepareMerge _ _ => .prepareMerge
  | .commitMerge _ => .commitMerge
  | .rollbackMerge _ => .rollbackMerge
  | .invalidAdmin => .invalidAdmin

/-- The header of a raft command request. -/
structure ReqHeader where
  region_epoch : RegionEpoch
  uuid : Bytes
deriving Repr, DecidableEq

/-- A raft command request: a header plus either an admin request or a
batch of write sub-requests. -/
structure RaftCmdRequest where
  header : ReqHeader
  admin_request : Option AdminRequest
  requests : List Request
deriving Repr, DecidableEq

/-- RaftCmdRequest::has_admin_request. -/
def RaftCmdRequest.has_admin_request (req : RaftCmdRequest) : Bool :=
  req.admin_request.isSome

/-- get_change_peer_cmd in apply.rs: the ChangePeer payload of a command,
when it has one. -/
def get_change_peer_cmd (msg : RaftCmdRequest) : Option ChangePeerRequest :=
  match msg.admin_request with
  | some (.changePeer cp) => some cp
  | _ => none

/-- A decoded raft ConfChange: the code only uses its context, which is an
embedded raft command request. -/
structure ConfChange where
  context : RaftCmdRequest
deriving Repr, DecidableEq

/-- The payload of a raft log entry, already decoded: a Normal entry carries
an optional command (none models empty data), a ConfChange entry carries a
decoded conf change. -/
inductive EntryPayload where
  | normal (cmd : Option RaftCmdRequest)
  | confChange (cc : ConfChange)
  | confChangeV2
deriving Repr, DecidableEq

/-- A committed raft log entry. -/
structure Entry where
  index : Nat
  term : Nat
  payload : EntryPayload
deriving Repr, DecidableEq

/-- A sub-response; the code only fills its command type. -/
structure Response where
  cmd_type : Option CmdType
deriving Repr, DecidableEq

/-- Response::default. -/
def Response.default : Response := { cmd_type := none }

/-- An admin response; the code fills its command type and, depending on the
command, the region of a change-peer response or the regions of a splits
response. -/
structure AdminResponse where
  cmd_type : Option AdminCmdType
  change_peer_region : Option Region
  splits_regions : List Region
deriving Repr, DecidableEq

/-- AdminResponse::default. -/
def AdminResponse.default : AdminResponse :=
  { cmd_type := none, change_peer_region := none, splits_regions := [] }

/-- The header of a raft command response. -/
structure RespHeader where
  error : Option KvError
  uuid : Bytes
  current_term : Nat
deriving Repr, DecidableEq

/-- A raft command response. -/
structure RaftCmdResponse where
  header : RespHeader
  responses : List Response
  admin_response : Option AdminResponse
deriving Repr, DecidableEq

/-- RaftCmdResponse::default. -/
def RaftCmdResponse.default : RaftCmdResponse :=
  { header := { error := none, uuid := [], current_term := 0 },
    responses := [], admin_response := none }

/-- Modelled from the spec: cmd_resp::new_error builds a response whose
header carries the given error. -/
def cmd_resp_new_error (e : KvError) : RaftCmdResponse :=
  { RaftCmdResponse.default with
      header := { RaftCmdResponse.default.header with error := some e } }

/-- Modelled from the spec: cmd_resp::bind_term stamps the current term into
the response header (a zero term is ignored). -/
def cmd_resp_bind_term (resp : RaftCmdResponse) (term : Nat) : RaftCmdResponse :=
  if term == 0 then resp
  else { resp with header := { resp.header with current_term := term } }

/-- Modelled from the spec: cmd_resp::err_resp is an error response with the
term bound. -/
def cmd_resp_err_resp (e : KvError) (term : Nat) : RaftCmdResponse :=
  cmd_resp_bind_term (cmd_resp_new_error e) term

/-- Persisted peer lifecycle states. -/
inductive PeerState where
  | normal | merging | tombstone | applying
deriving Repr, DecidableEq

/-- The persisted region-local state: lifecycle state, region descriptor
and, for merging regions, the merge progress. -/
structure RegionLocalState where
  state : PeerState
  region : Region
  merge_state : Option MergeState
deriving Repr, DecidableEq

/-- An operation recorded in a write batch. Region-state and apply-state
writes are raft-CF writes under well-known keys; they are kept structured
here because the delegate reads them back structurally. -/
inductive WbOp where
  | putKv (cf : String) (key value : Bytes)
  | deleteKv (cf : String) (key : Bytes)
  | putRegionState (region_id : Nat) (st : RegionLocalState)
  | putApplyState (region_id : Nat) (st : RaftApplyState)
deriving Repr, DecidableEq

/-- A write batch: the ordered operations and the stack of save points
(each a length of the operation list). -/
structure WriteBatch where
  ops : List WbOp
  save_points : List Nat
deriving Repr, DecidableEq

/-- An empty write batch. -/
def WriteBatch.empty : WriteBatch := { ops := [], save_points := [] }

/-- WriteBatch::set_save_point pushes the current position. -/
def WriteBatch.set_save_point (wb : WriteBatch) : WriteBatch :=
  { wb with save_points := wb.ops.length :: wb.save_points }

/-- WriteBatch::pop_save_point drops the newest save point; absent save
point is a failure (unwrap in the code). -/
def WriteBatch.pop_save_point (wb : WriteBatch) : Option WriteBatch :=
  match wb.save_points with
  | [] => none
  | _ :: rest => some { wb with save_points := rest }

/-- WriteBatch::rollback_to_save_point truncates the operations back to the
newest save point and drops it. -/
def WriteBatch.rollback_to_save_point (wb : WriteBatch) : Option WriteBatch :=
  match wb.save_points with
  | [] => none
  | sp :: rest => some { ops := wb.ops.take sp, save_points := rest }

/-- Modelled from the spec: the write-batch size-threshold hint
should_write_to_engine of the engine layer, which asks for a flush once the
batch holds many keys. -/
def WRITE_BATCH_MAX_KEYS : Nat := 128

/-- Modelled from the spec: WriteBatch::should_write_to_engine, the
size-threshold flush hint of the engine layer. -/
def WriteBatch.should_write_to_engine_hint (wb : WriteBatch) : Bool :=
  wb.ops.length > WRITE_BATCH_MAX_KEYS

/-- A range operation issued directly against the engine. -/
inductive RangeOp where
  | deleteFilesInRange (cf : String) (start_key end_key : Bytes)
      (include_end : Bool)
  | deleteAllInRange (cf : String) (start_key end_key : Bytes)
      (use_delete_range : Bool)
deriving Repr, DecidableEq

/-- The storage engine, as far as the apply layer observes it: the
persisted region states readable during merge, the log of flushed write
batch operations, the log of range deletions, and the log of ingested SST
files. -/
structure Engine where
  region_states : List (Nat × RegionLocalState)
  flushed : List WbOp
  range_ops : List RangeOp
  ingested : List SstMeta
deriving Repr, DecidableEq

/-- Engine read of a persisted region state (get_msg_cf on the raft CF at
the region-state key). -/
def Engine.get_region_state (e : Engine) (region_id : Nat) :
    Option RegionLocalState :=
  (e.region_states.find? (fun p => p.1 == region_id)).map Prod.snd

/-- Applying one flushed write-batch operation to the engine. -/
def Engine.apply_op (e : Engine) (op : WbOp) : Engine :=
  match op with
  | .putRegionState id st =>
    { e with region_states := (id, st) :: e.region_states,
             flushed := e.flushed ++ [op] }
  | _ => { e with flushed := e.flushed ++ [op] }

/-- Flushing a list of write-batch operations to the engine in order. -/
def Engine.apply_ops (e : Engine) (ops : List WbOp) : Engine :=
  ops.foldl Engine.apply_op e

/-- The exec result `Range` triple of a DeleteRange. -/
structure Range where
  cf : String
  start_key : Bytes
  end_key : Bytes
deriving Repr, DecidableEq

/-- The result of a change-peer execution. -/
structure ChangePeerResult where
  index : Nat
  conf_change : Option ConfChange
  peer : PeerMeta
  region : Region
deriving Repr, DecidableEq

/-- ChangePeerResult::default. -/
def ChangePeerResult.default : ChangePeerResult :=
  { index := 0, conf_change := none,
    peer := { id := 0, store_id := 0, is_learner := false },
    region := { id := 0, start_key := [], end_key := [], peers := [],
                epoch := { conf_ver := 0, version := 0 } } }

/-- The execution results shipped back to the raftstore upper half. -/
inductive ExecResult where
  | changePeer (cp : ChangePeerResult)
  | compactLog (state : RaftTruncatedState) (first_index : Nat)
  | splitRegion (regions : List Region) (derived : Region)
  | prepareMerge (region : Region) (state : MergeState)
  | commitMerge (region : Region) (source : Region)
  | rollbackMerge (region : Region) (commit : Nat)
  | computeHash (region : Region) (index : Nat) (snap : Engine)
  | verifyHash (index : Nat) (hash : Bytes)
  | deleteRange (ranges : List Range)
  | ingestSst (ssts : List SstMeta)
deriving Repr, DecidableEq

/-- The possible returned value when applying one log entry. The atomic
counter carried by WaitMergeSource is opaque to the pure model. -/
inductive ApplyResult where
  | none
  | yield
  | res (r : ExecResult)
  | waitMergeSource
deriving Repr, DecidableEq

/-- The per-entry execution context snapshot. -/
structure ExecCtx where
  apply_state : RaftApplyState
  index : Nat
  term : Nat
deriving Repr, DecidableEq

/-- The per-region apply result pushed at finish_for. -/
structure ApplyRes where
  region_id : Nat
  apply_state : RaftApplyState
  applied_index_term : Nat
  exec_res : List ExecResult
deriving Repr, DecidableEq

/-- A callback bucket of the apply context: one per prepare_for, holding
the responses (with their optional callbacks) accumulated for a region. -/
structure ApplyCallbackBucket where
  region : Region
  cbs : List (Option Nat × RaftCmdResponse)
deriving Repr, DecidableEq

/-- A message sent through the notifier to other peers. -/
inductive NotifierMsg where
  | catchUpLogs (source_region_id target_region_id : Nat)
      (merge : CommitMergeRequest)
deriving Repr, DecidableEq

/-- The apply context: the live write batch, callback buckets, pending
apply results, per-entry exec context and flags, plus the engine, the
importer deletion log, the notifier log, and the log of callbacks that were
invoked directly (stale or region-removed notifications) or by a flush. -/
structure ApplyContext where
  kv_wb : Option WriteBatch
  cbs : List ApplyCallbackBucket
  apply_res : List ApplyRes
  exec_ctx : Option ExecCtx
  last_applied_index : Nat
  enable_sync_log : Bool
  sync_log_hint : Bool
  use_delete_range : Bool
  engine : Engine
  importer_deleted : List SstMeta
  notifier_msgs : List NotifierMsg
  invoked : List (Nat × RaftCmdResponse)
deriving Repr, DecidableEq

/-- The parked continuation of a yielded delegate (pending messages are not
modelled). -/
structure YieldState where
  pending_entries : List Entry
deriving Repr, DecidableEq

/-- The per-region apply delegate. The wait_merge_state atomic is modelled
by a flag. -/
structure ApplyDelegate where
  id : Nat
  term : Nat
  region : Region
  stopped : Bool
  written : Bool
  pending_remove : Bool
  pending_cmds : PendingCmdQueue
  is_merging : Bool
  last_merge_version : Nat
  yield_state : Option YieldState
  wait_merge_state : Bool
  ready_source_region_id : Nat
  apply_state : RaftApplyState
  applied_index_term : Nat
  last_sync_apply_index : Nat
deriving Repr, DecidableEq

/-- A registration message carrying the persisted state of a peer. -/
structure Registration where
  id : Nat
  term : Nat
  apply_state : RaftApplyState
  applied_index_term : Nat
  region : Region
  is_merging : Bool
deriving Repr, DecidableEq

/-- ApplyDelegate::from_registration. -/
def ApplyDelegate.from_registration (reg : Registration) : ApplyDelegate :=
  { id := reg.id,
    term := reg.term,
    region := reg.region,
    stopped := false,
    written := false,
    pending_remove := false,
    pending_cmds := PendingCmdQueue.empty,
    is_merging := reg.is_merging,
    last_merge_version := 0,
    yield_state := none,
    wait_merge_state := false,
    ready_source_region_id := 0,
    apply_state := reg.apply_state,
    applied_index_term := reg.applied_index_term,
    last_sync_apply_index := reg.apply_state.applied_index }

/-- The combined mutable state threaded through delegate methods: the
delegate itself and the apply context handed to it. -/
structure ApplySt where
  d : ApplyDelegate
  ctx : ApplyContext
deriving Repr, DecidableEq

/-- The process-aborting outcomes: panics, failed assertions, and
unimplemented or unreachable branches. -/
inductive Fatal where
  | indexGap (expect got : Nat)
  | unimplementedEntryType
  | assertFail (msg : String)
  | unexpectedCallback (term found expected : Nat)
  | unreachableBranch
  | missingWriteBatch
  | missingExecCtx
  | missingSavePoint
  | missingCallbackBucket
  | callbackMissing
  | zeroIndex
  | prepareMergeFilteredCompact
  | commitMergeBadReadySource (ready expected : Nat)
  | commitMergeMissingState (region_id : Nat)
  | commitMergeBadState
  | commitMergeSourceMismatch
  | rollbackMergeMissingState (region_id : Nat)
  | rollbackMergeBadState
  | rollbackMergeBadCommit
  | confChangeBadResult
  | commitStateJumpBack
deriving Repr, DecidableEq

/-- Modelled from the spec (keys module, outside the embedded sources):
the data-key prefix byte prepended to every origin key seen by the engine. -/
def DATA_PREFIX : Nat := 122

/-- Modelled from the spec (keys module): the key just past the whole data
key space, used to encode an empty (unbounded) end key. -/
def DATA_MAX_KEY : Bytes := [123]

/-- Modelled from the spec (keys module): keys::data_key prefixes an origin
key with the data-key prefix. -/
def data_key (key : Bytes) : Bytes := DATA_PREFIX :: key

/-- Modelled from the spec (keys module): keys::data_end_key encodes an end
key, mapping the empty (unbounded) end key to the maximal data key. -/
def data_end_key (key : Bytes) : Bytes :=
  if key.isEmpty then DATA_MAX_KEY else data_key key

/-- Modelled from the spec (keys module): keys::enc_start_key of a region. -/
def enc_start_key (region : Region) : Bytes := data_key region.start_key

/-- Modelled from the spec (keys module): keys::enc_end_key of a region. -/
def enc_end_key (region : Region) : Bytes := data_end_key region.end_key

/-- Modelled from the spec (util module, outside the embedded sources):
util::check_key_in_region checks that a key lies in the region range
`[start_key, end_key)`, an empty end key meaning right-unbounded. -/
def check_key_in_region (key : Bytes) (region : Region) :
    Except KvError Unit :=
  if bytesLe region.start_key key
      && (region.end_key.isEmpty || bytesLt key region.end_key) then
    .ok ()
  else
    .error (.keyNotInRegion key region)

/-- Modelled from the spec (util module): check_region_epoch requires the
conf_ver and the version of the request header to match the current region
epoch; a mismatch is an EpochNotMatch error carrying the current region
when inclusion is requested. -/
def check_region_epoch (req : RaftCmdRequest) (region : Region)
    (include_region : Bool) : Except KvError Unit :=
  let from_epoch := req.header.region_epoch
  if from_epoch.conf_ver != region.epoch.conf_ver
      || from_epoch.version != region.epoch.version then
    .error (.epochNotMatch (if include_region then [region] else []))
  else
    .ok ()

/-- Modelled from the spec (peer_storage module, outside the embedded
sources): first_index of an apply state is the first retained raft log
index, one past the truncated index. -/
def first_index (state : RaftApplyState) : Nat :=
  state.truncated_state.index + 1

/-- Modelled from the spec (peer_storage module): the log position every
freshly initialized region starts from. -/
def RAFT_INIT_LOG_INDEX : Nat := 5

/-- Modelled from the spec (peer_storage module): the term every freshly
initialized region starts from. -/
def RAFT_INIT_LOG_TERM : Nat := 5

/-- Modelled from the spec (peer_storage module): the initial apply state
persisted for each new region. -/
def initial_apply_state : RaftApplyState :=
  { applied_index := RAFT_INIT_LOG_INDEX,
    truncated_state := { index := RAFT_INIT_LOG_INDEX,
                         term := RAFT_INIT_LOG_TERM },
    commit_index := RAFT_INIT_LOG_INDEX,
    commit_term := RAFT_INIT_LOG_TERM,
    last_commit_index := RAFT_INIT_LOG_INDEX }

/-- Modelled from the spec (peer_storage module): write_peer_state appends
the region-local state of a region to the write batch. -/
def write_peer_state (wb : WriteBatch) (region : Region) (state : PeerState)
    (merge_state : Option MergeState) : WriteBatch :=
  { wb with ops := wb.ops ++
      [.putRegionState region.id
        { state := state, region := region, merge_state := merge_state }] }

/-- Modelled from the spec (peer_storage module): write_initial_apply_state
appends the initial apply state of a new region to the write batch. -/
def write_initial_apply_state (wb : WriteBatch) (region_id : Nat) :
    WriteBatch :=
  { wb with ops := wb.ops ++ [.putApplyState region_id initial_apply_state] }

/-- Modelled from the spec (util module): find a peer of the region on the
given store. -/
def find_peer (region : Region) (store_id : Nat) : Option PeerMeta :=
  region.peers.find? (fun p => p.store_id == store_id)

/-- Modelled from the spec (util module): remove the peer on the given
store from the region, returning it. -/
def remove_peer (region : Region) (store_id : Nat) :
    Option PeerMeta × Region :=
  match find_peer region store_id with
  | none => (none, region)
  | some p =>
    (some p,
     { region with
        peers := region.peers.filter (fun q => !(q.store_id == store_id)) })

/-- Modelled from the spec (util module): promote the peer on the given
store to voter (find_peer_mut followed by set_is_learner false). -/
def promote_peer (region : Region) (store_id : Nat) : Region :=
  { region with
      peers := region.peers.map (fun p =>
        if p.store_id == store_id then { p with is_learner := false }
        else p) }

/-- Modelled from the spec (engine_traits): the known column families. -/
def ALL_CFS : List String := ["default", "write", "lock", "raft"]

/-- CF_DEFAULT. -/
def CF_DEFAULT : String := "default"

/-- CF_WRITE. -/
def CF_WRITE : String := "write"

/-- CF_LOCK. -/
def CF_LOCK : String := "lock"

/-- CF_RAFT. -/
def CF_RAFT : String := "raft"

/-- Modelled from the spec: UuidBuilder::from_slice accepts exactly
16-byte uuids. -/
def uuid_valid (uuid : Bytes) : Bool := uuid.length == 16

/-- should_write_to_engine in apply.rs: commands that force a flush of the
current write batch before they execute. -/
def should_write_to_engine (cmd : RaftCmdRequest) : Bool :=
  (match cmd.admin_request with
   | some adm =>
     (match adm.cmd_type with
      | .computeHash | .commitMerge | .rollbackMerge => true
      | _ => false)
   | none => false)
  || cmd.requests.any (fun req => req.has_delete_range || req.has_ingest_sst)

/-- should_sync_log in apply.rs: commands that force an fsync on commit. -/
def should_sync_log (cmd : RaftCmdRequest) : Bool :=
  cmd.has_admin_request
  || cmd.requests.any (fun req => req.has_ingest_sst)

/-- check_sst_for_ingestion in apply.rs: uuid, column family, region id,
exact epoch and key-range inclusion checks for an SST file. -/
def check_sst_for_ingestion (sst : SstMeta) (region : Region) :
    Except KvError Unit := do
  if !uuid_valid sst.uuid then
    throw (.other "invalid uuid")
  if sst.cf_name != CF_DEFAULT && sst.cf_name != CF_WRITE then
    throw (.other "invalid cf name")
  if sst.region_id != region.id then
    throw (.regionNotFound sst.region_id)
  if sst.region_epoch.conf_ver != region.epoch.conf_ver
      || sst.region_epoch.version != region.epoch.version then
    throw (.epochNotMatch [region])
  check_key_in_region sst.range.start region
  check_key_in_region sst.range.stop region

/-- ApplyDelegate::handle_put: key-in-region check, data-key prefixing,
write to the batch (metrics are not modelled). -/
def handle_put (d : ApplyDelegate) (wb : WriteBatch)
    (cf : String) (key value : Bytes) : Except KvError WriteBatch := do
  check_key_in_region key d.region
  let dkey := data_key key
  if cf != "" then
    pure { wb with ops := wb.ops ++ [.putKv cf dkey value] }
  else
    pure { wb with ops := wb.ops ++ [.putKv "" dkey value] }

/-- ApplyDelegate::handle_delete: key-in-region check, data-key prefixing,
delete in the batch (metrics are not modelled). -/
def handle_delete (d : ApplyDelegate) (wb : WriteBatch)
    (cf : String) (key : Bytes) : Except KvError WriteBatch := do
  check_key_in_region key d.region
  let dkey := data_key key
  if cf != "" then
    pure { wb with ops := wb.ops ++ [.deleteKv cf dkey] }
  else
    pure { wb with ops := wb.ops ++ [.deleteKv "" dkey] }

/-- ApplyDelegate::handle_delete_range: range validation, then (unless
notify_only) a file-range drop followed by a residual delete on the engine,
and the accumulation of the Range triple. -/
def handle_delete_range (d : ApplyDelegate) (engine : Engine)
    (cf0 : String) (s_key e_key : Bytes) (notify_only : Bool)
    (ranges : List Range) (use_delete_range : Bool) :
    Except KvError (Engine × List Range) := do
  if !e_key.isEmpty && bytesLe e_key s_key then
    throw (.other "invalid delete range command")
  check_key_in_region s_key d.region
  let end_key := data_end_key e_key
  let region_end_key := data_end_key d.region.end_key
  if bytesLt region_end_key end_key then
    throw (.keyNotInRegion e_key d.region)
  let cf := if cf0 == "" then CF_DEFAULT else cf0
  if !(ALL_CFS.contains cf) then
    throw (.other "invalid delete range cf")
  let start_key := data_key s_key
  let engine :=
    if !notify_only then
      { engine with range_ops := engine.range_ops ++
          [.deleteFilesInRange cf start_key end_key false,
           .deleteAllInRange cf start_key end_key use_delete_range] }
    else engine
  pure (engine, ranges ++ [{ cf := cf, start_key := start_key,
                             end_key := end_key }])

/-- ApplyDelegate::handle_ingest_sst: validation, deletion of an invalid
SST from the importer, or ingestion into the engine and accumulation of the
exec result. -/
def handle_ingest_sst (d : ApplyDelegate) (engine : Engine)
    (importer_deleted : List SstMeta) (sst : SstMeta)
    (ssts : List SstMeta) :
    Except KvError (Engine × List SstMeta) ×  List SstMeta :=
  match check_sst_for_ingestion sst d.region with
  | .error e => (.error e, importer_deleted ++ [sst])
  | .ok _ =>
    (.ok ({ engine with ingested := engine.ingested ++ [sst] },
          ssts ++ [sst]),
     importer_deleted)

/-- The loop body of ApplyDelegate::exec_write_cmd over the sub-requests:
threads the context mutations, accumulates responses, DeleteRange triples
and ingested SSTs, and stops at the first sub-request error (mutations made
before the error stay in the context, to be rolled back by the save
point). -/
def exec_write_requests (d : ApplyDelegate) (ctx : ApplyContext)
    (reqs : List Request) (responses : List Response)
    (ranges : List Range) (ssts : List SstMeta) :
    Except Fatal
      (Except KvError (List Response × List Range × List SstMeta)
        × ApplyContext) :=
  match reqs with
  | [] => .ok (.ok (responses, ranges, ssts), ctx)
  | req :: rest =>
    match req with
    | .put cf key value =>
      match ctx.kv_wb with
      | none => .error .missingWriteBatch
      | some wb =>
        match handle_put d wb cf key value with
        | .error e => .ok (.error e, ctx)
        | .ok wb1 =>
          exec_write_requests d { ctx with kv_wb := some wb1 } rest
            (responses ++ [{ cmd_type := some .put }]) ranges ssts
    | .delete cf key =>
      match ctx.kv_wb with
      | none => .error .missingWriteBatch
      | some wb =>
        match handle_delete d wb cf key with
        | .error e => .ok (.error e, ctx)
        | .ok wb1 =>
          exec_write_requests d { ctx with kv_wb := some wb1 } rest
            (responses ++ [{ cmd_type := some .delete }]) ranges ssts
    | .deleteRange cf s_key e_key notify_only =>
      match handle_delete_range d ctx.engine cf s_key e_key notify_only
          ranges ctx.use_delete_range with
      | .error e => .ok (.error e, ctx)
      | .ok (engine1, ranges1) =>
        exec_write_requests d { ctx with engine := engine1 } rest
          (responses ++ [{ cmd_type := some .deleteRange }]) ranges1 ssts
    | .ingestSst sst =>
      match handle_ingest_sst d ctx.engine ctx.importer_deleted sst ssts with
      | (.error e, deleted1) =>
        .ok (.error e, { ctx with importer_deleted := deleted1 })
      | (.ok (engine1, ssts1), deleted1) =>
        exec_write_requests d
          { ctx with engine := engine1, importer_deleted := deleted1 } rest
          (responses ++ [{ cmd_type := some .ingestSst }]) ranges ssts1
    | .snap =>
      exec_write_requests d ctx rest responses ranges ssts
    | .get _ _ =>
      exec_write_requests d ctx rest responses ranges ssts
    | .prewrite =>
      .ok (.error (.other "invalid cmd type, message maybe corrupted"), ctx)
    | .invalid =>
      .ok (.error (.other "invalid cmd type, message maybe corrupted"), ctx)
    | .readIndex =>
      .ok (.error (.other "invalid cmd type, message maybe corrupted"), ctx)

/-- ApplyDelegate::exec_write_cmd: run all sub-requests, build the batch
response, check the mutual exclusion of DeleteRange and IngestSst results,
and assemble the exec result. -/
def exec_write_cmd (d : ApplyDelegate) (ctx : ApplyContext)
    (req : RaftCmdRequest) :
    Except Fatal
      (Except KvError (RaftCmdResponse × ApplyResult) × ApplyContext) :=
  match exec_write_requests d ctx req.requests [] [] [] with
  | .error f => .error f
  | .ok (.error e, ctx1) => .ok (.error e, ctx1)
  | .ok (.ok (responses, ranges, ssts), ctx1) =>
    let resp :=
      { RaftCmdResponse.default with
          header := { RaftCmdResponse.default.header with
                        uuid := req.header.uuid },
          responses := responses }
    if !(ranges.isEmpty || ssts.isEmpty) then
      .error (.assertFail "ranges and ssts are mutually exclusive")
    else
      let exec_res :=
        if !ranges.isEmpty then ApplyResult.res (.deleteRange ranges)
        else if !ssts.isEmpty then ApplyResult.res (.ingestSst ssts)
        else ApplyResult.none
      .ok (.ok (resp, exec_res), ctx1)

/-- The outcome type of an admin executor: a fatal abort, or a
deterministic command error, or an admin response with an apply result;
the delegate and context are threaded through. -/
abbrev AdminOutcome :=
  Except Fatal
    (Except KvError (AdminResponse × ApplyResult)
      × ApplyDelegate × ApplyContext)

/-- ApplyDelegate::exec_change_peer: bump conf_ver, apply the membership
change with its duplicate and mismatch checks, mark self-removal, persist
the region state, and emit a ChangePeer exec result. -/
def exec_change_peer (d : ApplyDelegate) (ctx : ApplyContext)
    (request : ChangePeerRequest) : AdminOutcome :=
  match ctx.exec_ctx with
  | none => .error .missingExecCtx
  | some ec =>
    let peer := request.peer
    let store_id := peer.store_id
    let region0 := d.region
    let region1 :=
      { region0 with
          epoch := { region0.epoch with
                       conf_ver := region0.epoch.conf_ver + 1 } }
    let step : Except KvError (Region × ApplyDelegate) :=
      match request.change_type with
      | .addNode =>
        match find_peer region1 store_id with
        | some p =>
          if !p.is_learner || p.id != peer.id then
            .error (.other "can not add duplicated peer")
          else
            .ok (promote_peer region1 store_id, d)
        | none =>
          .ok ({ region1 with peers := region1.peers ++ [peer] }, d)
      | .removeNode =>
        match remove_peer region1 store_id with
        | (some p, region2) =>
          if p != peer then
            .error (.other "remove unmatched peer")
          else if d.id == peer.id then
            .ok (region2, { d with stopped := true, pending_remove := true })
          else
            .ok (region2, d)
        | (none, _) =>
          .error (.other "remove missing peer")
      | .addLearnerNode =>
        if (find_peer region1 store_id).isSome then
          .error (.other "can not add duplicated learner")
        else
          .ok ({ region1 with peers := region1.peers ++ [peer] }, d)
    match step with
    | .error e => .ok (.error e, d, ctx)
    | .ok (region, d1) =>
      match ctx.kv_wb with
      | none => .error .missingWriteBatch
      | some wb =>
        let state : PeerState :=
          if d1.pending_remove then .tombstone else .normal
        let wb1 := write_peer_state wb region state none
        let resp := { AdminResponse.default with
                        change_peer_region := some region }
        .ok (.ok (resp,
               .res (.changePeer
                 { index := ec.index, conf_change := none,
                   peer := peer, region := region })),
             d1, { ctx with kv_wb := some wb1 })

/-- The validation loop of exec_batch_split over the split requests,
accumulating the split keys. -/
def batch_split_collect_keys (derived : Region)
    (reqs : List SplitRequest) (keys : List Bytes) :
    Except KvError (List Bytes) :=
  match reqs with
  | [] => .ok keys
  | req :: rest =>
    if req.split_key.isEmpty then
      .error (.other "missing split key")
    else if bytesLe req.split_key
        ((keys.getLast?).getD derived.start_key) then
      .error (.other "invalid split request")
    else if req.new_peer_ids.length != derived.peers.length then
      .error (.other "invalid new peer id count")
    else
      batch_split_collect_keys derived rest (keys ++ [req.split_key])

/-- The construction loop of exec_batch_split over the split requests:
each new region takes the next key interval, inherits the derived epoch
and the derived peers with replaced ids, and is persisted together with an
initial apply state. -/
def batch_split_build_regions (derived : Region)
    (reqs : List SplitRequest) (keys : List Bytes)
    (regions : List Region) (wb : WriteBatch) :
    Except Fatal (List Bytes × List Region × WriteBatch) :=
  match reqs with
  | [] => .ok (keys, regions, wb)
  | req :: rest =>
    match keys with
    | [] => .error (.assertFail "split keys exhausted")
    | k0 :: keys1 =>
      match keys1 with
      | [] => .error (.assertFail "split keys exhausted")
      | k1 :: _ =>
        let new_region : Region :=
          { id := req.new_region_id,
            start_key := k0,
            end_key := k1,
            peers := (derived.peers.zip req.new_peer_ids).map
              (fun pq => { pq.1 with id := pq.2 }),
            epoch := derived.epoch }
        let wb1 := write_initial_apply_state
          (write_peer_state wb new_region .normal none) new_region.id
        batch_split_build_regions derived rest keys1
          (regions ++ [new_region]) wb1

/-- ApplyDelegate::exec_batch_split: validate the requests, bump the
version by the number of splits, carve the key intervals according to
right_derive, persist every new region with an initial apply state and the
derived region, and emit SplitRegion. -/
def exec_batch_split (d : ApplyDelegate) (ctx : ApplyContext)
    (right_derive : Bool) (split_reqs : List SplitRequest) : AdminOutcome :=
  if split_reqs.isEmpty then
    .ok (.error (.other "missing split requests"), d, ctx)
  else
    let derived0 := d.region
    let new_region_cnt := split_reqs.length
    match batch_split_collect_keys derived0 split_reqs [] with
    | .error e => .ok (.error e, d, ctx)
    | .ok keys =>
      match check_key_in_region ((keys.getLast?).getD []) d.region with
      | .error e => .ok (.error e, d, ctx)
      | .ok _ =>
        let new_version := derived0.epoch.version + new_region_cnt
        let derived1 :=
          { derived0 with
              epoch := { derived0.epoch with version := new_version } }
        match ctx.kv_wb with
        | none => .error .missingWriteBatch
        | some wb =>
          let (keys1, derived2, regions0) :=
            if right_derive then
              (derived1.start_key :: keys, derived1, ([] : List Region))
            else
              let derived2 :=
                { derived1 with end_key := (keys.headD []) }
              (keys ++ [derived1.end_key], derived2, [derived2])
          match batch_split_build_regions derived2 split_reqs keys1
              regions0 wb with
          | .error f => .error f
          | .ok (keys2, regions1, wb1) =>
            let (derived3, regions2) :=
              if right_derive then
                let derived3 :=
                  { derived2 with start_key := keys2.headD [] }
                (derived3, regions1 ++ [derived3])
              else
                (derived2, regions1)
            let wb2 := write_peer_state wb1 derived3 .normal none
            let resp := { AdminResponse.default with
                            splits_regions := regions2 }
            .ok (.ok (resp, .res (.splitRegion regions2 derived3)),
                 d, { ctx with kv_wb := some wb2 })

/-- ApplyDelegate::exec_split: the deprecated single split is redirected to
a one-element batch split. -/
def exec_split (d : ApplyDelegate) (ctx : ApplyContext)
    (split : SplitRequest) : AdminOutcome :=
  exec_batch_split d ctx split.right_derive [split]

/-- ApplyDelegate::exec_prepare_merge: reject a min_index below the first
retained log index fatally, bump version and conf_ver, persist the Merging
state with the merge progress, and emit PrepareMerge. -/
def exec_prepare_merge (d : ApplyDelegate) (ctx : ApplyContext)
    (min_index : Nat) (target : Region) : AdminOutcome :=
  match ctx.exec_ctx with
  | none => .error .missingExecCtx
  | some ec =>
    if min_index < first_index ec.apply_state then
      .error .prepareMergeFilteredCompact
    else
      let region0 := d.region
      let region :=
        { region0 with
            epoch := { conf_ver := region0.epoch.conf_ver + 1,
                       version := region0.epoch.version + 1 } }
      let merging_state : MergeState :=
        { min_index := min_index, target := target, commit := ec.index }
      match ctx.kv_wb with
      | none => .error .missingWriteBatch
      | some wb =>
        let wb1 := write_peer_state wb region .merging (some merging_state)
        .ok (.ok (AdminResponse.default,
                  .res (.prepareMerge region merging_state)),
             d, { ctx with kv_wb := some wb1 })

/-- ApplyDelegate::exec_commit_merge: before the source has signalled
readiness, send CatchUpLogs and yield with WaitMergeSource; on re-entry,
verify the persisted source region state, merge the ranges, bump the
version to max of both plus one, persist the merged Normal state and the
source Tombstone state, and emit CommitMerge. -/
def exec_commit_merge (d : ApplyDelegate) (ctx : ApplyContext)
    (merge : CommitMergeRequest) : AdminOutcome :=
  let source_region := merge.source
  let source_region_id := source_region.id
  if d.ready_source_region_id != source_region_id then
    if d.ready_source_region_id != 0 then
      .error (.commitMergeBadReadySource d.ready_source_region_id
        source_region_id)
    else
      let ctx1 := { ctx with notifier_msgs := ctx.notifier_msgs ++
          [.catchUpLogs source_region_id d.region.id merge] }
      .ok (.ok (AdminResponse.default, .waitMergeSource), d, ctx1)
  else
    let d1 := { d with ready_source_region_id := 0 }
    match ctx.engine.get_region_state source_region_id with
    | none => .error (.commitMergeMissingState source_region_id)
    | some state =>
      match state.state with
      | .normal => exec_commit_merge_ready d1 ctx merge state
      | .merging => exec_commit_merge_ready d1 ctx merge state
      | _ => .error .commitMergeBadState
where
  /-- The body of exec_commit_merge once the persisted source state has an
  acceptable lifecycle state. -/
  exec_commit_merge_ready (d : ApplyDelegate) (ctx : ApplyContext)
      (merge : CommitMergeRequest) (state : RegionLocalState) :
      AdminOutcome :=
    let source_region := merge.source
    if source_region != state.region then
      .error .commitMergeSourceMismatch
    else
      let region0 := d.region
      let version :=
        max source_region.epoch.version region0.epoch.version + 1
      let region1 :=
        { region0 with
            epoch := { region0.epoch with version := version } }
      let region2 :=
        if enc_end_key region1 == enc_start_key source_region then
          { region1 with end_key := source_region.end_key }
        else
          { region1 with start_key := source_region.start_key }
      match ctx.kv_wb with
      | none => .error .missingWriteBatch
      | some wb =>
        let merging_state : MergeState :=
          { min_index := 0, target := d.region, commit := 0 }
        let wb1 := write_peer_state
          (write_peer_state wb region2 .normal none)
          source_region .tombstone (some merging_state)
        .ok (.ok (AdminResponse.default,
                  .res (.commitMerge region2 source_region)),
             d, { ctx with kv_wb := some wb1 })

/-- ApplyDelegate::exec_rollback_merge: read back the persisted own region
state, assert it is Merging with the matching commit, bump the version,
persist the Normal state and emit RollbackMerge. -/
def exec_rollback_merge (d : ApplyDelegate) (ctx : ApplyContext)
    (commit : Nat) : AdminOutcome :=
  match ctx.engine.get_region_state d.region.id with
  | none => .error (.rollbackMergeMissingState d.region.id)
  | some state =>
    if state.state != PeerState.merging then
      .error .rollbackMergeBadState
    else if ((state.merge_state.map MergeState.commit).getD 0) != commit then
      .error .rollbackMergeBadCommit
    else
      let region0 := d.region
      let region :=
        { region0 with
            epoch := { region0.epoch with
                         version := region0.epoch.version + 1 } }
      match ctx.kv_wb with
      | none => .error .missingWriteBatch
      | some wb =>
        let wb1 := write_peer_state wb region .normal none
        .ok (.ok (AdminResponse.default,
                  .res (.rollbackMerge region commit)),
             d, { ctx with kv_wb := some wb1 })

/-- compact_raft_log in apply.rs: refuse to move the truncation watermark
backwards or past the applied index, then advance it. -/
def compact_raft_log (state : RaftApplyState)
    (compact_index compact_term : Nat) : Except KvError RaftApplyState :=
  if compact_index ≤ state.truncated_state.index then
    .error (.other "try to truncate compacted entries")
  else if compact_index > state.applied_index then
    .error (.other "compact index > applied index")
  else
    .ok { state with truncated_state :=
            { index := compact_index, term := compact_term } }

/-- ApplyDelegate::exec_compact_log: skip below the first retained index or
while merging, reject a missing compact term, otherwise advance the
truncated state in the exec context and emit CompactLog. -/
def exec_compact_log (d : ApplyDelegate) (ctx : ApplyContext)
    (compact_index compact_term : Nat) : AdminOutcome :=
  match ctx.exec_ctx with
  | none => .error .missingExecCtx
  | some ec =>
    let resp := AdminResponse.default
    let fi := first_index ec.apply_state
    if compact_index ≤ fi then
      .ok (.ok (resp, .none), d, ctx)
    else if d.is_merging then
      .ok (.ok (resp, .none), d, ctx)
    else if compact_term == 0 then
      .ok (.error (.other "command format is outdated, please upgrade leader"),
           d, ctx)
    else
      match compact_raft_log ec.apply_state compact_index compact_term with
      | .error e => .ok (.error e, d, ctx)
      | .ok apply_state1 =>
        let ec1 := { ec with apply_state := apply_state1 }
        let ctx1 := { ctx with exec_ctx := some ec1 }
        .ok (.ok (resp,
               .res (.compactLog apply_state1.truncated_state fi)),
             d, ctx1)

/-- ApplyDelegate::exec_compute_hash: emit the region, the entry index and
a storage snapshot for asynchronous hashing. -/
def exec_compute_hash (d : ApplyDelegate) (ctx : ApplyContext) :
    AdminOutcome :=
  match ctx.exec_ctx with
  | none => .error .missingExecCtx
  | some ec =>
    .ok (.ok (AdminResponse.default,
              .res (.computeHash d.region ec.index ctx.engine)),
         d, ctx)

/-- ApplyDelegate::exec_verify_hash: propagate index and hash. -/
def exec_verify_hash (d : ApplyDelegate) (ctx : ApplyContext)
    (index : Nat) (hash : Bytes) : AdminOutcome :=
  .ok (.ok (AdminResponse.default, .res (.verifyHash index hash)), d, ctx)

/-- notify_stale_command in apply.rs: take the callback of the command
(its absence is a fatal leak) and invoke it with a StaleCommand response
bound to the given term. -/
def notify_stale_command (term : Nat) (cmd : PendingCmd) :
    Except Fatal (Nat × RaftCmdResponse) :=
  match cmd.cb with
  | none => .error .callbackMissing
  | some cb => .ok (cb, cmd_resp_err_resp .staleCommand term)

/-- notify_region_removed in apply.rs: take the callback of the command and
invoke it with a RegionNotFound error response. -/
def notify_region_removed (region_id : Nat) (cmd : PendingCmd) :
    Except Fatal (Nat × RaftCmdResponse) :=
  match cmd.cb with
  | none => .error .callbackMissing
  | some cb => .ok (cb, cmd_resp_new_error (.regionNotFound region_id))

/-- Shrinking fact about pop_normal: a successful pop shortens the normal
queue, which bounds the pop loops below. -/
def pop_normal_some_spec (q : PendingCmdQueue) (index term : Nat)
    (head : PendingCmd) (q1 : PendingCmdQueue)
    (h : q.pop_normal index term = (some head, q1)) :
    q1.normals.length < q.normals.length := by
  unfold PendingCmdQueue.pop_normal at h
  rcases hn : q.normals with _ | ⟨c, rest⟩ <;> rw [hn] at h
  · simp at h
  · simp only at h
    split at h
    · simp at h
    · simp only [Prod.mk.injEq] at h
      obtain ⟨-, h2⟩ := h
      subst h2
      simp [hn]

/-- The normal-queue scan of ApplyDelegate::find_cb: pop matching or stale
heads, returning the callback of the exact (index, term) match, failing
fatally on an unexpected same-term callback, and notifying older heads as
stale with the delegate term. -/
def find_cb_normals (q : PendingCmdQueue) (dterm index term : Nat)
    (invoked : List (Nat × RaftCmdResponse)) :
    Except Fatal
      (Option Nat × PendingCmdQueue × List (Nat × RaftCmdResponse)) :=
  match h : q.pop_normal index term with
  | (none, q1) => .ok (none, q1, invoked)
  | (some head, q1) =>
    if head.term == term then
      if head.index == index then
        match head.cb with
        | none => .error .callbackMissing
        | some cb => .ok (some cb, q1, invoked)
      else
        .error (.unexpectedCallback term head.index index)
    else
      match notify_stale_command dterm head with
      | .error f => .error f
      | .ok pr => find_cb_normals q1 dterm index term (invoked ++ [pr])
termination_by q.normals.length
decreasing_by
  exact pop_normal_some_spec q index term head q1 h

/-- ApplyDelegate::find_cb: the conf-change slot is taken unconditionally
(a position mismatch notifies it stale); normal proposals are scanned via
the pop loop. -/
def find_cb (s : ApplySt) (index term : Nat) (is_conf_change : Bool) :
    Except Fatal (Option Nat × ApplySt) :=
  if is_conf_change then
    match s.d.pending_cmds.take_conf_change with
    | (none, q1) =>
      .ok (none, { s with d := { s.d with pending_cmds := q1 } })
    | (some cmd, q1) =>
      if cmd.index == index && cmd.term == term then
        match cmd.cb with
        | none => .error .callbackMissing
        | some cb =>
          .ok (some cb, { s with d := { s.d with pending_cmds := q1 } })
      else
        match notify_stale_command s.d.term cmd with
        | .error f => .error f
        | .ok pr =>
          .ok (none,
               { s with d := { s.d with pending_cmds := q1 },
                        ctx := { s.ctx with
                                   invoked := s.ctx.invoked ++ [pr] } })
  else
    match find_cb_normals s.d.pending_cmds s.d.term index term [] with
    | .error f => .error f
    | .ok (cb, q1, invoked1) =>
      .ok (cb,
           { s with d := { s.d with pending_cmds := q1 },
                    ctx := { s.ctx with
                               invoked := s.ctx.invoked ++ invoked1 } })

/-- The stale-drain loop of handle_raft_entry_normal on an empty entry:
pop every pending normal command whose term is strictly below the entry
term (the wildcard index is the largest u64) and collect a StaleCommand
response for each, to be pushed into the current callback bucket. -/
def drain_stale_normals (q : PendingCmdQueue) (term : Nat)
    (acc : List (Option Nat × RaftCmdResponse)) :
    PendingCmdQueue × List (Option Nat × RaftCmdResponse) :=
  match h : q.pop_normal U64_MAX (term - 1) with
  | (none, q1) => (q1, acc)
  | (some cmd, q1) =>
    drain_stale_normals q1 term
      (acc ++ [(cmd.cb, cmd_resp_err_resp .staleCommand term)])
termination_by q.normals.length
decreasing_by
  exact pop_normal_some_spec q U64_MAX (term - 1) cmd q1 h

/-- Pushing a response (with its optional callback) into the newest
callback bucket of the context; a missing bucket is a fatal unwrap. -/
def push_to_last_bucket (ctx : ApplyContext)
    (cb : Option Nat) (resp : RaftCmdResponse) :
    Except Fatal ApplyContext :=
  match ctx.cbs.getLast? with
  | none => .error .missingCallbackBucket
  | some bucket =>
    .ok { ctx with cbs := ctx.cbs.dropLast
            ++ [{ bucket with cbs := bucket.cbs ++ [(cb, resp)] }] }

/-- ApplyContext::prepare_for: ensure a write batch exists, push a fresh
callback bucket for the region of the delegate, and snapshot its applied
index (observer hooks are not modelled). -/
def prepare_for (s : ApplySt) : ApplySt :=
  let ctx := s.ctx
  let ctx := { ctx with kv_wb := some (ctx.kv_wb.getD WriteBatch.empty) }
  let ctx := { ctx with
                 cbs := ctx.cbs ++ [{ region := s.d.region, cbs := [] }],
                 last_applied_index := s.d.apply_state.applied_index }
  { s with ctx := ctx }

/-- ApplyDelegate::write_apply_state: record the apply state of the
delegate into the write batch under its apply-state key. -/
def write_apply_state (d : ApplyDelegate) (wb : WriteBatch) : WriteBatch :=
  { wb with ops := wb.ops ++ [.putApplyState d.region.id d.apply_state] }

/-- ApplyContext::write_to_db: flush a non-empty write batch into the
engine (clearing it and the sync hint), then invoke every buffered
callback bucket. Returns whether a sync was performed. -/
def write_to_db (ctx : ApplyContext) : Bool × ApplyContext :=
  let need_sync := ctx.enable_sync_log && ctx.sync_log_hint
  let ctx :=
    match ctx.kv_wb with
    | some wb =>
      if !wb.ops.isEmpty then
        { ctx with engine := ctx.engine.apply_ops wb.ops,
                   sync_log_hint := false,
                   kv_wb := some WriteBatch.empty }
      else ctx
    | none => ctx
  let fired := ctx.cbs.flatMap (fun bucket =>
    bucket.cbs.filterMap (fun pr =>
      match pr.1 with
      | some cb => some (cb, pr.2)
      | none => none))
  (need_sync, { ctx with cbs := [], invoked := ctx.invoked ++ fired })

/-- ApplyContext::commit_opt: optionally flush and re-prepare (metrics and
byte counters are not modelled). -/
def commit_opt (s : ApplySt) (persistent : Bool) : ApplySt :=
  if persistent then
    let (_, ctx1) := write_to_db s.ctx
    prepare_for { s with ctx := ctx1 }
  else s

/-- ApplyContext::commit: persist the apply state of the delegate when it
advanced past the prepared snapshot, then flush and re-prepare. -/
def ctx_commit (s : ApplySt) : Except Fatal ApplySt :=
  if s.ctx.last_applied_index < s.d.apply_state.applied_index then
    match s.ctx.kv_wb with
    | none => .error .missingWriteBatch
    | some wb =>
      let wb1 := write_apply_state s.d wb
      .ok (commit_opt { s with ctx := { s.ctx with kv_wb := some wb1 } } true)
  else
    .ok (commit_opt s true)

/-- ApplyContext::finish_for: persist the apply state (unless the delegate
is being removed) and queue the ApplyRes of this round. -/
def finish_for (s : ApplySt) (results : List ExecResult) :
    Except Fatal ApplySt :=
  if !s.d.pending_remove then
    match s.ctx.kv_wb with
    | none => .error .missingWriteBatch
    | some wb =>
      let wb1 := write_apply_state s.d wb
      let s1 := commit_opt { s with ctx := { s.ctx with kv_wb := some wb1 } }
        false
      .ok { s1 with ctx := { s1.ctx with apply_res := s1.ctx.apply_res ++
              [{ region_id := s1.d.region.id,
                 apply_state := s1.d.apply_state,
                 applied_index_term := s1.d.applied_index_term,
                 exec_res := results }] } }
  else
    let s1 := commit_opt s false
    .ok { s1 with ctx := { s1.ctx with apply_res := s1.ctx.apply_res ++
            [{ region_id := s1.d.region.id,
               apply_state := s1.d.apply_state,
               applied_index_term := s1.d.applied_index_term,
               exec_res := results }] } }

/-- Notifying a list of pending commands as removed, collecting the fired
callbacks. -/
def notify_all_removed (region_id : Nat) (cmds : List PendingCmd) :
    Except Fatal (List (Nat × RaftCmdResponse)) :=
  match cmds with
  | [] => .ok []
  | cmd :: rest =>
    match notify_region_removed region_id cmd with
    | .error f => .error f
    | .ok pr =>
      match notify_all_removed region_id rest with
      | .error f => .error f
      | .ok prs => .ok (pr :: prs)

/-- ApplyDelegate::destroy: stop the delegate and notify every pending
command (normals, then the conf-change occupant) with RegionNotFound
(mailbox closing is not modelled). -/
def delegate_destroy (s : ApplySt) : Except Fatal ApplySt :=
  let d := s.d
  let cleared := { d.pending_cmds with normals := [], conf_change := none }
  let d1 := { d with stopped := true, pending_cmds := cleared }
  match notify_all_removed d.region.id d.pending_cmds.normals with
  | .error f => .error f
  | .ok prs =>
    match d.pending_cmds.conf_change with
    | none =>
      .ok { s with
              d := d1,
              ctx := { s.ctx with invoked := s.ctx.invoked ++ prs } }
    | some cmd =>
      match notify_region_removed d.region.id cmd with
      | .error f => .error f
      | .ok pr =>
        .ok { s with
                d := d1,
                ctx := { s.ctx with
                           invoked := s.ctx.invoked ++ prs ++ [pr] } }

/-- Notifying a list of pending commands as stale, collecting the fired
callbacks. -/
def notify_all_stale (term : Nat) (cmds : List PendingCmd) :
    Except Fatal (List (Nat × RaftCmdResponse)) :=
  match cmds with
  | [] => .ok []
  | cmd :: rest =>
    match notify_stale_command term cmd with
    | .error f => .error f
    | .ok pr =>
      match notify_all_stale term rest with
      | .error f => .error f
      | .ok prs => .ok (pr :: prs)

/-- ApplyDelegate::clear_all_commands_as_stale: drain every pending command
(normals, then the conf-change occupant) and notify each as stale with the
delegate term. -/
def clear_all_commands_as_stale (d : ApplyDelegate) :
    Except Fatal (ApplyDelegate × List (Nat × RaftCmdResponse)) :=
  match notify_all_stale d.term d.pending_cmds.normals with
  | .error f => .error f
  | .ok prs =>
    let cleared :=
      { d with pending_cmds :=
          { d.pending_cmds with normals := [], conf_change := none } }
    match d.pending_cmds.conf_change with
    | none => .ok (cleared, prs)
    | some cmd =>
      match notify_stale_command d.term cmd with
      | .error f => .error f
      | .ok pr => .ok (cleared, prs ++ [pr])

/-- ApplyDelegate::exec_admin_cmd: dispatch on the admin command type,
stamp the command type into the admin response and wrap it in a command
response carrying the request uuid. -/
def exec_admin_cmd (d : ApplyDelegate) (ctx : ApplyContext)
    (req : RaftCmdRequest) (request : AdminRequest) :
    Except Fatal
      (Except KvError (RaftCmdResponse × ApplyResult)
        × ApplyDelegate × ApplyContext) :=
  let cmd_type := request.cmd_type
  let dispatched : AdminOutcome :=
    match request with
    | .changePeer cp => exec_change_peer d ctx cp
    | .split sp => exec_split d ctx sp
    | .batchSplit right_derive reqs => exec_batch_split d ctx right_derive reqs
    | .compactLog ci ct => exec_compact_log d ctx ci ct
    | .transferLeader =>
      .ok (.error (.other "transfer leader wont exec"), d, ctx)
    | .computeHash => exec_compute_hash d ctx
    | .verifyHash index hash => exec_verify_hash d ctx index hash
    | .prepareMerge min_index target => exec_prepare_merge d ctx min_index target
    | .commitMerge merge => exec_commit_merge d ctx merge
    | .rollbackMerge commit => exec_rollback_merge d ctx commit
    | .invalidAdmin =>
      .ok (.error (.other "unsupported admin command type"), d, ctx)
  match dispatched with
  | .error f => .error f
  | .ok (.error e, d1, ctx1) => .ok (.error e, d1, ctx1)
  | .ok (.ok (response, exec_result), d1, ctx1) =>
    let response1 := { response with cmd_type := some cmd_type }
    let resp :=
      { RaftCmdResponse.default with
          header := { RaftCmdResponse.default.header with
                        uuid := req.header.uuid },
          admin_response := some response1 }
    .ok (.ok (resp, exec_result), d1, ctx1)

/-- ApplyDelegate::exec_raft_cmd: region-epoch check (with region inclusion
once the request version reaches the last merge version), then admin or
write dispatch. -/
def exec_raft_cmd (s : ApplySt) (req : RaftCmdRequest) :
    Except Fatal
      (Except KvError (RaftCmdResponse × ApplyResult) × ApplySt) :=
  let include_region :=
    req.header.region_epoch.version ≥ s.d.last_merge_version
  match check_region_epoch req s.d.region include_region with
  | .error e => .ok (.error e, s)
  | .ok _ =>
    match req.admin_request with
    | some adm =>
      match exec_admin_cmd s.d s.ctx req adm with
      | .error f => .error f
      | .ok (out, d1, ctx1) => .ok (out, { d := d1, ctx := ctx1 })
    | none =>
      match exec_write_cmd s.d s.ctx req with
      | .error f => .error f
      | .ok (out, ctx1) => .ok (out, { s with ctx := ctx1 })

/-- The region mutation applied by apply_raft_cmd after a successful
execution, per exec result. -/
def apply_exec_result_to_delegate (d : ApplyDelegate) (r : ExecResult) :
    ApplyDelegate :=
  match r with
  | .changePeer cp => { d with region := cp.region }
  | .computeHash _ _ _ => d
  | .verifyHash _ _ => d
  | .compactLog _ _ => d
  | .deleteRange _ => d
  | .ingestSst _ => d
  | .splitRegion _ derived => { d with region := derived }
  | .prepareMerge region _ => { d with region := region, is_merging := true }
  | .commitMerge region _ =>
    { d with region := region,
             last_merge_version := region.epoch.version }
  | .rollbackMerge region _ =>
    { d with region := region, is_merging := false }

/-- ApplyDelegate::apply_raft_cmd: wrap the execution in a write-batch save
point (pop on success, rollback plus error response on failure), then
advance the apply state to the entry position and apply the region-object
mutation of the exec result; a WaitMergeSource outcome returns before any
state advance. -/
def apply_raft_cmd (s : ApplySt) (index term : Nat) (req : RaftCmdRequest) :
    Except Fatal (RaftCmdResponse × ApplyResult × ApplySt) :=
  if s.d.pending_remove then
    .error (.assertFail "apply while pending remove")
  else
    let ec : ExecCtx :=
      { apply_state := s.d.apply_state, index := index, term := term }
    match s.ctx.kv_wb with
    | none => .error .missingWriteBatch
    | some wb =>
      let s0 :=
        { s with ctx := { s.ctx with exec_ctx := some ec,
                                     kv_wb := some wb.set_save_point } }
      match exec_raft_cmd s0 req with
      | .error f => .error f
      | .ok (out, s1) =>
        let after_save :
            Except Fatal ((RaftCmdResponse × ApplyResult) × ApplySt) :=
          match out with
          | .ok a =>
            match s1.ctx.kv_wb with
            | none => .error .missingWriteBatch
            | some wb1 =>
              match wb1.pop_save_point with
              | none => .error .missingSavePoint
              | some wb2 =>
                .ok (a, { s1 with ctx := { s1.ctx with kv_wb := some wb2 } })
          | .error e =>
            match s1.ctx.kv_wb with
            | none => .error .missingWriteBatch
            | some wb1 =>
              match wb1.rollback_to_save_point with
              | none => .error .missingSavePoint
              | some wb2 =>
                .ok ((cmd_resp_new_error e, ApplyResult.none),
                     { s1 with ctx := { s1.ctx with kv_wb := some wb2 } })
        match after_save with
        | .error f => .error f
        | .ok ((resp, exec_result), s2) =>
          if exec_result == ApplyResult.waitMergeSource then
            .ok (resp, exec_result, s2)
          else
            match s2.ctx.exec_ctx with
            | none => .error .missingExecCtx
            | some ec1 =>
              let new_state :=
                { ec1.apply_state with applied_index := index }
              let d1 := { s2.d with apply_state := new_state,
                                    applied_index_term := term }
              let d2 :=
                match exec_result with
                | .res r => apply_exec_result_to_delegate d1 r
                | _ => d1
              .ok (resp, exec_result,
                   { d := d2,
                     ctx := { s2.ctx with exec_ctx := none } })

/-- ApplyDelegate::process_raft_cmd: set the sync hint, execute the
command, bind the delegate term into the response, find the matching
callback and push the response into the current bucket (observer hooks are
not modelled); a WaitMergeSource outcome returns immediately. -/
def process_raft_cmd (s : ApplySt) (index term : Nat)
    (cmd : RaftCmdRequest) : Except Fatal (ApplyResult × ApplySt) :=
  if index == 0 then
    .error .zeroIndex
  else
    let s0 :=
      { s with ctx := { s.ctx with sync_log_hint :=
          s.ctx.sync_log_hint || should_sync_log cmd } }
    let is_conf_change := (get_change_peer_cmd cmd).isSome
    match apply_raft_cmd s0 index term cmd with
    | .error f => .error f
    | .ok (resp, exec_result, s1) =>
      if exec_result == ApplyResult.waitMergeSource then
        .ok (exec_result, s1)
      else
        let resp1 := cmd_resp_bind_term resp s1.d.term
        match find_cb s1 index term is_conf_change with
        | .error f => .error f
        | .ok (cmd_cb, s2) =>
          match push_to_last_bucket s2.ctx cmd_cb resp1 with
          | .error f => .error f
          | .ok ctx1 => .ok (exec_result, { s2 with ctx := ctx1 })

/-- ApplyDelegate::handle_raft_entry_normal: a non-empty entry is decoded
and processed (with a forced pre-flush and a possible yield when the batch
must be written first); an empty entry advances the apply state and drains
strictly older pending normal commands as stale. -/
def handle_raft_entry_normal (s : ApplySt) (index term : Nat)
    (data : Option RaftCmdRequest) :
    Except Fatal (ApplyResult × ApplySt) :=
  match data with
  | some cmd =>
    match s.ctx.kv_wb with
    | none => .error .missingWriteBatch
    | some wb =>
      if should_write_to_engine cmd || wb.should_write_to_engine_hint then
        match ctx_commit s with
        | .error f => .error f
        | .ok s1 =>
          if s1.d.written then
            .ok (.yield, s1)
          else
            process_raft_cmd
              { s1 with d := { s1.d with written := true } } index term cmd
      else
        process_raft_cmd s index term cmd
  | none =>
    let new_state := { s.d.apply_state with applied_index := index }
    let d1 := { s.d with apply_state := new_state,
                         applied_index_term := term }
    if term == 0 then
      .error (.assertFail "empty entry with zero term")
    else
      let (q1, stale) := drain_stale_normals d1.pending_cmds term []
      let d2 := { d1 with pending_cmds := q1 }
      match stale.foldlM (fun ctx pr => push_to_last_bucket ctx pr.1 pr.2)
          s.ctx with
      | .error f => .error f
      | .ok ctx1 => .ok (.none, { d := d2, ctx := ctx1 })

/-- ApplyDelegate::handle_raft_entry_conf_change: process the embedded
command; a plain failure becomes a synthetic empty ChangePeer result, a
ChangePeer result gets the decoded conf change attached, and any other
outcome is fatal. -/
def handle_raft_entry_conf_change (s : ApplySt) (index term : Nat)
    (cc : ConfChange) : Except Fatal (ApplyResult × ApplySt) :=
  match process_raft_cmd s index term cc.context with
  | .error f => .error f
  | .ok (.none, s1) =>
    .ok (.res (.changePeer ChangePeerResult.default), s1)
  | .ok (.res r, s1) =>
    match r with
    | .changePeer cp =>
      .ok (.res (.changePeer { cp with conf_change := some cc }), s1)
    | _ => .error .confChangeBadResult
  | .ok (.yield, _) => .error .unreachableBranch
  | .ok (.waitMergeSource, _) => .error .unreachableBranch

/-- The tail of the entry loop of handle_raft_committed_entries: finish the
round and destroy a pending-remove delegate. -/
def finish_entries (s : ApplySt) (results : List ExecResult) :
    Except Fatal ApplySt :=
  match finish_for s results with
  | .error f => .error f
  | .ok s1 =>
    if s1.d.pending_remove then delegate_destroy s1 else .ok s1

/-- The entry loop of ApplyDelegate::handle_raft_committed_entries: stop on
pending_remove, skip already-applied entries while merging, abort fatally
on any other index gap, dispatch by entry type, and park the remaining
entries on a yield or a merge wait. -/
def handle_entries_loop (s : ApplySt) (entries : List Entry)
    (results : List ExecResult) : Except Fatal ApplySt :=
  match entries with
  | [] => finish_entries s results
  | entry :: rest =>
    if s.d.pending_remove then
      finish_entries s results
    else
      let expect_index := s.d.apply_state.applied_index + 1
      if expect_index != entry.index then
        if expect_index > entry.index && s.d.is_merging then
          handle_entries_loop s rest results
        else
          .error (.indexGap expect_index entry.index)
      else
        let step : Except Fatal (ApplyResult × ApplySt) :=
          match entry.payload with
          | .normal data => handle_raft_entry_normal s entry.index entry.term data
          | .confChange cc =>
            handle_raft_entry_conf_change s entry.index entry.term cc
          | .confChangeV2 => .error .unimplementedEntryType
        match step with
        | .error f => .error f
        | .ok (.none, s1) => handle_entries_loop s1 rest results
        | .ok (.res r, s1) => handle_entries_loop s1 rest (results ++ [r])
        | .ok (res, s1) =>
          match finish_for s1 (results) with
          | .error f => .error f
          | .ok s2 =>
            let d1 := { s2.d with
                          yield_state := some { pending_entries := entry :: rest },
                          wait_merge_state := s2.d.wait_merge_state
                            || res == ApplyResult.waitMergeSource }
            .ok { s2 with d := d1 }

/-- ApplyDelegate::handle_raft_committed_entries: prepare the context and
run the entry loop. -/
def handle_raft_committed_entries (s : ApplySt) (entries : List Entry) :
    Except Fatal ApplySt :=
  if entries.isEmpty then
    .ok s
  else
    handle_entries_loop (prepare_for s) entries []

/-- A client proposal delivered to the apply fsm. -/
structure Proposal where
  is_conf_change : Bool
  index : Nat
  term : Nat
  cb : Nat
deriving Repr, DecidableEq

/-- The per-proposal step of ApplyFsm::handle_proposal on a live delegate:
a conf-change proposal displaces (and notifies stale) the current slot
occupant; a normal proposal is appended. -/
def handle_one_proposal (d : ApplyDelegate) (p : Proposal) :
    Except Fatal (ApplyDelegate × List (Nat × RaftCmdResponse)) :=
  let cmd := PendingCmd.new p.index p.term p.cb
  if p.is_conf_change then
    match d.pending_cmds.take_conf_change with
    | (none, q1) =>
      .ok ({ d with pending_cmds := q1.set_conf_change cmd }, [])
    | (some old, q1) =>
      match notify_stale_command d.term old with
      | .error f => .error f
      | .ok pr =>
        .ok ({ d with pending_cmds := q1.set_conf_change cmd }, [pr])
  else
    .ok ({ d with pending_cmds := d.pending_cmds.append_normal cmd }, [])

/-- The queuing loop of ApplyFsm::handle_proposal over the proposals of a
live delegate. -/
def handle_proposal_loop (d : ApplyDelegate) (props : List Proposal) :
    Except Fatal (ApplyDelegate × List (Nat × RaftCmdResponse)) :=
  match props with
  | [] => .ok (d, [])
  | p :: rest =>
    match handle_one_proposal d p with
    | .error f => .error f
    | .ok (d1, prs) =>
      match handle_proposal_loop d1 rest with
      | .error f => .error f
      | .ok (d2, prs2) => .ok (d2, prs ++ prs2)

/-- ApplyFsm::handle_proposal: a stopped delegate notifies every proposal
as stale; otherwise each proposal is queued in order. -/
def handle_proposal (d : ApplyDelegate) (props : List Proposal) :
    Except Fatal (ApplyDelegate × List (Nat × RaftCmdResponse)) :=
  if d.stopped then
    match notify_all_stale d.term
        (props.map (fun p => PendingCmd.new p.index p.term p.cb)) with
    | .error f => .error f
    | .ok prs => .ok (d, prs)
  else
    handle_proposal_loop d props

/-- ApplyFsm::handle_registration: assert the peer id, staleness-notify
every pending command with the registration term, and replace the delegate
with a fresh one built from the registration. -/
def handle_registration (d : ApplyDelegate) (reg : Registration) :
    Except Fatal (ApplyDelegate × List (Nat × RaftCmdResponse)) :=
  if d.id != reg.id then
    .error (.assertFail "registration peer id mismatch")
  else
    match clear_all_commands_as_stale { d with term := reg.term } with
    | .error f => .error f
    | .ok (_, prs) => .ok (ApplyDelegate.from_registration reg, prs)

/-- Lexicographic order on (term, index) pairs as a proposition; this is
the order the specification describes for pop_normal. -/
def pairLe (a b : Nat × Nat) : Prop :=
  a.1 < b.1 ∨ (a.1 = b.1 ∧ a.2 ≤ b.2)

instance (a b : Nat × Nat) : Decidable (pairLe a b) := by
  unfold pairLe; infer_instance

/-- Concrete fixture: a region epoch. -/
def fx_epoch : RegionEpoch := { conf_ver := 1, version := 3 }

/-- Concrete fixture: a peer. -/
def fx_peer : PeerMeta := { id := 2, store_id := 3, is_learner := false }

/-- Concrete fixture: a region covering the whole key space. -/
def fx_region : Region :=
  { id := 2, start_key := [], end_key := [], peers := [fx_peer],
    epoch := fx_epoch }

/-- Concrete fixture: a fresh apply state. -/
def fx_apply_state : RaftApplyState :=
  { applied_index := 0, truncated_state := { index := 0, term := 0 },
    commit_index := 0, commit_term := 0, last_commit_index := 0 }

/-- Concrete fixture: an empty engine. -/
def fx_engine : Engine :=
  { region_states := [], flushed := [], range_ops := [], ingested := [] }

/-- Concrete fixture: a prepared apply context with one callback bucket. -/
def fx_ctx : ApplyContext :=
  { kv_wb := some WriteBatch.empty,
    cbs := [{ region := fx_region, cbs := [] }],
    apply_res := [], exec_ctx := none, last_applied_index := 0,
    enable_sync_log := false, sync_log_hint := false,
    use_delete_range := false, engine := fx_engine,
    importer_deleted := [], notifier_msgs := [], invoked := [] }

/-- Concrete fixture: a registered delegate for the fixture region. -/
def fx_delegate : ApplyDelegate :=
  ApplyDelegate.from_registration
    { id := 2, term := 1, apply_state := fx_apply_state,
      applied_index_term := 0, region := fx_region, is_merging := false }

/-- Concrete fixture: the combined state. -/
def fx_st : ApplySt := { d := fx_delegate, ctx := fx_ctx }

/-- Concrete fixture for CompactLog: an apply state with a truncated index
of five and an applied index of ten. -/
def fx_as_compact : RaftApplyState :=
  { applied_index := 10, truncated_state := { index := 5, term := 1 },
    commit_index := 10, commit_term := 1, last_commit_index := 10 }

/-- Concrete fixture for CompactLog: a context whose exec context holds the
compact fixture apply state. -/
def fx_ctx_compact : ApplyContext :=
  { fx_ctx with
      exec_ctx := some { apply_state := fx_as_compact, index := 11,
                         term := 1 } }

/-- Replacing the conf-change slot of a delegate, written out for concise
statements. -/
def with_conf_slot (d : ApplyDelegate) (c : Option PendingCmd) :
    ApplyDelegate :=
  { d with pending_cmds := { d.pending_cmds with conf_change := c } }

/-- Appending a normal command to the queue of a delegate, written out for
concise statements. -/
def with_appended_normal (d : ApplyDelegate) (c : PendingCmd) :
    ApplyDelegate :=
  { d with pending_cmds := d.pending_cmds.append_normal c }

/-- Concrete fixture: a delegate whose conf-change slot is occupied. -/
def fx_d_conf : ApplyDelegate :=
  { fx_delegate with
      pending_cmds :=
        { normals := [], normals_cap := 0,
          conf_change := some (PendingCmd.new 1 1 41) } }

/-- Concrete fixture: a conf-change proposal. -/
def fx_prop_conf : Proposal :=
  { is_conf_change := true, index := 2, term := 1, cb := 42 }

/-- Concrete fixture: a delegate with two pending normal commands and an
occupied conf-change slot. -/
def fx_d_pending : ApplyDelegate :=
  { fx_delegate with
      pending_cmds :=
        { normals := [PendingCmd.new 1 1 31, PendingCmd.new 2 1 32],
          normals_cap := 2,
          conf_change := some (PendingCmd.new 3 1 33) } }

/-- Concrete fixture: a registration renewing the fixture delegate at a
later term. -/
def fx_reg2 : Registration :=
  { id := 2, term := 4, apply_state := fx_apply_state,
    applied_index_term := 0, region := fx_region, is_merging := false }

/-- Concrete fixture: a delegate with one stale and one current pending
normal command. -/
def fx_d_two_normals : ApplyDelegate :=
  { fx_delegate with
      pending_cmds :=
        { normals := [PendingCmd.new 1 1 31, PendingCmd.new 2 2 32],
          normals_cap := 2, conf_change := none } }

/-- Concrete fixture: the combined state for the empty-entry scenario. -/
def fx_st_two_normals : ApplySt := { d := fx_d_two_normals, ctx := fx_ctx }

/-- A region with its epoch version replaced, written out for concise
statements. -/
def region_with_version (r : Region) (v : Nat) : Region :=
  { r with epoch := { r.epoch with version := v } }

/-- A region with its end key replaced. -/
def region_with_end (r : Region) (k : Bytes) : Region :=
  { r with end_key := k }

/-- A region with its start key replaced. -/
def region_with_start (r : Region) (k : Bytes) : Region :=
  { r with start_key := k }

/-- A delegate with its apply state advanced to an entry position, written
out for concise statements. -/
def with_applied (d : ApplyDelegate) (index term : Nat) : ApplyDelegate :=
  { d with
      apply_state := { d.apply_state with applied_index := index },
      applied_index_term := term }

/-- Concrete fixture for merge: the source region [k3, k5). -/
def fx_src_region : Region :=
  { id := 5, start_key := [107, 51], end_key := [107, 53],
    peers := [fx_peer], epoch := { conf_ver := 1, version := 4 } }

/-- Concrete fixture for merge: the target region [k1, k3). -/
def fx_tgt_region : Region :=
  { id := 2, start_key := [107, 49], end_key := [107, 51],
    peers := [fx_peer], epoch := { conf_ver := 1, version := 3 } }

/-- Concrete fixture for merge: the target delegate, already signalled by
source region five. -/
def fx_d_merge : ApplyDelegate :=
  { fx_delegate with region := fx_tgt_region, ready_source_region_id := 5 }

/-- Concrete fixture for merge: the persisted source region state. -/
def fx_src_state : RegionLocalState :=
  { state := .merging, region := fx_src_region, merge_state := none }

/-- Concrete fixture for merge: a context whose engine holds the source
region state. -/
def fx_ctx_merge : ApplyContext :=
  { fx_ctx with
      engine := { fx_engine with region_states := [(5, fx_src_state)] } }

/-- Concrete fixture for merge: the commit-merge request. -/
def fx_merge_req : CommitMergeRequest := { source := fx_src_region, commit := 9 }

/-- Concrete fixture: a write command whose header epoch version is stale
with respect to the fixture region. -/
def fx_cmd_bad_epoch : RaftCmdRequest :=
  { header := { region_epoch := { conf_ver := 1, version := 1 }, uuid := [] },
    admin_request := none,
    requests := [] }

/-- The validation predicate of the exec_batch_split request loop: every
split key is non-empty and strictly above the previous one (the region
start key for the first), and every request carries exactly as many new
peer ids as the region has peers. -/
def reqs_valid (prev : Bytes) (cnt : Nat) : List SplitRequest → Bool
  | [] => true
  | r :: rest =>
    !r.split_key.isEmpty && !bytesLe r.split_key prev
      && (r.new_peer_ids.length == cnt) && reqs_valid r.split_key cnt rest

/-- The write-batch operations persisted for one new split region: its
Normal region state followed by its initial apply state. -/
def split_ops_of (r : Region) : List WbOp :=
  [.putRegionState r.id { state := .normal, region := r, merge_state := none },
   .putApplyState r.id initial_apply_state]

/-- The relation between a new split region and the split request it came
from: the requested id, the derived epoch, and the derived peers with ids
replaced pairwise by the requested new peer ids. -/
def split_region_matches (derived : Region) (r : Region)
    (req : SplitRequest) : Prop :=
  r.id = req.new_region_id
  ∧ r.epoch = derived.epoch
  ∧ r.peers = (derived.peers.zip req.new_peer_ids).map
      (fun pq => { pq.1 with id := pq.2 })

/-- The new region built for one split request: the requested id, the next
key interval, the derived peers with ids replaced, and the derived epoch. -/
def split_new_region (derived : Region) (req : SplitRequest)
    (k0 k1 : Bytes) : Region :=
  { id := req.new_region_id,
    start_key := k0,
    end_key := k1,
    peers := (derived.peers.zip req.new_peer_ids).map
      (fun pq => { pq.1 with id := pq.2 }),
    epoch := derived.epoch }

/-- Concrete fixture: the batch-split delegate of spec scenario four. -/
def fx_d_split : ApplyDelegate :=
  ApplyDelegate.from_registration
    { id := 3, term := 1, apply_state := fx_apply_state,
      applied_index_term := 0,
      region := { id := 1, start_key := [], end_key := [107, 53],
                  peers := [PeerMeta.mk 3 1 false, PeerMeta.mk 5 2 false,
                            PeerMeta.mk 7 3 false],
                  epoch := { conf_ver := 5, version := 2 } },
      is_merging := false }

/-- Concrete fixture: the single split request of spec scenario four. -/
def fx_split_req : SplitRequest :=
  { split_key := [107, 49], new_region_id := 8, new_peer_ids := [9, 10, 11],
    right_derive := true }

/-- The property that a fatal outcome is not the index-gap panic of the
entry loop of handle_raft_committed_entries. -/
def gap_free (f : Fatal) : Prop :=
  ∀ a b, f ≠ Fatal.indexGap a b

/-- Concrete fixture: the fixture delegate marked as merging. -/
def fx_d_c1 : ApplyDelegate :=
  { fx_delegate with is_merging := true }

/-- Concrete fixture: the merging combined state. -/
def fx_st_c1 : ApplySt := { d := fx_d_c1, ctx := fx_ctx }

/-- Concrete fixture: an empty entry already below the expected index. -/
def fx_entry_old : Entry := { index := 0, term := 1, payload := .normal none }

/-- Concrete fixture: an empty entry far above the expected index. -/
def fx_entry_far : Entry := { index := 5, term := 1, payload := .normal none }

/-- Concrete fixture for C2: the fixture delegate after a commit merge has
raised its last merge version above incoming stale header versions. -/
def fx_d_c2 : ApplyDelegate :=
  { fx_delegate with last_merge_version := 5 }

/-- Concrete fixture for C2: the combined state with the raised last merge
version. -/
def fx_st_c2 : ApplySt := { d := fx_d_c2, ctx := fx_ctx }

theorem pairGt_iff_not_pairLe (a b : Nat × Nat) :
    pairGt a b = true ↔ ¬ pairLe a b := by
  simp only [pairGt, pairLe, Bool.or_eq_true, decide_eq_true_eq,
    Bool.and_eq_true, beq_iff_eq, not_or, not_and, not_le, not_lt]
  omega

/-- C8: pop_normal removes and returns the head of the normal queue exactly
when the queue is non-empty and the head position (term, index) is
lexicographically at most the given (term, index); otherwise the head, if
any, stays at the front and nothing is returned; and on every call that
pops a head while the backing capacity exceeds the threshold of 64 and the
remaining length is below it, the backing storage is shrunk to that
length. -/
theorem claim_C8 (q : PendingCmdQueue) (index term : Nat) :
    (q.normals = [] → q.pop_normal index term = (none, q))
    ∧ ∀ head rest, q.normals = head :: rest →
        (pairLe (head.term, head.index) (term, index) →
          (q.pop_normal index term).1 = some head
          ∧ (q.pop_normal index term).2.normals = rest)
        ∧ (¬ pairLe (head.term, head.index) (term, index) →
          (q.pop_normal index term).1 = none
          ∧ (q.pop_normal index term).2.normals = head :: rest)
        ∧ ((q.pop_normal index term).1.isSome = true →
            q.normals_cap > SHRINK_PENDING_CMD_QUEUE_CAP →
            rest.length < SHRINK_PENDING_CMD_QUEUE_CAP →
            (q.pop_normal index term).2.normals_cap = rest.length) := by
  constructor
  · intro h
    simp [PendingCmdQueue.pop_normal, h]
  · intro head rest h
    by_cases hg : pairGt (head.term, head.index) (term, index) = true
    · have hnle := (pairGt_iff_not_pairLe _ _).mp hg
      refine ⟨fun hle => absurd hle hnle, fun _ => ?_, fun hs => ?_⟩
      · simp [PendingCmdQueue.pop_normal, h, hg]
      · simp [PendingCmdQueue.pop_normal, h, hg] at hs
    · have hle : pairLe (head.term, head.index) (term, index) := by
        by_contra hc
        exact hg ((pairGt_iff_not_pairLe _ _).mpr hc)
      refine ⟨fun _ => ?_, fun hc => absurd hle hc, fun _ hcap hlen => ?_⟩
      · simp [PendingCmdQueue.pop_normal, h, hg]
      · simp [PendingCmdQueue.pop_normal, h, hg, hcap, hlen]

theorem claim_C8_witness :
    ((PendingCmdQueue.mk [PendingCmd.new 3 2 9] 100 none).pop_normal
        10 2).1 = some (PendingCmd.new 3 2 9)
    ∧ ((PendingCmdQueue.mk [PendingCmd.new 3 2 9] 100 none).pop_normal
        10 2).2.normals = []
    ∧ ((PendingCmdQueue.mk [PendingCmd.new 3 2 9] 100 none).pop_normal
        10 2).2.normals_cap = 0 := by
  have h := (claim_C8 (PendingCmdQueue.mk [PendingCmd.new 3 2 9] 100 none)
    10 2).2 (PendingCmd.new 3 2 9) [] rfl
  have h1 := h.1 (by decide)
  refine ⟨h1.1, h1.2, ?_⟩
  have h3 := h.2.2 (by rw [h1.1]; rfl) (by decide) (by decide)
  simpa using h3

/-- C6 counterexample: contrary to the claim, a ReadIndex sub-request is
not ignored by exec_write_cmd; a concrete write command holding a single
ReadIndex sub-request produces a command error for the whole request. -/
theorem claim_C6_counterexample :
    exec_write_cmd fx_delegate fx_ctx
      { header := { region_epoch := fx_epoch, uuid := [] },
        admin_request := none, requests := [.readIndex] }
      = .ok (.error (.other "invalid cmd type, message maybe corrupted"),
             fx_ctx) := by
  rfl

/-- C6 (amended): in exec_write_cmd, Get and Snap sub-requests are ignored
at apply time (skipped without producing a response and without any state
change), while Prewrite, Invalid and ReadIndex sub-request types are
treated as corruption and produce a command error for the whole request. -/
theorem claim_C6 (d : ApplyDelegate) (ctx : ApplyContext)
    (rest : List Request) (responses : List Response)
    (ranges : List Range) (ssts : List SstMeta) (cf : String) (key : Bytes) :
    (exec_write_requests d ctx (.snap :: rest) responses ranges ssts
      = exec_write_requests d ctx rest responses ranges ssts)
    ∧ (exec_write_requests d ctx (.get cf key :: rest) responses ranges ssts
      = exec_write_requests d ctx rest responses ranges ssts)
    ∧ (exec_write_requests d ctx (.prewrite :: rest) responses ranges ssts
      = .ok (.error (.other "invalid cmd type, message maybe corrupted"),
             ctx))
    ∧ (exec_write_requests d ctx (.invalid :: rest) responses ranges ssts
      = .ok (.error (.other "invalid cmd type, message maybe corrupted"),
             ctx))
    ∧ (exec_write_requests d ctx (.readIndex :: rest) responses ranges ssts
      = .ok (.error (.other "invalid cmd type, message maybe corrupted"),
             ctx)) := by
  refine ⟨?_, ?_, ?_, ?_, ?_⟩ <;> rfl

/-- C3 counterexample: with a truncated index of five and an applied index
of ten, a CompactLog with compact_index six and a non-zero compact_term
satisfies every condition of the claim (six exceeds the truncated index,
is at most the applied index, the term is non-zero and the delegate is not
merging), yet the code neither updates the truncated state nor emits a
CompactLog result, because six does not exceed the first retained log
index. -/
theorem claim_C3_counterexample :
    exec_compact_log fx_delegate fx_ctx_compact 6 1
      = .ok (.ok (AdminResponse.default, ApplyResult.none), fx_delegate,
             fx_ctx_compact)
    ∧ 6 > fx_as_compact.truncated_state.index
    ∧ 6 ≤ fx_as_compact.applied_index
    ∧ (1 : Nat) ≠ 0
    ∧ fx_delegate.is_merging = false := by
  refine ⟨by rfl, by decide, by decide, by decide, by rfl⟩

/-- C3 (amended): exec_compact_log updates the truncated state to
(compact_index, compact_term) and emits a CompactLog exec result exactly
when compact_index exceeds the first retained log index (one past the
truncated index), compact_index is at most the applied index, compact_term
is non-zero and the delegate is not merging; a zero compact_term is
rejected with an error exactly when the update would otherwise be
attempted; in every other case nothing changes and no CompactLog result is
emitted. -/
theorem claim_C3 (d : ApplyDelegate) (ctx : ApplyContext) (ec : ExecCtx)
    (ci ct : Nat) (hec : ctx.exec_ctx = some ec) :
    (ci ≤ first_index ec.apply_state ∨ d.is_merging = true →
      exec_compact_log d ctx ci ct
        = .ok (.ok (AdminResponse.default, ApplyResult.none), d, ctx))
    ∧ (first_index ec.apply_state < ci → d.is_merging = false → ct = 0 →
      exec_compact_log d ctx ci ct
        = .ok (.error
            (.other "command format is outdated, please upgrade leader"),
          d, ctx))
    ∧ (first_index ec.apply_state < ci → d.is_merging = false → ct ≠ 0 →
        ec.apply_state.applied_index < ci →
      exec_compact_log d ctx ci ct
        = .ok (.error (.other "compact index > applied index"), d, ctx))
    ∧ (first_index ec.apply_state < ci → d.is_merging = false → ct ≠ 0 →
        ci ≤ ec.apply_state.applied_index →
      exec_compact_log d ctx ci ct
        = .ok (.ok (AdminResponse.default,
            .res (.compactLog { index := ci, term := ct }
              (first_index ec.apply_state))),
          d,
          { ctx with
              exec_ctx := some
                { ec with
                    apply_state :=
                      { ec.apply_state with
                          truncated_state :=
                            { index := ci, term := ct } } } })) := by
  have htr : ec.apply_state.truncated_state.index < first_index ec.apply_state := by
    simp [first_index]
  refine ⟨?_, ?_, ?_, ?_⟩
  · intro h
    rcases h with h | h
    · rcases Nat.lt_or_ge (first_index ec.apply_state) ci with h2 | h2
      · omega
      · simp only [exec_compact_log, hec]
        rw [if_pos (by omega)]
    · simp only [exec_compact_log, hec]
      by_cases h2 : ci ≤ first_index ec.apply_state
      · rw [if_pos h2]
      · rw [if_neg h2, if_pos h]
  · intro h1 h2 h3
    simp only [exec_compact_log, hec]
    rw [if_neg (by omega), if_neg (by simp [h2]), if_pos (by simp [h3])]
  · intro h1 h2 h3 h4
    simp only [exec_compact_log, hec]
    rw [if_neg (by omega), if_neg (by simp [h2]),
      if_neg (by simp [h3]), compact_raft_log]
    rw [if_neg (by omega), if_pos (by omega)]
  · intro h1 h2 h3 h4
    simp only [exec_compact_log, hec]
    rw [if_neg (by omega), if_neg (by simp [h2]),
      if_neg (by simp [h3]), compact_raft_log]
    rw [if_neg (by omega), if_neg (by omega)]

theorem claim_C3_witness :
    exec_compact_log fx_delegate fx_ctx_compact 7 2
      = .ok (.ok (AdminResponse.default,
          .res (.compactLog { index := 7, term := 2 } 6)),
        fx_delegate,
        { fx_ctx_compact with
            exec_ctx := some
              { apply_state :=
                  { fx_as_compact with
                      truncated_state := { index := 7, term := 2 } },
                index := 11, term := 1 } }) := by
  have h := (claim_C3 fx_delegate fx_ctx_compact
    { apply_state := fx_as_compact, index := 11, term := 1 } 7 2 rfl).2.2.2
    (by decide) rfl (by decide) (by decide)
  simpa using h

theorem notify_all_stale_ok (term : Nat) (cmds : List PendingCmd)
    (h : ∀ c ∈ cmds, c.cb.isSome = true) :
    notify_all_stale term cmds
      = .ok (cmds.filterMap (fun c =>
          c.cb.map (fun cb => (cb, cmd_resp_err_resp .staleCommand term)))) := by
  induction cmds with
  | nil => rfl
  | cons c rest ih =>
    obtain ⟨cb, hcb⟩ := Option.isSome_iff_exists.mp (h c (by simp))
    rw [notify_all_stale, notify_stale_command, hcb,
      ih (fun x hx => h x (by simp [hx]))]
    simp [hcb]

theorem handle_proposal_loop_spec (props : List Proposal) :
    ∀ d : ApplyDelegate,
      (∀ c, d.pending_cmds.conf_change = some c → c.cb.isSome = true) →
      ∃ d1 notes, handle_proposal_loop d props = .ok (d1, notes)
        ∧ d1.term = d.term
        ∧ (∀ c, d1.pending_cmds.conf_change = some c → c.cb.isSome = true)
        ∧ (∀ pr ∈ notes, pr.2 = cmd_resp_err_resp .staleCommand d.term)
        ∧ notes.map Prod.fst
            ++ (d1.pending_cmds.conf_change.bind PendingCmd.cb).toList
          = (d.pending_cmds.conf_change.bind PendingCmd.cb).toList
            ++ (props.filter (fun p => p.is_conf_change)).map Proposal.cb := by
  induction props with
  | nil =>
    intro d hcc
    exact ⟨d, [], rfl, rfl, hcc, by simp, by simp⟩
  | cons p rest ih =>
    intro d hcc
    by_cases hp : p.is_conf_change
    · rcases hslot : d.pending_cmds.conf_change with _ | old
      · have step : handle_one_proposal d p
            = .ok (with_conf_slot d (some (PendingCmd.new p.index p.term p.cb)),
                   []) := by
          simp [handle_one_proposal, hp, PendingCmdQueue.take_conf_change,
            hslot, PendingCmdQueue.set_conf_change, with_conf_slot]
        obtain ⟨d1, notes, hrun, hterm, hcc1, hstale, heq⟩ :=
          ih (with_conf_slot d (some (PendingCmd.new p.index p.term p.cb)))
            (by intro c hc
                simp [with_conf_slot] at hc
                subst hc
                rfl)
        simp only [with_conf_slot] at hterm hstale heq
        refine ⟨d1, notes, ?_, hterm, hcc1, hstale, ?_⟩
        · simp [handle_proposal_loop, step, hrun]
        · rw [heq]
          simp [hslot, hp, PendingCmd.new]
      · obtain ⟨cbo, hcbo⟩ := Option.isSome_iff_exists.mp (hcc old hslot)
        have step : handle_one_proposal d p
            = .ok (with_conf_slot d (some (PendingCmd.new p.index p.term p.cb)),
              [(cbo, cmd_resp_err_resp .staleCommand d.term)]) := by
          simp [handle_one_proposal, hp, PendingCmdQueue.take_conf_change,
            hslot, PendingCmdQueue.set_conf_change, notify_stale_command,
            hcbo, with_conf_slot]
        obtain ⟨d1, notes, hrun, hterm, hcc1, hstale, heq⟩ :=
          ih (with_conf_slot d (some (PendingCmd.new p.index p.term p.cb)))
            (by intro c hc
                simp [with_conf_slot] at hc
                subst hc
                rfl)
        simp only [with_conf_slot] at hterm hstale heq
        refine ⟨d1, (cbo, cmd_resp_err_resp .staleCommand d.term) :: notes,
          ?_, hterm, hcc1, ?_, ?_⟩
        · simp [handle_proposal_loop, step, hrun]
        · intro pr hpr
          rcases List.mem_cons.mp hpr with h | h
          · simp [h]
          · exact hstale pr h
        · simp only [List.map_cons]
          rw [List.cons_append, heq]
          simp [hslot, hp, PendingCmd.new, hcbo]
    · have step : handle_one_proposal d p
          = .ok (with_appended_normal d (PendingCmd.new p.index p.term p.cb),
            []) := by
        simp [handle_one_proposal, hp, with_appended_normal]
      obtain ⟨d1, notes, hrun, hterm, hcc1, hstale, heq⟩ :=
        ih (with_appended_normal d (PendingCmd.new p.index p.term p.cb))
          (by intro c hc
              refine hcc c ?_
              simpa [with_appended_normal, PendingCmdQueue.append_normal]
                using hc)
      simp only [with_appended_normal, PendingCmdQueue.append_normal]
        at hterm hstale heq
      refine ⟨d1, notes, ?_, hterm, hcc1, hstale, ?_⟩
      · simp [handle_proposal_loop, step, hrun]
      · rw [heq]
        simp [hp]

/-- C9: the conf-change slot of the pending-command queue holds at most one
proposal (it is a single optional slot); storing a conf-change proposal
while the slot is occupied returns the previous occupant and invokes its
callback with a StaleCommand response; and across any batch of proposals
handled on a live delegate, every conf-change callback that ever occupied
the slot is either staleness-notified or is the final slot occupant, never
dropped uninvoked. -/
theorem claim_C9 (d : ApplyDelegate) (props : List Proposal) :
    (∀ p old cbo, p.is_conf_change = true →
      d.pending_cmds.conf_change = some old → old.cb = some cbo →
      handle_one_proposal d p
        = .ok (with_conf_slot d (some (PendingCmd.new p.index p.term p.cb)),
          [(cbo, cmd_resp_err_resp .staleCommand d.term)]))
    ∧ (d.stopped = false →
      (∀ c, d.pending_cmds.conf_change = some c → c.cb.isSome = true) →
      ∃ d1 notes, handle_proposal d props = .ok (d1, notes)
        ∧ (∀ pr ∈ notes, pr.2 = cmd_resp_err_resp .staleCommand d.term)
        ∧ notes.map Prod.fst
            ++ (d1.pending_cmds.conf_change.bind PendingCmd.cb).toList
          = (d.pending_cmds.conf_change.bind PendingCmd.cb).toList
            ++ (props.filter (fun p => p.is_conf_change)).map Proposal.cb) := by
  constructor
  · intro p old cbo hp hslot hcbo
    simp [handle_one_proposal, hp, PendingCmdQueue.take_conf_change, hslot,
      PendingCmdQueue.set_conf_change, notify_stale_command, hcbo,
      with_conf_slot]
  · intro hstop hcc
    obtain ⟨d1, notes, hrun, _, _, hstale, heq⟩ :=
      handle_proposal_loop_spec props d hcc
    exact ⟨d1, notes, by simp [handle_proposal, hstop, hrun], hstale, heq⟩

theorem claim_C9_witness :
    handle_one_proposal fx_d_conf fx_prop_conf
      = .ok (with_conf_slot fx_d_conf (some (PendingCmd.new 2 1 42)),
        [(41, cmd_resp_err_resp .staleCommand 1)]) := by
  have h := (claim_C9 fx_d_conf []).1 fx_prop_conf (PendingCmd.new 1 1 41)
    41 rfl rfl rfl
  simpa using h

theorem map_fst_filterMap_pair (l : List PendingCmd) (r : RaftCmdResponse) :
    (l.filterMap (fun c => c.cb.map (fun cb => (cb, r)))).map Prod.fst
      = l.filterMap PendingCmd.cb := by
  induction l with
  | nil => rfl
  | cons c rest ih => rcases hx : c.cb <;> simp [hx, ih]

/-- C10: when a Registration reaches an existing delegate, every pending
command (all queued normals and the conf-change occupant) has its callback
invoked with a StaleCommand response bound to the registration term, and
the delegate is replaced by a fresh one built from the registration; no
pending callback is left uninvoked. -/
theorem claim_C10 (d : ApplyDelegate) (reg : Registration)
    (hid : d.id = reg.id)
    (hnorm : ∀ c ∈ d.pending_cmds.normals, c.cb.isSome = true)
    (hcc : ∀ c, d.pending_cmds.conf_change = some c → c.cb.isSome = true) :
    ∃ notes,
      handle_registration d reg
        = .ok (ApplyDelegate.from_registration reg, notes)
      ∧ notes.map Prod.fst
          = d.pending_cmds.normals.filterMap PendingCmd.cb
            ++ (d.pending_cmds.conf_change.bind PendingCmd.cb).toList
      ∧ ∀ pr ∈ notes, pr.2 = cmd_resp_err_resp .staleCommand reg.term := by
  have hclear := notify_all_stale_ok reg.term d.pending_cmds.normals hnorm
  rcases hslot : d.pending_cmds.conf_change with _ | old
  · refine ⟨d.pending_cmds.normals.filterMap (fun c =>
      c.cb.map (fun cb => (cb, cmd_resp_err_resp .staleCommand reg.term))),
      ?_, ?_, ?_⟩
    · rw [handle_registration, if_neg (by simp [hid]),
        clear_all_commands_as_stale]
      simp only [hclear, hslot]
    · simp [hslot, map_fst_filterMap_pair]
    · intro pr hpr
      simp only [List.mem_filterMap] at hpr
      obtain ⟨c, -, hc⟩ := hpr
      obtain ⟨cb, -, hpr⟩ := Option.map_eq_some'.mp hc
      simp [← hpr]
  · obtain ⟨cbo, hcbo⟩ := Option.isSome_iff_exists.mp (hcc old hslot)
    refine ⟨d.pending_cmds.normals.filterMap (fun c =>
      c.cb.map (fun cb => (cb, cmd_resp_err_resp .staleCommand reg.term)))
      ++ [(cbo, cmd_resp_err_resp .staleCommand reg.term)],
      ?_, ?_, ?_⟩
    · rw [handle_registration, if_neg (by simp [hid]),
        clear_all_commands_as_stale]
      simp only [hclear, hslot, notify_stale_command, hcbo]
    · simp [hslot, hcbo, map_fst_filterMap_pair]
    · intro pr hpr
      simp only [List.mem_append, List.mem_filterMap, List.mem_singleton]
        at hpr
      rcases hpr with ⟨c, -, hc⟩ | hpr
      · obtain ⟨cb, -, hpr⟩ := Option.map_eq_some'.mp hc
        simp [← hpr]
      · simp [hpr]

theorem except_ok_bind {ε α β : Type} (a : α) (f : α → Except ε β) :
    (Except.ok a : Except ε α) >>= f = f a := rfl

theorem drain_stale_normals_eq (q : PendingCmdQueue) (term : Nat)
    (acc : List (Option Nat × RaftCmdResponse)) :
    drain_stale_normals q term acc
      = match q.pop_normal U64_MAX (term - 1) with
        | (none, q1) => (q1, acc)
        | (some cmd, q1) =>
          drain_stale_normals q1 term
            (acc ++ [(cmd.cb, cmd_resp_err_resp .staleCommand term)]) := by
  rw [drain_stale_normals]
  split
  · next q1 h => rw [h]
  · next cmd q1 h => rw [h]

theorem find_cb_normals_eq (q : PendingCmdQueue) (dterm index term : Nat)
    (invoked : List (Nat × RaftCmdResponse)) :
    find_cb_normals q dterm index term invoked
      = match q.pop_normal index term with
        | (none, q1) => .ok (none, q1, invoked)
        | (some head, q1) =>
          if head.term == term then
            if head.index == index then
              match head.cb with
              | none => .error .callbackMissing
              | some cb => .ok (some cb, q1, invoked)
            else
              .error (.unexpectedCallback term head.index index)
          else
            match notify_stale_command dterm head with
            | .error f => .error f
            | .ok pr => find_cb_normals q1 dterm index term (invoked ++ [pr]) := by
  rw [find_cb_normals]
  split
  · next q1 h => rw [h]
  · next head q1 h => rw [h]

theorem drain_stale_normals_spec (term : Nat) (hterm : 1 ≤ term) :
    ∀ l (q : PendingCmdQueue) (acc : List (Option Nat × RaftCmdResponse)),
      q.normals = l →
      (∀ c ∈ l, c.index ≤ U64_MAX) →
      (drain_stale_normals q term acc).2
          = acc ++ (l.takeWhile (fun c => decide (c.term < term))).map
              (fun c => (c.cb, cmd_resp_err_resp .staleCommand term))
        ∧ (drain_stale_normals q term acc).1.normals
          = l.dropWhile (fun c => decide (c.term < term)) := by
  intro l
  induction l with
  | nil =>
    intro q acc hq _
    have hpop : q.pop_normal U64_MAX (term - 1) = (none, q) := by
      simp [PendingCmdQueue.pop_normal, hq]
    rw [drain_stale_normals_eq, hpop]
    simp [hq]
  | cons c rest ih =>
    intro q acc hq hidx
    by_cases hlt : c.term < term
    · have hfalse : pairGt (c.term, c.index) (term - 1, U64_MAX)
          = false := by
        have hi : c.index ≤ U64_MAX := hidx c (by simp)
        simp only [pairGt, Bool.or_eq_false_iff, decide_eq_false_iff_not,
          Bool.and_eq_false_iff, beq_eq_false_iff_ne, ne_eq]
        omega
      rcases hpop : q.pop_normal U64_MAX (term - 1) with ⟨o, q1⟩
      have hfacts : o = some c ∧ q1.normals = rest := by
        have : (q.pop_normal U64_MAX (term - 1)).1 = some c
            ∧ (q.pop_normal U64_MAX (term - 1)).2.normals = rest := by
          simp [PendingCmdQueue.pop_normal, hq, hfalse]
        rw [hpop] at this
        exact this
      obtain ⟨ho, hq1⟩ := hfacts
      subst ho
      rw [drain_stale_normals_eq, hpop]
      have := ih q1
        (acc ++ [(c.cb, cmd_resp_err_resp .staleCommand term)]) hq1
        (fun x hx => hidx x (by simp [hx]))
      simp only
      rw [this.1, this.2]
      simp [hlt]
    · have htrue : pairGt (c.term, c.index) (term - 1, U64_MAX)
          = true := by
        simp only [pairGt, Bool.or_eq_true, decide_eq_true_eq,
          Bool.and_eq_true, beq_iff_eq]
        omega
      rcases hpop : q.pop_normal U64_MAX (term - 1) with ⟨o, q1⟩
      have hfacts : o = none ∧ q1.normals = c :: rest := by
        have : (q.pop_normal U64_MAX (term - 1)).1 = none
            ∧ (q.pop_normal U64_MAX (term - 1)).2.normals = c :: rest := by
          simp [PendingCmdQueue.pop_normal, hq, htrue]
        rw [hpop] at this
        exact this
      obtain ⟨ho, hq1⟩ := hfacts
      subst ho
      rw [drain_stale_normals_eq, hpop]
      simp [hlt, hq1]

theorem foldlM_push_spec (items : List (Option Nat × RaftCmdResponse)) :
    ∀ (ctx : ApplyContext) (pre : List ApplyCallbackBucket)
      (bucket : ApplyCallbackBucket), ctx.cbs = pre ++ [bucket] →
      items.foldlM (fun ctx pr => push_to_last_bucket ctx pr.1 pr.2) ctx
        = .ok { ctx with
                  cbs := pre ++ [{ bucket with
                                     cbs := bucket.cbs ++ items }] } := by
  induction items with
  | nil =>
    intro ctx pre bucket hc
    simp only [List.foldlM_nil, List.append_nil, ← hc]
    rfl
  | cons it rest ih =>
    intro ctx pre bucket hc
    have hpush : push_to_last_bucket ctx it.1 it.2
        = .ok { ctx with cbs := pre
            ++ [{ bucket with cbs := bucket.cbs ++ [it] }] } := by
      rw [push_to_last_bucket, hc]
      simp
    rw [List.foldlM_cons, hpush, except_ok_bind,
      ih _ pre { bucket with cbs := bucket.cbs ++ [it] } (by simp)]
    simp

/-- C7: an empty-data Normal entry sets applied_index to the entry index
and applied_index_term to the entry term, resolves precisely the maximal
prefix of pending normal commands with term strictly below the entry term
with a StaleCommand response pushed into the current callback bucket,
leaves the later commands queued, and mutates neither the write batch nor
the engine. -/
theorem claim_C7 (s : ApplySt) (index term : Nat)
    (pre : List ApplyCallbackBucket) (bucket : ApplyCallbackBucket)
    (hterm : 1 ≤ term)
    (hidx : ∀ c ∈ s.d.pending_cmds.normals, c.index ≤ U64_MAX)
    (hc : s.ctx.cbs = pre ++ [bucket]) :
    ∃ s1, handle_raft_entry_normal s index term none
        = .ok (ApplyResult.none, s1)
      ∧ s1.d.apply_state
          = { s.d.apply_state with applied_index := index }
      ∧ s1.d.applied_index_term = term
      ∧ s1.d.pending_cmds.normals
          = s.d.pending_cmds.normals.dropWhile
              (fun c => decide (c.term < term))
      ∧ s1.ctx.cbs
          = pre ++ [{ bucket with
              cbs := bucket.cbs
                ++ (s.d.pending_cmds.normals.takeWhile
                      (fun c => decide (c.term < term))).map
                    (fun c => (c.cb,
                      cmd_resp_err_resp .staleCommand term)) }]
      ∧ s1.ctx.kv_wb = s.ctx.kv_wb
      ∧ s1.ctx.engine = s.ctx.engine
      ∧ s1.ctx.apply_res = s.ctx.apply_res := by
  have hdrain := drain_stale_normals_spec term hterm
    s.d.pending_cmds.normals
    ({ s.d with
        apply_state := { s.d.apply_state with applied_index := index },
        applied_index_term := term } : ApplyDelegate).pending_cmds
    [] rfl hidx
  rw [handle_raft_entry_normal]
  rw [if_neg (by simp; omega)]
  simp only at hdrain
  rcases hq : drain_stale_normals
      ({ s.d with
          apply_state := { s.d.apply_state with applied_index := index },
          applied_index_term := term } : ApplyDelegate).pending_cmds
      term [] with ⟨q1, stale⟩
  rw [hq] at hdrain
  simp only at hdrain
  have hfold := foldlM_push_spec stale s.ctx pre bucket hc
  simp only [hq, hfold]
  refine ⟨_, rfl, rfl, rfl, ?_, ?_, rfl, rfl, rfl⟩
  · simpa using hdrain.2
  · simp only
    rw [hdrain.1]
    simp

theorem claim_C7_witness :
    ∃ s1, handle_raft_entry_normal fx_st_two_normals 1 2 none
        = .ok (ApplyResult.none, s1)
      ∧ s1.d.apply_state = { fx_apply_state with applied_index := 1 }
      ∧ s1.d.applied_index_term = 2
      ∧ s1.d.pending_cmds.normals = [PendingCmd.new 2 2 32]
      ∧ s1.ctx.cbs = [ApplyCallbackBucket.mk fx_region
          [(some 31, cmd_resp_err_resp .staleCommand 2)]]
      ∧ s1.ctx.kv_wb = some WriteBatch.empty
      ∧ s1.ctx.engine = fx_engine := by
  obtain ⟨s1, h1, h2, h3, h4, h5, h6, h7, -⟩ :=
    claim_C7 fx_st_two_normals 1 2 [] { region := fx_region, cbs := [] }
      (by decide) (by decide) rfl
  refine ⟨s1, h1, by simpa using h2, h3, ?_, ?_, by simpa using h6,
    by simpa using h7⟩
  · rw [h4]
    rfl
  · rw [h5]
    rfl

theorem enc_adjacency (t src : Region) :
    (enc_end_key t == enc_start_key src) = true
      ↔ (t.end_key = src.start_key ∧ t.end_key ≠ []) := by
  rcases he : t.end_key with _ | ⟨b, bs⟩
  · simp [enc_end_key, enc_start_key, data_end_key, data_key, he,
      DATA_MAX_KEY, DATA_PREFIX]
  · simp [enc_end_key, enc_start_key, data_end_key, data_key, he]

/-- C5: once the source has signalled readiness (ready_source_region_id
equals the source region id of the request), re-executing CommitMerge
aborts fatally when the persisted source region state is missing, has an
unexpected lifecycle state, or does not match the expected source region;
otherwise it bumps the merged version to one past the maximum of both
versions, extends the target end key exactly when the encoded target end
equals the encoded source start (equivalently, the plain keys are equal
and non-empty) and otherwise extends the start key, writes the merged
region state Normal and the source region state Tombstone into the current
write batch, and emits CommitMerge with the merged region and the
source. -/
theorem claim_C5 (d : ApplyDelegate) (ctx : ApplyContext)
    (merge : CommitMergeRequest) (wb : WriteBatch)
    (hready : d.ready_source_region_id = merge.source.id)
    (hwb : ctx.kv_wb = some wb) :
    (ctx.engine.get_region_state merge.source.id = none →
      exec_commit_merge d ctx merge
        = .error (.commitMergeMissingState merge.source.id))
    ∧ (∀ state, ctx.engine.get_region_state merge.source.id = some state →
        (state.state = .tombstone ∨ state.state = .applying) →
        exec_commit_merge d ctx merge = .error .commitMergeBadState)
    ∧ (∀ state, ctx.engine.get_region_state merge.source.id = some state →
        (state.state = .normal ∨ state.state = .merging) →
        state.region ≠ merge.source →
        exec_commit_merge d ctx merge = .error .commitMergeSourceMismatch)
    ∧ (∀ state, ctx.engine.get_region_state merge.source.id = some state →
        (state.state = .normal ∨ state.state = .merging) →
        state.region = merge.source →
        ∃ merged,
          exec_commit_merge d ctx merge
            = .ok (.ok (AdminResponse.default,
                .res (.commitMerge merged merge.source)),
              { d with ready_source_region_id := 0 },
              { ctx with kv_wb := some (write_peer_state
                  (write_peer_state wb merged .normal none)
                  merge.source .tombstone
                  (some { min_index := 0, target := d.region,
                          commit := 0 })) })
          ∧ merged.epoch.version
              = max merge.source.epoch.version d.region.epoch.version + 1
          ∧ merged.epoch.conf_ver = d.region.epoch.conf_ver
          ∧ merged.id = d.region.id
          ∧ merged.peers = d.region.peers
          ∧ (d.region.end_key = merge.source.start_key
              ∧ d.region.end_key ≠ [] →
              merged.end_key = merge.source.end_key
              ∧ merged.start_key = d.region.start_key)
          ∧ (¬ (d.region.end_key = merge.source.start_key
              ∧ d.region.end_key ≠ []) →
              merged.start_key = merge.source.start_key
              ∧ merged.end_key = d.region.end_key)) := by
  have hne : (d.ready_source_region_id != merge.source.id) = false := by
    simp [hready]
  have hv :
      region_with_version d.region
          (max merge.source.epoch.version d.region.epoch.version + 1)
        = { d.region with
              epoch := { d.region.epoch with
                version := max merge.source.epoch.version
                  d.region.epoch.version + 1 } } := rfl
  refine ⟨?_, ?_, ?_, ?_⟩
  · intro hnone
    rw [exec_commit_merge, if_neg (by simp [hne])]
    simp only [hnone]
  · intro state hsome hbad
    rw [exec_commit_merge, if_neg (by simp [hne])]
    rcases hbad with hbad | hbad <;> simp only [hsome, hbad]
  · intro state hsome hgood hneq
    rw [exec_commit_merge, if_neg (by simp [hne])]
    have hbody : exec_commit_merge.exec_commit_merge_ready
        { d with ready_source_region_id := 0 } ctx merge state
        = .error .commitMergeSourceMismatch := by
      rw [exec_commit_merge.exec_commit_merge_ready,
        if_pos (by simp [Ne.symm hneq])]
    rcases hgood with hgood | hgood <;> simp only [hsome, hgood, hbody]
  · intro state hsome hgood heq
    rw [exec_commit_merge, if_neg (by simp [hne])]
    set v := max merge.source.epoch.version d.region.epoch.version + 1
      with hvdef
    by_cases hadj :
        (enc_end_key (region_with_version d.region v)
          == enc_start_key merge.source) = true
    · set merged := region_with_end (region_with_version d.region v)
        merge.source.end_key with hmdef
      have hbody : exec_commit_merge.exec_commit_merge_ready
          { d with ready_source_region_id := 0 } ctx merge state
          = .ok (.ok (AdminResponse.default,
              .res (.commitMerge merged merge.source)),
            { d with ready_source_region_id := 0 },
            { ctx with kv_wb := some (write_peer_state
                (write_peer_state wb merged .normal none)
                merge.source .tombstone
                (some { min_index := 0, target := d.region,
                        commit := 0 })) }) := by
        rw [exec_commit_merge.exec_commit_merge_ready,
          if_neg (by simp [heq])]
        rw [hwb]
        rw [hv] at hadj
        simp only [← hvdef, hadj, if_true]
        rfl
      refine ⟨merged, ?_, rfl, rfl, rfl, rfl, ?_, ?_⟩
      · rcases hgood with hgood | hgood <;> simp only [hsome, hgood, hbody]
      · intro h
        exact ⟨rfl, rfl⟩
      · intro h
        rw [hv] at hadj
        refine absurd ((enc_adjacency _ _).mp ?_) (by simpa using h)
        simpa using hadj
    · set merged := region_with_start (region_with_version d.region v)
        merge.source.start_key with hmdef
      have hbody : exec_commit_merge.exec_commit_merge_ready
          { d with ready_source_region_id := 0 } ctx merge state
          = .ok (.ok (AdminResponse.default,
              .res (.commitMerge merged merge.source)),
            { d with ready_source_region_id := 0 },
            { ctx with kv_wb := some (write_peer_state
                (write_peer_state wb merged .normal none)
                merge.source .tombstone
                (some { min_index := 0, target := d.region,
                        commit := 0 })) }) := by
        rw [exec_commit_merge.exec_commit_merge_ready,
          if_neg (by simp [heq])]
        rw [hwb]
        rw [hv] at hadj
        simp only [Bool.not_eq_true] at hadj
        simp only [← hvdef, hadj, Bool.false_eq_true, if_false]
        rfl
      refine ⟨merged, ?_, rfl, rfl, rfl, rfl, ?_, ?_⟩
      · rcases hgood with hgood | hgood <;> simp only [hsome, hgood, hbody]
      · intro h
        rw [hv] at hadj
        have : (enc_end_key { d.region with
              epoch := { d.region.epoch with version := v } }
            == enc_start_key merge.source) = true :=
          (enc_adjacency _ _).mpr (by simpa using h)
        exact absurd this hadj
      · intro h
        exact ⟨rfl, rfl⟩

theorem claim_C5_witness :
    ∃ merged,
      exec_commit_merge fx_d_merge fx_ctx_merge fx_merge_req
        = .ok (.ok (AdminResponse.default,
            .res (.commitMerge merged fx_src_region)),
          { fx_d_merge with ready_source_region_id := 0 },
          { fx_ctx_merge with kv_wb := some (write_peer_state
              (write_peer_state WriteBatch.empty merged .normal none)
              fx_src_region .tombstone
              (some { min_index := 0, target := fx_tgt_region,
                      commit := 0 })) })
      ∧ merged.epoch.version = 5
      ∧ merged.end_key = [107, 53]
      ∧ merged.start_key = [107, 49] := by
  obtain ⟨merged, hrun, hver, -, -, -, hext, -⟩ :=
    (claim_C5 fx_d_merge fx_ctx_merge fx_merge_req WriteBatch.empty rfl
      rfl).2.2.2 fx_src_state rfl (Or.inr rfl) rfl
  obtain ⟨hend, hstart⟩ := hext (by decide)
  refine ⟨merged, by simpa using hrun, ?_, by simpa using hend,
    by simpa using hstart⟩
  rw [hver]
  rfl

theorem epoch_mismatch_run (s : ApplySt) (index term : Nat) (cmd : RaftCmdRequest)
    (wb : WriteBatch)
    (hpr : s.d.pending_remove = false)
    (hwb : s.ctx.kv_wb = some wb)
    (hmm : cmd.header.region_epoch.conf_ver ≠ s.d.region.epoch.conf_ver
      ∨ cmd.header.region_epoch.version ≠ s.d.region.epoch.version) :
    (apply_raft_cmd s index term cmd
      = .ok (cmd_resp_new_error (.epochNotMatch
            (if s.d.last_merge_version ≤ cmd.header.region_epoch.version
             then [s.d.region] else [])),
          ApplyResult.none,
          { d := with_applied s.d index term,
            ctx := { s.ctx with kv_wb := some wb, exec_ctx := none } }))
    ∧ (∀ (pre : List ApplyCallbackBucket) (bucket : ApplyCallbackBucket),
        index ≠ 0 →
        s.ctx.cbs = pre ++ [bucket] →
        s.d.pending_cmds.normals = [] →
        s.d.pending_cmds.conf_change = none →
        ∃ s1, process_raft_cmd s index term cmd
            = .ok (ApplyResult.none, s1)
          ∧ s1.ctx.kv_wb = some wb
          ∧ s1.ctx.engine = s.ctx.engine
          ∧ s1.d.apply_state
              = { s.d.apply_state with applied_index := index }
          ∧ s1.d.applied_index_term = term
          ∧ s1.d.region = s.d.region
          ∧ s1.ctx.cbs = pre ++ [{ bucket with cbs := bucket.cbs
              ++ [(none, cmd_resp_bind_term
                    (cmd_resp_new_error (.epochNotMatch
                      (if s.d.last_merge_version
                          ≤ cmd.header.region_epoch.version
                       then [s.d.region] else [])))
                    s.d.term)] }]
          ∧ s1.ctx.apply_res = s.ctx.apply_res) := by
  have hcond : (cmd.header.region_epoch.conf_ver
        != s.d.region.epoch.conf_ver
      || cmd.header.region_epoch.version
        != s.d.region.epoch.version) = true := by
    rcases hmm with h | h <;> simp [h]
  have hcheck : check_region_epoch cmd s.d.region
      (decide (cmd.header.region_epoch.version ≥ s.d.last_merge_version))
      = .error (.epochNotMatch
          (if s.d.last_merge_version ≤ cmd.header.region_epoch.version
           then [s.d.region] else [])) := by
    rw [check_region_epoch, if_pos hcond]
    by_cases hc : s.d.last_merge_version ≤ cmd.header.region_epoch.version
    · simp [hc, ge_iff_le]
    · simp [hc, ge_iff_le]
  have hexec : ∀ t : ApplySt, t.d.region = s.d.region →
      t.d.last_merge_version = s.d.last_merge_version →
      exec_raft_cmd t cmd
        = .ok (.error (.epochNotMatch
            (if s.d.last_merge_version ≤ cmd.header.region_epoch.version
             then [s.d.region] else [])), t) := by
    intro t htr htl
    rw [exec_raft_cmd]
    rw [htl, htr, hcheck]
  have hroll : wb.set_save_point.rollback_to_save_point = some wb := by
    rw [WriteBatch.set_save_point, WriteBatch.rollback_to_save_point]
    simp
  have happly : ∀ t : ApplySt, t.d = s.d → t.ctx.kv_wb = some wb →
      apply_raft_cmd t index term cmd
        = .ok (cmd_resp_new_error (.epochNotMatch
              (if s.d.last_merge_version ≤ cmd.header.region_epoch.version
               then [s.d.region] else [])),
            ApplyResult.none,
            { d := with_applied t.d index term,
              ctx := { t.ctx with
                         kv_wb := some wb, exec_ctx := none } }) := by
    intro t ht htwb
    rw [apply_raft_cmd, if_neg (by simp [ht, hpr]), htwb]
    simp only [hexec { t with ctx := { t.ctx with
          exec_ctx := some (ExecCtx.mk t.d.apply_state index term),
          kv_wb := some wb.set_save_point } }
        (by rw [ht]) (by rw [ht]), hroll]
    rw [with_applied]
    rfl
  refine ⟨happly s rfl hwb, ?_⟩
  intro pre bucket hidx hcbs hq hcc
  rw [process_raft_cmd, if_neg (by simpa using hidx)]
  simp only [happly
    { s with ctx := { s.ctx with
        sync_log_hint := s.ctx.sync_log_hint || should_sync_log cmd } }
    rfl hwb]
  have hfind : ∀ (t : ApplySt) (b : Bool),
      t.d.pending_cmds = s.d.pending_cmds →
      find_cb t index term b = .ok (none, t) := by
    intro t b htq
    by_cases hconf : b = true
    · subst hconf
      rw [find_cb]
      simp only [if_true]
      rw [PendingCmdQueue.take_conf_change]
      have hccT : t.d.pending_cmds.conf_change = none := by
        rw [htq]
        exact hcc
      have hq2 : ({ t.d.pending_cmds with conf_change := none }
          : PendingCmdQueue) = t.d.pending_cmds := by
        rcases hpq : t.d.pending_cmds with ⟨n, cap, cc⟩
        rw [hpq] at hccT
        simp only at hccT
        subst hccT
        rfl
      simp only [hccT, hq2]
    · rw [find_cb]
      rw [if_neg hconf]
      have hfn : find_cb_normals t.d.pending_cmds t.d.term index term []
          = .ok (none, t.d.pending_cmds, []) := by
        rw [find_cb_normals_eq]
        have hpop : t.d.pending_cmds.pop_normal index term
            = (none, t.d.pending_cmds) := by
          rw [htq]
          simp [PendingCmdQueue.pop_normal, hq]
        rw [hpop]
      rw [hfn]
      simp
  have hpush : ∀ (t : ApplyContext) (r : RaftCmdResponse),
      t.cbs = pre ++ [bucket] →
      push_to_last_bucket t none r
        = .ok { t with cbs := pre
            ++ [{ bucket with cbs := bucket.cbs ++ [(none, r)] }] } := by
    intro t r htc
    rw [push_to_last_bucket, htc]
    simp
  simp only [with_applied, hfind, hpush, hcbs]
  exact ⟨_, rfl, rfl, rfl, rfl, rfl, rfl, rfl, rfl⟩

/-- C2 counterexample: with a delegate whose last_merge_version is five and
a command whose stale mismatching header version is below it, the
EpochNotMatch response delivered into the callback bucket carries no
region, not the current region as the original claim states. -/
theorem claim_C2_counterexample :
    ∃ s1, process_raft_cmd fx_st_c2 1 1 fx_cmd_bad_epoch
        = .ok (ApplyResult.none, s1)
      ∧ s1.ctx.cbs = [ApplyCallbackBucket.mk fx_region
          [(none, cmd_resp_bind_term
            (cmd_resp_new_error (.epochNotMatch [])) 1)]]
      ∧ cmd_resp_bind_term (cmd_resp_new_error (.epochNotMatch [])) 1
          ≠ cmd_resp_bind_term
              (cmd_resp_new_error (.epochNotMatch [fx_st_c2.d.region])) 1 := by
  obtain ⟨hA, hB⟩ := epoch_mismatch_run fx_st_c2 1 1 fx_cmd_bad_epoch
    WriteBatch.empty rfl rfl (Or.inr (by decide))
  obtain ⟨s1, hrun, hwb1, heng, happ, hterm, hreg, hcbs1, hres⟩ :=
    hB [] (ApplyCallbackBucket.mk fx_region []) (by decide) rfl rfl rfl
  refine ⟨s1, hrun, ?_, by decide⟩
  rw [hcbs1]
  decide

/-- C2 (amended): for every command whose request-header epoch mismatches
the delegate region epoch in conf_ver or version, apply_raft_cmd leaves
the write batch identical to its pre-command state (the save point is
rolled back), produces no exec result and no engine mutation, advances
applied_index to the entry index and applied_index_term to the entry
term, and returns an EpochNotMatch response that carries the current
region exactly when the header epoch version is at least the delegate
last_merge_version, and no region otherwise; processing the entry with
an empty pending queue (so that callback pairing is the identity)
delivers that response, bound to the delegate term, into the current
callback bucket. -/
theorem claim_C2 (s : ApplySt) (index term : Nat) (cmd : RaftCmdRequest)
    (wb : WriteBatch)
    (hpr : s.d.pending_remove = false)
    (hwb : s.ctx.kv_wb = some wb)
    (hmm : cmd.header.region_epoch.conf_ver ≠ s.d.region.epoch.conf_ver
      ∨ cmd.header.region_epoch.version ≠ s.d.region.epoch.version) :
    (apply_raft_cmd s index term cmd
      = .ok (cmd_resp_new_error (.epochNotMatch
            (if s.d.last_merge_version ≤ cmd.header.region_epoch.version
             then [s.d.region] else [])),
          ApplyResult.none,
          { d := with_applied s.d index term,
            ctx := { s.ctx with kv_wb := some wb, exec_ctx := none } }))
    ∧ (∀ (pre : List ApplyCallbackBucket) (bucket : ApplyCallbackBucket),
        index ≠ 0 →
        s.ctx.cbs = pre ++ [bucket] →
        s.d.pending_cmds.normals = [] →
        s.d.pending_cmds.conf_change = none →
        ∃ s1, process_raft_cmd s index term cmd
            = .ok (ApplyResult.none, s1)
          ∧ s1.ctx.kv_wb = some wb
          ∧ s1.ctx.engine = s.ctx.engine
          ∧ s1.d.apply_state
              = { s.d.apply_state with applied_index := index }
          ∧ s1.d.applied_index_term = term
          ∧ s1.d.region = s.d.region
          ∧ s1.ctx.cbs = pre ++ [{ bucket with cbs := bucket.cbs
              ++ [(none, cmd_resp_bind_term
                    (cmd_resp_new_error (.epochNotMatch
                      (if s.d.last_merge_version
                          ≤ cmd.header.region_epoch.version
                       then [s.d.region] else [])))
                    s.d.term)] }]
          ∧ s1.ctx.apply_res = s.ctx.apply_res) :=
  epoch_mismatch_run s index term cmd wb hpr hwb hmm

theorem claim_C2_witness :
    (fx_st.d.pending_remove = false
      ∧ fx_st.ctx.kv_wb = some WriteBatch.empty
      ∧ fx_cmd_bad_epoch.header.region_epoch.version
          ≠ fx_st.d.region.epoch.version
      ∧ fx_st.d.last_merge_version
          ≤ fx_cmd_bad_epoch.header.region_epoch.version)
    ∧ ∃ s1, process_raft_cmd fx_st 1 1 fx_cmd_bad_epoch
        = .ok (ApplyResult.none, s1)
      ∧ s1.ctx.kv_wb = some WriteBatch.empty
      ∧ s1.ctx.engine = fx_engine
      ∧ s1.d.apply_state = { fx_apply_state with applied_index := 1 }
      ∧ s1.d.applied_index_term = 1
      ∧ s1.ctx.cbs = [ApplyCallbackBucket.mk fx_region
          [(none, cmd_resp_bind_term
              (cmd_resp_new_error (.epochNotMatch [fx_region])) 1)]] := by
  refine ⟨⟨rfl, rfl, by decide, by decide⟩, ?_⟩
  obtain ⟨hA, hB⟩ := claim_C2 fx_st 1 1 fx_cmd_bad_epoch WriteBatch.empty
    rfl rfl (Or.inr (by decide))
  obtain ⟨s1, hrun, hwb1, heng, happ, hterm, hreg, hcbs1, hres⟩ :=
    hB [] { region := fx_region, cbs := [] } (by decide) rfl rfl rfl
  exact ⟨s1, hrun, hwb1, by simpa using heng, by simpa using happ, hterm,
    by simpa using hcbs1⟩

theorem claim_C10_witness :
    ∃ notes,
      handle_registration fx_d_pending fx_reg2
        = .ok (ApplyDelegate.from_registration fx_reg2, notes)
      ∧ notes.map Prod.fst = [31, 32, 33]
      ∧ ∀ pr ∈ notes, pr.2 = cmd_resp_err_resp .staleCommand 4 := by
  obtain ⟨notes, hrun, hmap, hstale⟩ := claim_C10 fx_d_pending fx_reg2 rfl
    (by decide) (by intro c hc; simp [fx_d_pending] at hc; subst hc; rfl)
  exact ⟨notes, hrun, by simpa [fx_d_pending] using hmap, hstale⟩

theorem drop_cons_length {α : Type} :
    ∀ (l : List α) (a : α), l ≠ [] →
      (a :: l).drop l.length = l.getLast?.toList := by
  intro l
  induction l with
  | nil => intro a h; exact absurd rfl h
  | cons x xs ih =>
    intro a h
    rcases hxs : xs with _ | ⟨y, ys⟩
    · simp
    · rw [← hxs]
      have hne : xs ≠ [] := by simp [hxs]
      have : (a :: x :: xs).drop (x :: xs).length
          = (x :: xs).drop xs.length := by
        simp [List.drop_succ_cons]
      rw [this, ih x hne, hxs, List.getLast?_cons_cons]

theorem batch_split_collect_ok (derived : Region) :
    ∀ (reqs : List SplitRequest) (acc : List Bytes),
      reqs_valid (acc.getLast?.getD derived.start_key)
        derived.peers.length reqs = true →
      batch_split_collect_keys derived reqs acc
        = .ok (acc ++ reqs.map (fun r => r.split_key)) := by
  intro reqs
  induction reqs with
  | nil =>
    intro acc h
    simp [batch_split_collect_keys]
  | cons r rest ih =>
    intro acc h
    rw [reqs_valid] at h
    simp only [Bool.and_eq_true, Bool.not_eq_true, beq_iff_eq] at h
    obtain ⟨⟨⟨h1, h2⟩, h3⟩, h4⟩ := h
    rw [batch_split_collect_keys,
      if_neg (by simpa using h1),
      if_neg (by simpa using h2),
      if_neg (by simp [h3])]
    have := ih (acc ++ [r.split_key]) (by simpa using h4)
    rw [this]
    simp

theorem reqs_violation_invalid (cnt : Nat) :
    ∀ (reqs : List SplitRequest) (prev : Bytes) (i : Nat), i < reqs.length →
      ((reqs.map (fun r => r.split_key)).getD i [] = []
        ∨ bytesLe ((reqs.map (fun r => r.split_key)).getD i [])
            ((prev :: reqs.map (fun r => r.split_key)).getD i []) = true
        ∨ ((reqs.map (fun r => r.new_peer_ids)).getD i []).length ≠ cnt) →
      reqs_valid prev cnt reqs = false := by
  intro reqs
  induction reqs with
  | nil =>
    intro prev i hi
    simp at hi
  | cons r rest ih =>
    intro prev i hi hviol
    rw [reqs_valid]
    rcases i with _ | j
    · simp only [List.map_cons, List.getD_cons_zero] at hviol
      rcases hviol with h | h | h
      · simp [h, List.isEmpty_iff]
      · simp [h]
      · simp only [Bool.and_eq_false_iff]
        left
        right
        simpa using h
    · have hv : reqs_valid r.split_key cnt rest = false := by
        refine ih r.split_key j (by simpa using hi) ?_
        simpa using hviol
      simp [hv]

theorem batch_split_collect_err (derived : Region) :
    ∀ (reqs : List SplitRequest) (acc : List Bytes),
      reqs_valid (acc.getLast?.getD derived.start_key)
        derived.peers.length reqs = false →
      ∃ e, batch_split_collect_keys derived reqs acc = .error e := by
  intro reqs
  induction reqs with
  | nil =>
    intro acc h
    rw [reqs_valid] at h
    simp at h
  | cons r rest ih =>
    intro acc h
    rw [batch_split_collect_keys]
    by_cases h1 : r.split_key.isEmpty
    · exact ⟨_, by rw [if_pos h1]⟩
    · rw [if_neg h1]
      by_cases h2 : bytesLe r.split_key ((acc.getLast?).getD derived.start_key)
      · exact ⟨_, by rw [if_pos h2]⟩
      · rw [if_neg h2]
        by_cases h3 : r.new_peer_ids.length != derived.peers.length
        · exact ⟨_, by rw [if_pos h3]⟩
        · rw [if_neg h3]
          refine ih (acc ++ [r.split_key]) ?_
          rw [reqs_valid] at h
          simp only [Bool.and_eq_false_iff, Bool.not_eq_false] at h
          rcases h with ((h | h) | h) | h
          · exact absurd h (by simpa using h1)
          · exact absurd h (by simpa using h2)
          · exact absurd h (by simpa using h3)
          · simpa using h

theorem batch_split_build_spec (derived : Region) :
    ∀ (reqs : List SplitRequest) (keys : List Bytes) (regions : List Region)
      (wb : WriteBatch), reqs.length < keys.length →
      ∃ new_regions,
        batch_split_build_regions derived reqs keys regions wb
          = .ok (keys.drop reqs.length, regions ++ new_regions,
              { wb with ops := wb.ops ++ new_regions.flatMap split_ops_of })
        ∧ List.Forall₂ (split_region_matches derived) new_regions reqs := by
  intro reqs
  induction reqs with
  | nil =>
    intro keys regions wb hlen
    refine ⟨[], ?_, List.Forall₂.nil⟩
    rw [batch_split_build_regions]
    simp
  | cons r rest ih =>
    intro keys regions wb hlen
    rcases keys with _ | ⟨k0, keys1⟩
    · simp at hlen
    rcases keys1 with _ | ⟨k1, krest⟩
    · simp at hlen
    rw [batch_split_build_regions]
    have hlen1 : rest.length < (k1 :: krest).length := by
      simp at hlen ⊢
      omega
    obtain ⟨new_rest, hrun, hfa⟩ := ih (k1 :: krest)
      (regions ++ [split_new_region derived r k0 k1])
      (write_initial_apply_state
        (write_peer_state wb (split_new_region derived r k0 k1) .normal none)
        (split_new_region derived r k0 k1).id) hlen1
    have hreg : (split_new_region derived r k0 k1)
        = { id := r.new_region_id, start_key := k0, end_key := k1,
            peers := (derived.peers.zip r.new_peer_ids).map
              (fun pq => { pq.1 with id := pq.2 }),
            epoch := derived.epoch } := rfl
    rw [← hreg, hrun]
    refine ⟨split_new_region derived r k0 k1 :: new_rest, ?_, ?_⟩
    · simp only [write_initial_apply_state, write_peer_state,
        List.drop_succ_cons, List.flatMap_cons, split_ops_of]
      simp [List.append_assoc]
    · exact List.Forall₂.cons ⟨rfl, rfl, rfl⟩ hfa

/-- Transport the split-region relation along a region with the same epoch
and peers. -/
theorem forall2_split_matches_imp (a b : Region) (hep : a.epoch = b.epoch)
    (hpe : a.peers = b.peers) {l : List Region} {rs : List SplitRequest}
    (h : List.Forall₂ (split_region_matches a) l rs) :
    List.Forall₂ (split_region_matches b) l rs := by
  refine h.imp ?_
  intro r req hm
  exact ⟨hm.1, hep ▸ hm.2.1, hpe ▸ hm.2.2⟩

/-- C4: exec_batch_split errors on zero split requests, on any split key
that is empty or not strictly above the previous key (the region start key
for the first), on any request whose new peer id count differs from the
region peer count, and on a final split key outside the original region;
on success the derived region keeps the original id and peers with its
version raised by the number of requests, every new region takes the
requested id and the derived epoch and the derived peers with ids replaced
pairwise by the requested new peer ids, right_derive decides whether the
derived region keeps the right-most or the left-most key interval, every
new region is persisted with its Normal region state and an initial apply
state followed by the derived region state, and the result is SplitRegion
with the regions and the derived region. -/
theorem claim_C4 (d : ApplyDelegate) (ctx : ApplyContext)
    (right_derive : Bool) (reqs : List SplitRequest) (wb : WriteBatch)
    (hwb : ctx.kv_wb = some wb) :
    (reqs = [] →
      exec_batch_split d ctx right_derive reqs
        = .ok (.error (.other "missing split requests"), d, ctx))
    ∧ (∀ i, i < reqs.length →
        ((reqs.map (fun r => r.split_key)).getD i [] = []
          ∨ bytesLe ((reqs.map (fun r => r.split_key)).getD i [])
              ((d.region.start_key
                :: reqs.map (fun r => r.split_key)).getD i []) = true
          ∨ ((reqs.map (fun r => r.new_peer_ids)).getD i []).length
              ≠ d.region.peers.length) →
        ∃ e, exec_batch_split d ctx right_derive reqs
          = .ok (.error e, d, ctx))
    ∧ (reqs ≠ [] →
        reqs_valid d.region.start_key d.region.peers.length reqs = true →
        ∀ e, check_key_in_region
            ((reqs.map (fun r => r.split_key)).getLast?.getD []) d.region
            = .error e →
        exec_batch_split d ctx right_derive reqs = .ok (.error e, d, ctx))
    ∧ (reqs ≠ [] →
        reqs_valid d.region.start_key d.region.peers.length reqs = true →
        check_key_in_region
            ((reqs.map (fun r => r.split_key)).getLast?.getD []) d.region
          = .ok () →
        ∃ derived new_regions regions wb1,
          exec_batch_split d ctx right_derive reqs
            = .ok (.ok ({ AdminResponse.default with
                  splits_regions := regions },
                .res (.splitRegion regions derived)),
              d, { ctx with kv_wb := some wb1 })
          ∧ derived.id = d.region.id
          ∧ derived.peers = d.region.peers
          ∧ derived.epoch.conf_ver = d.region.epoch.conf_ver
          ∧ derived.epoch.version = d.region.epoch.version + reqs.length
          ∧ List.Forall₂ (split_region_matches derived) new_regions reqs
          ∧ regions = (if right_derive then new_regions ++ [derived]
              else derived :: new_regions)
          ∧ (right_derive = true →
              derived.start_key
                  = (reqs.map (fun r => r.split_key)).getLast?.getD []
              ∧ derived.end_key = d.region.end_key)
          ∧ (right_derive = false →
              derived.start_key = d.region.start_key
              ∧ derived.end_key
                  = (reqs.map (fun r => r.split_key)).headD [])
          ∧ wb1.ops = wb.ops ++ new_regions.flatMap split_ops_of
              ++ [.putRegionState derived.id
                   { state := .normal, region := derived,
                     merge_state := none }]
          ∧ wb1.save_points = wb.save_points) := by
  refine ⟨?_, ?_, ?_, ?_⟩
  · intro h
    subst h
    rfl
  · intro i hi hviol
    have hne : reqs ≠ [] := by
      intro h
      subst h
      simp at hi
    have hv : reqs_valid d.region.start_key d.region.peers.length reqs
        = false :=
      reqs_violation_invalid d.region.peers.length reqs d.region.start_key
        i hi hviol
    obtain ⟨e, he⟩ :=
      batch_split_collect_err d.region reqs [] (by simpa using hv)
    refine ⟨e, ?_⟩
    simp only [exec_batch_split]
    rw [if_neg (by simpa using hne)]
    simp only [he]
  · intro hne hvalid e he
    have hcollect := batch_split_collect_ok d.region reqs []
      (by simpa using hvalid)
    simp only [List.nil_append] at hcollect
    simp only [exec_batch_split]
    rw [if_neg (by simpa using hne)]
    simp only [hcollect, he]
  · intro hne hvalid hin
    have hcollect := batch_split_collect_ok d.region reqs []
      (by simpa using hvalid)
    simp only [List.nil_append] at hcollect
    have hkne : reqs.map (fun r => r.split_key) ≠ [] := by simpa using hne
    rcases right_derive with _ | _
    · -- left derive: the derived region keeps the left-most interval
      have hlen : reqs.length
          < ((reqs.map (fun r => r.split_key))
              ++ [d.region.end_key]).length := by simp
      obtain ⟨new_regions, hrun, hfa⟩ := batch_split_build_spec
        (region_with_end (region_with_version d.region
          (d.region.epoch.version + reqs.length))
          ((reqs.map (fun r => r.split_key)).headD []))
        reqs ((reqs.map (fun r => r.split_key)) ++ [d.region.end_key])
        [region_with_end (region_with_version d.region
          (d.region.epoch.version + reqs.length))
          ((reqs.map (fun r => r.split_key)).headD [])] wb hlen
      simp only [region_with_end, region_with_version] at hrun
      refine ⟨region_with_end (region_with_version d.region
          (d.region.epoch.version + reqs.length))
          ((reqs.map (fun r => r.split_key)).headD []),
        new_regions,
        region_with_end (region_with_version d.region
          (d.region.epoch.version + reqs.length))
          ((reqs.map (fun r => r.split_key)).headD []) :: new_regions,
        write_peer_state
          { wb with ops := wb.ops ++ new_regions.flatMap split_ops_of }
          (region_with_end (region_with_version d.region
            (d.region.epoch.version + reqs.length))
            ((reqs.map (fun r => r.split_key)).headD [])) .normal none,
        ?_, rfl, rfl, rfl, rfl, hfa, by simp,
        by intro h; simp at h, fun h => ⟨rfl, rfl⟩, ?_, ?_⟩
      · simp only [exec_batch_split]
        rw [if_neg (by simpa using hne)]
        simp only [hcollect, hin, hwb, Bool.false_eq_true, if_false,
          List.singleton_append, hrun, List.cons_append, List.nil_append,
          region_with_end, region_with_version, write_peer_state]
      · rfl
      · rfl
    · -- right derive: the derived region keeps the right-most interval
      obtain ⟨lk, hlk⟩ : ∃ k,
          (reqs.map (fun r => r.split_key)).getLast? = some k := by
        cases h : (reqs.map (fun r => r.split_key)).getLast? with
        | some k => exact ⟨k, rfl⟩
        | none => exact absurd (List.getLast?_eq_none_iff.mp h) hkne
      have hlen : reqs.length
          < (d.region.start_key :: reqs.map (fun r => r.split_key)).length := by
        simp
      obtain ⟨new_regions, hrun, hfa⟩ := batch_split_build_spec
        (region_with_version d.region (d.region.epoch.version + reqs.length))
        reqs (d.region.start_key :: reqs.map (fun r => r.split_key))
        [] wb hlen
      have hdrop : (d.region.start_key
          :: reqs.map (fun r => r.split_key)).drop reqs.length = [lk] := by
        rw [show reqs.length = (reqs.map (fun r => r.split_key)).length
            by simp]
        rw [drop_cons_length _ _ hkne, hlk]
        rfl
      rw [hdrop] at hrun
      simp only [List.nil_append, region_with_version] at hrun
      refine ⟨region_with_start (region_with_version d.region
          (d.region.epoch.version + reqs.length)) lk,
        new_regions,
        new_regions ++ [region_with_start (region_with_version d.region
          (d.region.epoch.version + reqs.length)) lk],
        write_peer_state
          { wb with ops := wb.ops ++ new_regions.flatMap split_ops_of }
          (region_with_start (region_with_version d.region
            (d.region.epoch.version + reqs.length)) lk) .normal none,
        ?_, rfl, rfl, rfl, rfl,
        forall2_split_matches_imp _ _ rfl rfl hfa, by simp,
        fun h => ⟨by rw [hlk]; rfl, rfl⟩, by intro h; simp at h, ?_, ?_⟩
      · simp only [exec_batch_split]
        rw [if_neg (by simpa using hne)]
        simp only [hcollect, hin, hwb, eq_self_iff_true, if_true,
          hrun, List.headD_cons, region_with_start, region_with_version,
          write_peer_state]
      · rfl
      · rfl

theorem claim_C4_witness :
    fx_ctx.kv_wb = some WriteBatch.empty ∧
    ([fx_split_req] ≠ []
      ∧ reqs_valid fx_d_split.region.start_key
          fx_d_split.region.peers.length [fx_split_req] = true
      ∧ check_key_in_region
          (([fx_split_req].map (fun r => r.split_key)).getLast?.getD [])
          fx_d_split.region = .ok ())
    ∧ (∃ derived new_regions regions wb1,
        exec_batch_split fx_d_split fx_ctx true [fx_split_req]
          = .ok (.ok ({ AdminResponse.default with
                splits_regions := regions },
              .res (.splitRegion regions derived)),
            fx_d_split, { fx_ctx with kv_wb := some wb1 })
        ∧ derived.id = fx_d_split.region.id
        ∧ derived.peers = fx_d_split.region.peers
        ∧ derived.epoch.conf_ver = fx_d_split.region.epoch.conf_ver
        ∧ derived.epoch.version
            = fx_d_split.region.epoch.version + [fx_split_req].length
        ∧ List.Forall₂ (split_region_matches derived) new_regions
            [fx_split_req]
        ∧ regions = new_regions ++ [derived]
        ∧ derived.start_key
            = ([fx_split_req].map (fun r => r.split_key)).getLast?.getD []
        ∧ derived.end_key = fx_d_split.region.end_key
        ∧ wb1.ops = WriteBatch.empty.ops
            ++ new_regions.flatMap split_ops_of
            ++ [.putRegionState derived.id
                 { state := .normal, region := derived,
                   merge_state := none }]
        ∧ wb1.save_points = WriteBatch.empty.save_points) := by
  refine ⟨rfl, ⟨by decide, by decide, by rfl⟩, ?_⟩
  obtain ⟨derived, new_regions, regions, wb1, h1, h2, h3, h4, h5, h6, h7,
    h8, h9, h10, h11⟩ :=
    (claim_C4 fx_d_split fx_ctx true [fx_split_req] WriteBatch.empty
      rfl).2.2.2 (by decide) (by decide) (by rfl)
  exact ⟨derived, new_regions, regions, wb1, h1, h2, h3, h4, h5, h6,
    by simpa using h7, (h8 rfl).1, (h8 rfl).2, h10, h11⟩

theorem except_error_bind {e : Type} {a b : Type} (err : e)
    (f : a → Except e b) :
    (Except.error err : Except e a) >>= f = .error err := rfl

theorem notify_stale_command_gf {term : Nat} {cmd : PendingCmd} {f : Fatal}
    (h : notify_stale_command term cmd = .error f) : gap_free f := by
  unfold notify_stale_command at h
  repeat (any_goals first
    | split at h
    | dsimp only [] at h)
  all_goals first
    | exact Except.noConfusion h
    | (injection h with h1; subst h1; simp [gap_free])

theorem notify_region_removed_gf {region_id : Nat} {cmd : PendingCmd}
    {f : Fatal} (h : notify_region_removed region_id cmd = .error f) :
    gap_free f := by
  unfold notify_region_removed at h
  repeat (any_goals first
    | split at h
    | dsimp only [] at h)
  all_goals first
    | exact Except.noConfusion h
    | (injection h with h1; subst h1; simp [gap_free])

theorem push_to_last_bucket_gf {ctx : ApplyContext} {cb : Option Nat}
    {resp : RaftCmdResponse} {f : Fatal}
    (h : push_to_last_bucket ctx cb resp = .error f) : gap_free f := by
  unfold push_to_last_bucket at h
  repeat (any_goals first
    | split at h
    | dsimp only [] at h)
  all_goals first
    | exact Except.noConfusion h
    | (injection h with h1; subst h1; simp [gap_free])

theorem ctx_commit_gf {s : ApplySt} {f : Fatal}
    (h : ctx_commit s = .error f) : gap_free f := by
  unfold ctx_commit at h
  repeat (any_goals first
    | split at h
    | dsimp only [] at h)
  all_goals first
    | exact Except.noConfusion h
    | (injection h with h1; subst h1; simp [gap_free])

theorem finish_for_gf {s : ApplySt} {results : List ExecResult} {f : Fatal}
    (h : finish_for s results = .error f) : gap_free f := by
  unfold finish_for at h
  repeat (any_goals first
    | split at h
    | dsimp only [] at h)
  all_goals first
    | exact Except.noConfusion h
    | (injection h with h1; subst h1; simp [gap_free])

theorem exec_change_peer_gf {d : ApplyDelegate} {ctx : ApplyContext}
    {request : ChangePeerRequest} {f : Fatal}
    (h : exec_change_peer d ctx request = .error f) : gap_free f := by
  unfold exec_change_peer at h
  repeat (any_goals first
    | split at h
    | dsimp only [] at h)
  all_goals first
    | exact Except.noConfusion h
    | (injection h with h1; subst h1; simp [gap_free])

theorem exec_prepare_merge_gf {d : ApplyDelegate} {ctx : ApplyContext}
    {min_index : Nat} {target : Region} {f : Fatal}
    (h : exec_prepare_merge d ctx min_index target = .error f) :
    gap_free f := by
  unfold exec_prepare_merge at h
  repeat (any_goals first
    | split at h
    | dsimp only [] at h)
  all_goals first
    | exact Except.noConfusion h
    | (injection h with h1; subst h1; simp [gap_free])

theorem exec_rollback_merge_gf {d : ApplyDelegate} {ctx : ApplyContext}
    {commit : Nat} {f : Fatal}
    (h : exec_rollback_merge d ctx commit = .error f) : gap_free f := by
  unfold exec_rollback_merge at h
  repeat (any_goals first
    | split at h
    | dsimp only [] at h)
  all_goals first
    | exact Except.noConfusion h
    | (injection h with h1; subst h1; simp [gap_free])

theorem exec_compact_log_gf {d : ApplyDelegate} {ctx : ApplyContext}
    {ci ct : Nat} {f : Fatal}
    (h : exec_compact_log d ctx ci ct = .error f) : gap_free f := by
  unfold exec_compact_log at h
  repeat (any_goals first
    | split at h
    | dsimp only [] at h)
  all_goals first
    | exact Except.noConfusion h
    | (injection h with h1; subst h1; simp [gap_free])

theorem exec_compute_hash_gf {d : ApplyDelegate} {ctx : ApplyContext}
    {f : Fatal} (h : exec_compute_hash d ctx = .error f) : gap_free f := by
  unfold exec_compute_hash at h
  repeat (any_goals first
    | split at h
    | dsimp only [] at h)
  all_goals first
    | exact Except.noConfusion h
    | (injection h with h1; subst h1; simp [gap_free])

theorem exec_verify_hash_gf {d : ApplyDelegate} {ctx : ApplyContext}
    {index : Nat} {hash : Bytes} {f : Fatal}
    (h : exec_verify_hash d ctx index hash = .error f) : gap_free f := by
  unfold exec_verify_hash at h
  exact Except.noConfusion h

theorem exec_commit_merge_ready_gf {d : ApplyDelegate} {ctx : ApplyContext}
    {merge : CommitMergeRequest} {state : RegionLocalState} {f : Fatal}
    (h : exec_commit_merge.exec_commit_merge_ready d ctx merge state
      = .error f) : gap_free f := by
  unfold exec_commit_merge.exec_commit_merge_ready at h
  repeat (any_goals first
    | split at h
    | dsimp only [] at h)
  all_goals first
    | exact Except.noConfusion h
    | (injection h with h1; subst h1; simp [gap_free])

theorem exec_commit_merge_gf {d : ApplyDelegate} {ctx : ApplyContext}
    {merge : CommitMergeRequest} {f : Fatal}
    (h : exec_commit_merge d ctx merge = .error f) : gap_free f := by
  unfold exec_commit_merge at h
  repeat (any_goals first
    | split at h
    | dsimp only [] at h)
  all_goals first
    | exact Except.noConfusion h
    | exact exec_commit_merge_ready_gf h
    | (injection h with h1; subst h1; solve
        | simp [gap_free]
        | (rename_i hq; exact exec_commit_merge_ready_gf hq))

theorem notify_all_removed_gf {region_id : Nat} {cmds : List PendingCmd}
    {f : Fatal} (h : notify_all_removed region_id cmds = .error f) :
    gap_free f := by
  induction cmds generalizing f with
  | nil => exact absurd h (by simp [notify_all_removed])
  | cons c rest ih =>
    unfold notify_all_removed at h
    repeat (any_goals first
      | split at h
      | dsimp only [] at h)
    all_goals first
      | exact Except.noConfusion h
      | (injection h with h1; subst h1; solve
          | simp [gap_free]
          | (rename_i hq; first
              | exact notify_region_removed_gf hq
              | exact ih hq))

theorem delegate_destroy_gf {s : ApplySt} {f : Fatal}
    (h : delegate_destroy s = .error f) : gap_free f := by
  unfold delegate_destroy at h
  repeat (any_goals first
    | split at h
    | dsimp only [] at h)
  all_goals first
    | exact Except.noConfusion h
    | (injection h with h1; subst h1; solve
        | simp [gap_free]
        | (rename_i hq; first
            | exact notify_all_removed_gf hq
            | exact notify_region_removed_gf hq))

theorem finish_entries_gf {s : ApplySt} {results : List ExecResult}
    {f : Fatal} (h : finish_entries s results = .error f) : gap_free f := by
  unfold finish_entries at h
  repeat (any_goals first
    | split at h
    | dsimp only [] at h)
  all_goals first
    | exact Except.noConfusion h
    | exact delegate_destroy_gf h
    | (injection h with h1; subst h1; solve
        | simp [gap_free]
        | (rename_i hq; exact finish_for_gf hq))

theorem batch_split_build_gf {derived : Region} {reqs : List SplitRequest}
    {keys : List Bytes} {regions : List Region} {wb : WriteBatch} {f : Fatal}
    (h : batch_split_build_regions derived reqs keys regions wb = .error f) :
    gap_free f := by
  induction reqs generalizing keys regions wb f with
  | nil => exact absurd h (by simp [batch_split_build_regions])
  | cons r rest ih =>
    unfold batch_split_build_regions at h
    repeat (any_goals first
      | split at h
      | dsimp only [] at h)
    all_goals first
      | exact Except.noConfusion h
      | exact ih h
      | (injection h with h1; subst h1; simp [gap_free])

theorem exec_batch_split_gf {d : ApplyDelegate} {ctx : ApplyContext}
    {right_derive : Bool} {reqs : List SplitRequest} {f : Fatal}
    (h : exec_batch_split d ctx right_derive reqs = .error f) :
    gap_free f := by
  unfold exec_batch_split at h
  repeat (any_goals first
    | split at h
    | dsimp only [] at h)
  all_goals first
    | exact Except.noConfusion h
    | (injection h with h1; subst h1; solve
        | simp [gap_free]
        | (rename_i hq; exact batch_split_build_gf hq))

theorem exec_split_gf {d : ApplyDelegate} {ctx : ApplyContext}
    {split : SplitRequest} {f : Fatal}
    (h : exec_split d ctx split = .error f) : gap_free f := by
  unfold exec_split at h
  exact exec_batch_split_gf h

theorem exec_write_requests_gf {d : ApplyDelegate} {ctx : ApplyContext}
    {reqs : List Request} {responses : List Response} {ranges : List Range}
    {ssts : List SstMeta} {f : Fatal}
    (h : exec_write_requests d ctx reqs responses ranges ssts = .error f) :
    gap_free f := by
  induction reqs generalizing ctx responses ranges ssts f with
  | nil => exact absurd h (by simp [exec_write_requests])
  | cons r rest ih =>
    unfold exec_write_requests at h
    repeat (any_goals first
      | split at h
      | dsimp only [] at h)
    all_goals first
      | exact Except.noConfusion h
      | exact ih h
      | (injection h with h1; subst h1; simp [gap_free])

theorem exec_write_cmd_gf {d : ApplyDelegate} {ctx : ApplyContext}
    {req : RaftCmdRequest} {f : Fatal}
    (h : exec_write_cmd d ctx req = .error f) : gap_free f := by
  unfold exec_write_cmd at h
  repeat (any_goals first
    | split at h
    | dsimp only [] at h)
  all_goals first
    | exact Except.noConfusion h
    | (injection h with h1; subst h1; solve
        | simp [gap_free]
        | (rename_i hq; exact exec_write_requests_gf hq))

set_option maxHeartbeats 1600000 in
theorem exec_admin_cmd_gf {d : ApplyDelegate} {ctx : ApplyContext}
    {req : RaftCmdRequest} {request : AdminRequest} {f : Fatal}
    (h : exec_admin_cmd d ctx req request = .error f) : gap_free f := by
  cases request
  all_goals simp only [exec_admin_cmd] at h
  repeat (any_goals first
    | split at h
    | dsimp only [] at h)
  all_goals first
    | exact Except.noConfusion h
    | (injection h with h1; subst h1; solve
        | simp [gap_free]
        | (rename_i hq; first
            | exact exec_change_peer_gf hq
            | exact exec_split_gf hq
            | exact exec_batch_split_gf hq
            | exact exec_compact_log_gf hq
            | exact exec_compute_hash_gf hq
            | exact exec_verify_hash_gf hq
            | exact exec_prepare_merge_gf hq
            | exact exec_commit_merge_gf hq
            | exact exec_rollback_merge_gf hq))

theorem exec_raft_cmd_gf {s : ApplySt} {req : RaftCmdRequest} {f : Fatal}
    (h : exec_raft_cmd s req = .error f) : gap_free f := by
  unfold exec_raft_cmd at h
  rcases hep : check_region_epoch req s.d.region
      (decide (req.header.region_epoch.version ≥ s.d.last_merge_version))
    with e | u
  · simp only [hep] at h
    exact Except.noConfusion h
  · simp only [hep] at h
    rcases hadm : req.admin_request with _ | adm
    · simp only [hadm] at h
      rcases hw : exec_write_cmd s.d s.ctx req with g | pr
      · simp only [hw] at h
        injection h with h1
        subst h1
        exact exec_write_cmd_gf hw
      · simp only [hw] at h
        rcases pr with ⟨out, ctx1⟩
        exact Except.noConfusion h
    · simp only [hadm] at h
      rcases ha : exec_admin_cmd s.d s.ctx req adm with g | tr
      · simp only [ha] at h
        injection h with h1
        subst h1
        exact exec_admin_cmd_gf ha
      · simp only [ha] at h
        rcases tr with ⟨out, d1, ctx1⟩
        exact Except.noConfusion h

theorem apply_raft_cmd_gf {s : ApplySt} {index term : Nat}
    {req : RaftCmdRequest} {f : Fatal}
    (h : apply_raft_cmd s index term req = .error f) : gap_free f := by
  unfold apply_raft_cmd at h
  split at h
  · injection h with h1
    subst h1
    simp [gap_free]
  · split at h
    · injection h with h1
      subst h1
      simp [gap_free]
    · try dsimp only [] at h
      split at h
      · next g hg =>
        injection h with h1
        subst h1
        exact exec_raft_cmd_gf hg
      · rename_i out s1 hexec
        rcases out with e | a
        · try dsimp only [] at h
          rcases hk : s1.ctx.kv_wb with _ | wb1
          · simp only [hk] at h
            injection h with h1
            subst h1
            simp [gap_free]
          · simp only [hk] at h
            rcases hr : wb1.rollback_to_save_point with _ | wb2
            · simp only [hr] at h
              injection h with h1
              subst h1
              simp [gap_free]
            · simp only [hr] at h
              split at h
              · exact Except.noConfusion h
              · split at h
                · injection h with h1
                  subst h1
                  simp [gap_free]
                · exact Except.noConfusion h
        · try dsimp only [] at h
          rcases hk : s1.ctx.kv_wb with _ | wb1
          · simp only [hk] at h
            injection h with h1
            subst h1
            simp [gap_free]
          · simp only [hk] at h
            rcases hp : wb1.pop_save_point with _ | wb2
            · simp only [hp] at h
              injection h with h1
              subst h1
              simp [gap_free]
            · simp only [hp] at h
              rcases a with ⟨resp0, er0⟩
              try dsimp only [] at h
              split at h
              · exact Except.noConfusion h
              · split at h
                · injection h with h1
                  subst h1
                  simp [gap_free]
                · exact Except.noConfusion h

theorem find_cb_normals_gf {q : PendingCmdQueue} {dterm index term : Nat}
    {invoked : List (Nat × RaftCmdResponse)} {f : Fatal}
    (h : find_cb_normals q dterm index term invoked = .error f) :
    gap_free f := by
  have H : ∀ (n : Nat) (q : PendingCmdQueue)
      (invoked : List (Nat × RaftCmdResponse)) (f : Fatal),
      q.normals.length ≤ n →
      find_cb_normals q dterm index term invoked = .error f →
      gap_free f := by
    intro n
    induction n with
    | zero =>
      intro q invoked f hlen h
      have hnil : q.normals = [] := by
        simpa using Nat.le_zero.mp hlen
      have hpop : q.pop_normal index term = (none, q) := by
        unfold PendingCmdQueue.pop_normal
        rw [hnil]
      rw [find_cb_normals_eq] at h
      simp only [hpop] at h
      exact Except.noConfusion h
    | succ m ih =>
      intro q invoked f hlen h
      rw [find_cb_normals_eq] at h
      rcases hpop : q.pop_normal index term with ⟨o, q1⟩
      rcases o with _ | head
      · simp only [hpop] at h
        exact Except.noConfusion h
      · simp only [hpop] at h
        by_cases ht : (head.term == term) = true
        · rw [if_pos ht] at h
          by_cases hi : (head.index == index) = true
          · rw [if_pos hi] at h
            rcases hcb : head.cb with _ | cb
            · simp only [hcb] at h
              injection h with h1
              subst h1
              simp [gap_free]
            · simp only [hcb] at h
              exact Except.noConfusion h
          · rw [if_neg hi] at h
            injection h with h1
            subst h1
            simp [gap_free]
        · rw [if_neg ht] at h
          rcases hns : notify_stale_command dterm head with g | pr
          · simp only [hns] at h
            injection h with h1
            subst h1
            exact notify_stale_command_gf hns
          · simp only [hns] at h
            have hlt := pop_normal_some_spec q index term head q1 hpop
            exact ih q1 (invoked ++ [pr]) f (by omega) h
  exact H q.normals.length q invoked f (le_refl _) h

theorem find_cb_gf {s : ApplySt} {index term : Nat} {icc : Bool} {f : Fatal}
    (h : find_cb s index term icc = .error f) : gap_free f := by
  unfold find_cb at h
  repeat (any_goals first
    | split at h
    | dsimp only [] at h)
  all_goals first
    | exact Except.noConfusion h
    | (injection h with h1; subst h1; solve
        | simp [gap_free]
        | (rename_i hq; first
            | exact notify_stale_command_gf hq
            | exact find_cb_normals_gf hq))

theorem foldl_push_gf {l : List (Option Nat × RaftCmdResponse)}
    {ctx : ApplyContext} {f : Fatal}
    (h : l.foldlM (fun c pr => push_to_last_bucket c pr.1 pr.2) ctx
      = .error f) : gap_free f := by
  induction l generalizing ctx f with
  | nil =>
    simp only [List.foldlM_nil] at h
    exact Except.noConfusion h
  | cons a rest ih =>
    simp only [List.foldlM_cons] at h
    rcases hp : push_to_last_bucket ctx a.1 a.2 with g | ctx1
    · rw [hp, except_error_bind] at h
      injection h with h1
      subst h1
      exact push_to_last_bucket_gf hp
    · rw [hp, except_ok_bind] at h
      exact ih h

theorem process_raft_cmd_gf {s : ApplySt} {index term : Nat}
    {cmd : RaftCmdRequest} {f : Fatal}
    (h : process_raft_cmd s index term cmd = .error f) : gap_free f := by
  unfold process_raft_cmd at h
  split at h
  · injection h with h1
    subst h1
    simp [gap_free]
  · try dsimp only [] at h
    split at h
    · next g hg =>
      injection h with h1
      subst h1
      exact apply_raft_cmd_gf hg
    · split at h
      · exact Except.noConfusion h
      · try dsimp only [] at h
        split at h
        · next g hg =>
          injection h with h1
          subst h1
          exact find_cb_gf hg
        · split at h
          · next g hg =>
            injection h with h1
            subst h1
            exact push_to_last_bucket_gf hg
          · exact Except.noConfusion h

theorem handle_raft_entry_normal_gf {s : ApplySt} {index term : Nat}
    {data : Option RaftCmdRequest} {f : Fatal}
    (h : handle_raft_entry_normal s index term data = .error f) :
    gap_free f := by
  unfold handle_raft_entry_normal at h
  split at h
  · split at h
    · injection h with h1
      subst h1
      simp [gap_free]
    · split at h
      · split at h
        · next g hg =>
          injection h with h1
          subst h1
          exact ctx_commit_gf hg
        · split at h
          · exact Except.noConfusion h
          · exact process_raft_cmd_gf h
      · exact process_raft_cmd_gf h
  · try dsimp only [] at h
    split at h
    · injection h with h1
      subst h1
      simp [gap_free]
    · try dsimp only [] at h
      split at h
      · next g hg =>
        injection h with h1
        subst h1
        exact foldl_push_gf hg
      · exact Except.noConfusion h

theorem handle_raft_entry_conf_change_gf {s : ApplySt} {index term : Nat}
    {cc : ConfChange} {f : Fatal}
    (h : handle_raft_entry_conf_change s index term cc = .error f) :
    gap_free f := by
  unfold handle_raft_entry_conf_change at h
  split at h
  · next g hg =>
    injection h with h1
    subst h1
    exact process_raft_cmd_gf hg
  · exact Except.noConfusion h
  · split at h
    all_goals first
      | exact Except.noConfusion h
      | (injection h with h1; subst h1; simp [gap_free])
  · injection h with h1
    subst h1
    simp [gap_free]
  · injection h with h1
    subst h1
    simp [gap_free]

theorem apply_exec_result_keeps (d : ApplyDelegate) (r : ExecResult) :
    (apply_exec_result_to_delegate d r).apply_state = d.apply_state := by
  cases r <;> rfl

theorem exec_change_peer_keeps {d : ApplyDelegate} {ctx : ApplyContext}
    {request : ChangePeerRequest}
    {out : Except KvError (AdminResponse × ApplyResult)}
    {d1 : ApplyDelegate} {ctx1 : ApplyContext}
    (h : exec_change_peer d ctx request = .ok (out, d1, ctx1)) :
    d1.apply_state = d.apply_state := by
  unfold exec_change_peer at h
  repeat (any_goals first
    | split at h
    | dsimp only [] at h)
  all_goals first
    | exact Except.noConfusion h
    | (simp only [Except.ok.injEq, Prod.mk.injEq] at h;
       obtain ⟨h1, h2, h3⟩ := h; subst h2; solve
        | rfl
        | (rename_i hq;
           repeat (any_goals first | split at hq | dsimp only [] at hq);
           all_goals first
             | exact Except.noConfusion hq
             | (simp only [Except.ok.injEq, Prod.mk.injEq] at hq;
                obtain ⟨hq1, hq2⟩ := hq; subst hq2; rfl))
        | (rename_i hq hx;
           repeat (any_goals first | split at hq | dsimp only [] at hq);
           all_goals first
             | exact Except.noConfusion hq
             | (simp only [Except.ok.injEq, Prod.mk.injEq] at hq;
                obtain ⟨hq1, hq2⟩ := hq; subst hq2; rfl)))

theorem exec_batch_split_keeps {d : ApplyDelegate} {ctx : ApplyContext}
    {right_derive : Bool} {reqs : List SplitRequest}
    {out : Except KvError (AdminResponse × ApplyResult)}
    {d1 : ApplyDelegate} {ctx1 : ApplyContext}
    (h : exec_batch_split d ctx right_derive reqs = .ok (out, d1, ctx1)) :
    d1.apply_state = d.apply_state := by
  unfold exec_batch_split at h
  repeat (any_goals first
    | split at h
    | dsimp only [] at h)
  all_goals first
    | exact Except.noConfusion h
    | (simp only [Except.ok.injEq, Prod.mk.injEq] at h;
       obtain ⟨h1, h2, h3⟩ := h; subst h2; rfl)

theorem exec_split_keeps {d : ApplyDelegate} {ctx : ApplyContext}
    {split : SplitRequest}
    {out : Except KvError (AdminResponse × ApplyResult)}
    {d1 : ApplyDelegate} {ctx1 : ApplyContext}
    (h : exec_split d ctx split = .ok (out, d1, ctx1)) :
    d1.apply_state = d.apply_state := by
  unfold exec_split at h
  exact exec_batch_split_keeps h

theorem exec_compact_log_keeps {d : ApplyDelegate} {ctx : ApplyContext}
    {ci ct : Nat} {out : Except KvError (AdminResponse × ApplyResult)}
    {d1 : ApplyDelegate} {ctx1 : ApplyContext}
    (h : exec_compact_log d ctx ci ct = .ok (out, d1, ctx1)) :
    d1.apply_state = d.apply_state := by
  unfold exec_compact_log at h
  repeat (any_goals first
    | split at h
    | dsimp only [] at h)
  all_goals first
    | exact Except.noConfusion h
    | (simp only [Except.ok.injEq, Prod.mk.injEq] at h;
       obtain ⟨h1, h2, h3⟩ := h; subst h2; rfl)

theorem exec_prepare_merge_keeps {d : ApplyDelegate} {ctx : ApplyContext}
    {min_index : Nat} {target : Region}
    {out : Except KvError (AdminResponse × ApplyResult)}
    {d1 : ApplyDelegate} {ctx1 : ApplyContext}
    (h : exec_prepare_merge d ctx min_index target = .ok (out, d1, ctx1)) :
    d1.apply_state = d.apply_state := by
  unfold exec_prepare_merge at h
  repeat (any_goals first
    | split at h
    | dsimp only [] at h)
  all_goals first
    | exact Except.noConfusion h
    | (simp only [Except.ok.injEq, Prod.mk.injEq] at h;
       obtain ⟨h1, h2, h3⟩ := h; subst h2; rfl)

theorem exec_commit_merge_ready_keeps {d : ApplyDelegate}
    {ctx : ApplyContext} {merge : CommitMergeRequest}
    {state : RegionLocalState}
    {out : Except KvError (AdminResponse × ApplyResult)}
    {d1 : ApplyDelegate} {ctx1 : ApplyContext}
    (h : exec_commit_merge.exec_commit_merge_ready d ctx merge state
      = .ok (out, d1, ctx1)) :
    d1.apply_state = d.apply_state := by
  unfold exec_commit_merge.exec_commit_merge_ready at h
  repeat (any_goals first
    | split at h
    | dsimp only [] at h)
  all_goals first
    | exact Except.noConfusion h
    | (simp only [Except.ok.injEq, Prod.mk.injEq] at h;
       obtain ⟨h1, h2, h3⟩ := h; subst h2; rfl)

theorem exec_commit_merge_keeps {d : ApplyDelegate} {ctx : ApplyContext}
    {merge : CommitMergeRequest}
    {out : Except KvError (AdminResponse × ApplyResult)}
    {d1 : ApplyDelegate} {ctx1 : ApplyContext}
    (h : exec_commit_merge d ctx merge = .ok (out, d1, ctx1)) :
    d1.apply_state = d.apply_state := by
  unfold exec_commit_merge at h
  repeat (any_goals first
    | split at h
    | dsimp only [] at h)
  all_goals first
    | exact Except.noConfusion h
    | (rename_i hq; exact (exec_commit_merge_ready_keeps hq).trans rfl)
    | exact exec_commit_merge_ready_keeps h
    | (exact (exec_commit_merge_ready_keeps h).trans rfl)
    | (simp only [Except.ok.injEq, Prod.mk.injEq] at h;
       obtain ⟨h1, h2, h3⟩ := h; subst h2; rfl)

theorem exec_rollback_merge_keeps {d : ApplyDelegate} {ctx : ApplyContext}
    {commit : Nat} {out : Except KvError (AdminResponse × ApplyResult)}
    {d1 : ApplyDelegate} {ctx1 : ApplyContext}
    (h : exec_rollback_merge d ctx commit = .ok (out, d1, ctx1)) :
    d1.apply_state = d.apply_state := by
  unfold exec_rollback_merge at h
  repeat (any_goals first
    | split at h
    | dsimp only [] at h)
  all_goals first
    | exact Except.noConfusion h
    | (simp only [Except.ok.injEq, Prod.mk.injEq] at h;
       obtain ⟨h1, h2, h3⟩ := h; subst h2; rfl)

theorem exec_compute_hash_keeps {d : ApplyDelegate} {ctx : ApplyContext}
    {out : Except KvError (AdminResponse × ApplyResult)}
    {d1 : ApplyDelegate} {ctx1 : ApplyContext}
    (h : exec_compute_hash d ctx = .ok (out, d1, ctx1)) :
    d1.apply_state = d.apply_state := by
  unfold exec_compute_hash at h
  repeat (any_goals first
    | split at h
    | dsimp only [] at h)
  all_goals first
    | exact Except.noConfusion h
    | (simp only [Except.ok.injEq, Prod.mk.injEq] at h;
       obtain ⟨h1, h2, h3⟩ := h; subst h2; rfl)

theorem exec_verify_hash_keeps {d : ApplyDelegate} {ctx : ApplyContext}
    {index : Nat} {hash : Bytes}
    {out : Except KvError (AdminResponse × ApplyResult)}
    {d1 : ApplyDelegate} {ctx1 : ApplyContext}
    (h : exec_verify_hash d ctx index hash = .ok (out, d1, ctx1)) :
    d1.apply_state = d.apply_state := by
  unfold exec_verify_hash at h
  simp only [Except.ok.injEq, Prod.mk.injEq] at h
  obtain ⟨h1, h2, h3⟩ := h
  subst h2
  rfl

theorem exec_admin_cmd_keeps {d : ApplyDelegate} {ctx : ApplyContext}
    {req : RaftCmdRequest} {request : AdminRequest}
    {out : Except KvError (RaftCmdResponse × ApplyResult)}
    {d1 : ApplyDelegate} {ctx1 : ApplyContext}
    (h : exec_admin_cmd d ctx req request = .ok (out, d1, ctx1)) :
    d1.apply_state = d.apply_state := by
  cases request
  all_goals simp only [exec_admin_cmd] at h
  all_goals repeat (any_goals first
    | split at h
    | dsimp only [] at h)
  all_goals first
    | exact Except.noConfusion h
    | (simp only [Except.ok.injEq, Prod.mk.injEq] at h;
       obtain ⟨h1, h2, h3⟩ := h; subst h2; solve
        | rfl
        | (rename_i hq; first
            | exact exec_change_peer_keeps hq
            | exact exec_split_keeps hq
            | exact exec_batch_split_keeps hq
            | exact exec_compact_log_keeps hq
            | exact exec_compute_hash_keeps hq
            | exact exec_verify_hash_keeps hq
            | exact exec_prepare_merge_keeps hq
            | exact exec_commit_merge_keeps hq
            | exact exec_rollback_merge_keeps hq))

theorem exec_raft_cmd_keeps {s : ApplySt} {req : RaftCmdRequest}
    {out : Except KvError (RaftCmdResponse × ApplyResult)} {s1 : ApplySt}
    (h : exec_raft_cmd s req = .ok (out, s1)) :
    s1.d.apply_state = s.d.apply_state := by
  unfold exec_raft_cmd at h
  rcases hep : check_region_epoch req s.d.region
      (decide (req.header.region_epoch.version ≥ s.d.last_merge_version))
    with e | u
  · simp only [hep] at h
    simp only [Except.ok.injEq, Prod.mk.injEq] at h
    obtain ⟨h1, h2⟩ := h
    subst h2
    rfl
  · simp only [hep] at h
    rcases hadm : req.admin_request with _ | adm
    · simp only [hadm] at h
      rcases hw : exec_write_cmd s.d s.ctx req with g | pr
      · simp only [hw] at h
        exact Except.noConfusion h
      · simp only [hw] at h
        rcases pr with ⟨o1, c1⟩
        simp only [Except.ok.injEq, Prod.mk.injEq] at h
        obtain ⟨h1, h2⟩ := h
        subst h2
        rfl
    · simp only [hadm] at h
      rcases ha : exec_admin_cmd s.d s.ctx req adm with g | tr
      · simp only [ha] at h
        exact Except.noConfusion h
      · simp only [ha] at h
        rcases tr with ⟨o1, d1, c1⟩
        simp only [Except.ok.injEq, Prod.mk.injEq] at h
        obtain ⟨h1, h2⟩ := h
        subst h2
        exact exec_admin_cmd_keeps ha

theorem commit_opt_keeps (s : ApplySt) (b : Bool) :
    (commit_opt s b).d = s.d := by
  unfold commit_opt
  rcases hw : write_to_db s.ctx with ⟨b1, c1⟩
  split
  · simp only [hw]
    rfl
  · rfl

theorem ctx_commit_keeps {s s1 : ApplySt} (h : ctx_commit s = .ok s1) :
    s1.d = s.d := by
  unfold ctx_commit at h
  split at h
  · split at h
    · exact Except.noConfusion h
    · injection h with h1
      subst h1
      exact (commit_opt_keeps _ _).trans rfl
  · injection h with h1
    subst h1
    exact (commit_opt_keeps _ _).trans rfl

theorem finish_for_keeps {s : ApplySt} {results : List ExecResult}
    {s1 : ApplySt} (h : finish_for s results = .ok s1) : s1.d = s.d := by
  unfold finish_for at h
  split at h
  · split at h
    · exact Except.noConfusion h
    · injection h with h1
      subst h1
      exact (commit_opt_keeps _ _).trans rfl
  · injection h with h1
    subst h1
    exact (commit_opt_keeps _ _).trans rfl

theorem delegate_destroy_keeps {s s1 : ApplySt}
    (h : delegate_destroy s = .ok s1) :
    s1.d.apply_state = s.d.apply_state := by
  unfold delegate_destroy at h
  repeat (any_goals first
    | split at h
    | dsimp only [] at h)
  all_goals first
    | exact Except.noConfusion h
    | (injection h with h1; subst h1; rfl)

theorem finish_entries_keeps {s : ApplySt} {results : List ExecResult}
    {s1 : ApplySt} (h : finish_entries s results = .ok s1) :
    s1.d.apply_state = s.d.apply_state := by
  unfold finish_entries at h
  split at h
  · exact Except.noConfusion h
  · next s2 hs2 =>
    split at h
    · exact (delegate_destroy_keeps h).trans (by rw [finish_for_keeps hs2])
    · injection h with h1
      subst h1
      rw [finish_for_keeps hs2]

theorem find_cb_keeps {s : ApplySt} {index term : Nat} {icc : Bool}
    {cb : Option Nat} {s1 : ApplySt}
    (h : find_cb s index term icc = .ok (cb, s1)) :
    s1.d.apply_state = s.d.apply_state := by
  unfold find_cb at h
  repeat (any_goals first
    | split at h
    | dsimp only [] at h)
  all_goals first
    | exact Except.noConfusion h
    | (simp only [Except.ok.injEq, Prod.mk.injEq] at h;
       obtain ⟨h1, h2⟩ := h; subst h2; rfl)

theorem apply_raft_cmd_applied {s : ApplySt} {index term : Nat}
    {req : RaftCmdRequest} {resp : RaftCmdResponse} {er : ApplyResult}
    {s1 : ApplySt}
    (h : apply_raft_cmd s index term req = .ok (resp, er, s1)) :
    (er = ApplyResult.waitMergeSource
      ∧ s1.d.apply_state = s.d.apply_state)
    ∨ (er ≠ ApplyResult.waitMergeSource
      ∧ s1.d.apply_state.applied_index = index) := by
  unfold apply_raft_cmd at h
  split at h
  · exact Except.noConfusion h
  · split at h
    · exact Except.noConfusion h
    · try dsimp only [] at h
      split at h
      · exact Except.noConfusion h
      · rename_i out s1x hexec
        have hkeep0 := exec_raft_cmd_keeps hexec
        have hkeep : s1x.d.apply_state = s.d.apply_state := hkeep0.trans rfl
        rcases out with e | a
        · try dsimp only [] at h
          rcases hk : s1x.ctx.kv_wb with _ | wb1
          · simp only [hk] at h
            exact Except.noConfusion h
          · simp only [hk] at h
            rcases hr : wb1.rollback_to_save_point with _ | wb2
            · simp only [hr] at h
              exact Except.noConfusion h
            · simp only [hr] at h
              try dsimp only [] at h
              split at h
              · next hcond => exact absurd hcond (by decide)
              · split at h
                · exact Except.noConfusion h
                · simp only [Except.ok.injEq, Prod.mk.injEq] at h
                  obtain ⟨h1, h2, h3⟩ := h
                  subst h2
                  subst h3
                  exact Or.inr ⟨by decide, rfl⟩
        · try dsimp only [] at h
          rcases hk : s1x.ctx.kv_wb with _ | wb1
          · simp only [hk] at h
            exact Except.noConfusion h
          · simp only [hk] at h
            rcases hp : wb1.pop_save_point with _ | wb2
            · simp only [hp] at h
              exact Except.noConfusion h
            · simp only [hp] at h
              rcases a with ⟨resp0, er0⟩
              try dsimp only [] at h
              split at h
              · next hcond =>
                simp only [Except.ok.injEq, Prod.mk.injEq] at h
                obtain ⟨h1, h2, h3⟩ := h
                subst h2
                subst h3
                left
                exact ⟨by simpa using hcond, hkeep⟩
              · next hcond =>
                split at h
                · exact Except.noConfusion h
                · simp only [Except.ok.injEq, Prod.mk.injEq] at h
                  obtain ⟨h1, h2, h3⟩ := h
                  subst h2
                  subst h3
                  right
                  refine ⟨by simpa using hcond, ?_⟩
                  rcases er0 with _ | _ | r | _
                  · rfl
                  · rfl
                  · rw [apply_exec_result_keeps]
                  · rfl

theorem process_raft_cmd_applied {s : ApplySt} {index term : Nat}
    {cmd : RaftCmdRequest} {er : ApplyResult} {s1 : ApplySt}
    (h : process_raft_cmd s index term cmd = .ok (er, s1)) :
    (er = ApplyResult.waitMergeSource
      ∧ s1.d.apply_state = s.d.apply_state)
    ∨ (er ≠ ApplyResult.waitMergeSource
      ∧ s1.d.apply_state.applied_index = index) := by
  unfold process_raft_cmd at h
  split at h
  · exact Except.noConfusion h
  · try dsimp only [] at h
    split at h
    · exact Except.noConfusion h
    · rename_i resp0 er0 s1x happly
      have hspec := apply_raft_cmd_applied happly
      split at h
      · next hcond =>
        simp only [Except.ok.injEq, Prod.mk.injEq] at h
        obtain ⟨h1, h2⟩ := h
        subst h1
        subst h2
        rcases hspec with ⟨hw, hu⟩ | ⟨hne, _⟩
        · exact Or.inl ⟨hw, hu⟩
        · exact absurd (by simpa using hcond) hne
      · next hcond =>
        try dsimp only [] at h
        split at h
        · exact Except.noConfusion h
        · rename_i cbv s2x hfind
          split at h
          · exact Except.noConfusion h
          · rename_i ctx2 hpush
            simp only [Except.ok.injEq, Prod.mk.injEq] at h
            obtain ⟨h1, h2⟩ := h
            subst h1
            subst h2
            right
            refine ⟨by simpa using hcond, ?_⟩
            have hf := find_cb_keeps hfind
            rcases hspec with ⟨hw, _⟩ | ⟨_, hap⟩
            · exact absurd hw (by simpa using hcond)
            · show s2x.d.apply_state.applied_index = index
              rw [hf]
              exact hap

theorem handle_raft_entry_normal_applied {s : ApplySt} {index term : Nat}
    {data : Option RaftCmdRequest} {ar : ApplyResult} {s1 : ApplySt}
    (h : handle_raft_entry_normal s index term data = .ok (ar, s1)) :
    ((ar = ApplyResult.yield ∨ ar = ApplyResult.waitMergeSource)
      ∧ s1.d.apply_state = s.d.apply_state)
    ∨ s1.d.apply_state.applied_index = index := by
  unfold handle_raft_entry_normal at h
  split at h
  · split at h
    · exact Except.noConfusion h
    · split at h
      · split at h
        · exact Except.noConfusion h
        · rename_i s2x hcommit
          have hck := ctx_commit_keeps hcommit
          split at h
          · simp only [Except.ok.injEq, Prod.mk.injEq] at h
            obtain ⟨h1, h2⟩ := h
            subst h1
            subst h2
            left
            refine ⟨Or.inl rfl, ?_⟩
            rw [hck]
          · rcases process_raft_cmd_applied h with ⟨hw, hu⟩ | ⟨_, hap⟩
            · left
              refine ⟨Or.inr hw, hu.trans ?_⟩
              rw [hck]
            · exact Or.inr hap
      · rcases process_raft_cmd_applied h with ⟨hw, hu⟩ | ⟨_, hap⟩
        · exact Or.inl ⟨Or.inr hw, hu⟩
        · exact Or.inr hap
  · try dsimp only [] at h
    split at h
    · exact Except.noConfusion h
    · try dsimp only [] at h
      split at h
      · exact Except.noConfusion h
      · simp only [Except.ok.injEq, Prod.mk.injEq] at h
        obtain ⟨h1, h2⟩ := h
        subst h1
        subst h2
        right
        rfl

theorem handle_raft_entry_conf_change_applied {s : ApplySt}
    {index term : Nat} {cc : ConfChange} {ar : ApplyResult} {s1 : ApplySt}
    (h : handle_raft_entry_conf_change s index term cc = .ok (ar, s1)) :
    s1.d.apply_state.applied_index = index := by
  unfold handle_raft_entry_conf_change at h
  split at h
  · exact Except.noConfusion h
  · next s1x hproc =>
    simp only [Except.ok.injEq, Prod.mk.injEq] at h
    obtain ⟨h1, h2⟩ := h
    subst h2
    rcases process_raft_cmd_applied hproc with ⟨hw, _⟩ | ⟨_, hap⟩
    · exact absurd hw (fun hc => ApplyResult.noConfusion hc)
    · exact hap
  · next r s1x hproc =>
    split at h
    all_goals first
      | exact Except.noConfusion h
      | (simp only [Except.ok.injEq, Prod.mk.injEq] at h;
         obtain ⟨h1, h2⟩ := h; subst h2;
         rcases process_raft_cmd_applied hproc with ⟨hw, hu⟩ | ⟨hne, hap⟩
         <;> first
           | exact absurd hw (fun hc => ApplyResult.noConfusion hc)
           | exact hap)
  · exact Except.noConfusion h
  · exact Except.noConfusion h

theorem handle_entries_loop_no_gap :
    ∀ (entries : List Entry) (s : ApplySt) (results : List ExecResult),
      (∀ i en, entries.get? i = some en →
        en.index = s.d.apply_state.applied_index + 1 + i) →
      ∀ a b, handle_entries_loop s entries results
        ≠ .error (.indexGap a b) := by
  intro entries
  induction entries with
  | nil =>
    intro s results hctg a b h
    simp only [handle_entries_loop] at h
    exact (finish_entries_gf h) a b rfl
  | cons e rest ih =>
    intro s results hctg a b h
    simp only [handle_entries_loop] at h
    split at h
    · exact (finish_entries_gf h) a b rfl
    · have hidx := hctg 0 e rfl
      split at h
      · next hne => exact absurd hne (by simp [hidx])
      · rcases hpl : e.payload with dat | cc | _
        · simp only [hpl] at h
          rcases hs : handle_raft_entry_normal s e.index e.term dat
            with g | pr
          · simp only [hs] at h
            injection h with h1
            exact (handle_raft_entry_normal_gf hs) a b h1
          · simp only [hs] at h
            rcases pr with ⟨ar, s2⟩
            rcases ar with _ | _ | r | _
            · try dsimp only [] at h
              have hap : s2.d.apply_state.applied_index = e.index := by
                rcases handle_raft_entry_normal_applied hs
                  with ⟨hy | hw, _⟩ | hap
                · exact absurd hy (fun hc => ApplyResult.noConfusion hc)
                · exact absurd hw (fun hc => ApplyResult.noConfusion hc)
                · exact hap
              refine ih s2 results ?_ a b h
              intro i en hg
              have h1 := hctg (i + 1) en (by simpa using hg)
              omega
            · try dsimp only [] at h
              split at h
              · next g hg =>
                injection h with h1
                exact (finish_for_gf hg) a b h1
              · exact Except.noConfusion h
            · try dsimp only [] at h
              have hap : s2.d.apply_state.applied_index = e.index := by
                rcases handle_raft_entry_normal_applied hs
                  with ⟨hy | hw, _⟩ | hap
                · exact absurd hy (fun hc => ApplyResult.noConfusion hc)
                · exact absurd hw (fun hc => ApplyResult.noConfusion hc)
                · exact hap
              refine ih s2 (results ++ [r]) ?_ a b h
              intro i en hg
              have h1 := hctg (i + 1) en (by simpa using hg)
              omega
            · try dsimp only [] at h
              split at h
              · next g hg =>
                injection h with h1
                exact (finish_for_gf hg) a b h1
              · exact Except.noConfusion h
        · simp only [hpl] at h
          rcases hs : handle_raft_entry_conf_change s e.index e.term cc
            with g | pr
          · simp only [hs] at h
            injection h with h1
            exact (handle_raft_entry_conf_change_gf hs) a b h1
          · simp only [hs] at h
            rcases pr with ⟨ar, s2⟩
            have hap := handle_raft_entry_conf_change_applied hs
            rcases ar with _ | _ | r | _
            · try dsimp only [] at h
              refine ih s2 results ?_ a b h
              intro i en hg
              have h1 := hctg (i + 1) en (by simpa using hg)
              omega
            · try dsimp only [] at h
              split at h
              · next g hg =>
                injection h with h1
                exact (finish_for_gf hg) a b h1
              · exact Except.noConfusion h
            · try dsimp only [] at h
              refine ih s2 (results ++ [r]) ?_ a b h
              intro i en hg
              have h1 := hctg (i + 1) en (by simpa using hg)
              omega
            · try dsimp only [] at h
              split at h
              · next g hg =>
                injection h with h1
                exact (finish_for_gf hg) a b h1
              · exact Except.noConfusion h
        · simp only [hpl] at h
          injection h with h1
          exact Fatal.noConfusion h1

theorem handle_entries_loop_mono :
    ∀ (entries : List Entry) (s : ApplySt) (results : List ExecResult)
      (s1 : ApplySt),
      handle_entries_loop s entries results = .ok s1 →
      s.d.apply_state.applied_index ≤ s1.d.apply_state.applied_index := by
  intro entries
  induction entries with
  | nil =>
    intro s results s1 h
    simp only [handle_entries_loop] at h
    have := congrArg RaftApplyState.applied_index (finish_entries_keeps h)
    omega
  | cons e rest ih =>
    intro s results s1 h
    simp only [handle_entries_loop] at h
    split at h
    · have := congrArg RaftApplyState.applied_index (finish_entries_keeps h)
      omega
    · split at h
      · split at h
        · exact ih s results s1 h
        · exact Except.noConfusion h
      · rename_i hguard
        have hg2 : s.d.apply_state.applied_index + 1 = e.index := by
          simpa using hguard
        rcases hpl : e.payload with dat | cc | _
        · simp only [hpl] at h
          rcases hs : handle_raft_entry_normal s e.index e.term dat
            with g | pr
          · simp only [hs] at h
            exact Except.noConfusion h
          · simp only [hs] at h
            rcases pr with ⟨ar, s2⟩
            have hrel : s.d.apply_state.applied_index
                ≤ s2.d.apply_state.applied_index := by
              rcases handle_raft_entry_normal_applied hs with ⟨_, hu⟩ | hap
              · rw [hu]
              · omega
            rcases ar with _ | _ | r | _
            · try dsimp only [] at h
              exact le_trans hrel (ih s2 results s1 h)
            · try dsimp only [] at h
              split at h
              · exact Except.noConfusion h
              · next s3 hfin =>
                injection h with h1
                subst h1
                have h3 := finish_for_keeps hfin
                show s.d.apply_state.applied_index
                  ≤ s3.d.apply_state.applied_index
                rw [h3]
                exact hrel
            · try dsimp only [] at h
              exact le_trans hrel (ih s2 (results ++ [r]) s1 h)
            · try dsimp only [] at h
              split at h
              · exact Except.noConfusion h
              · next s3 hfin =>
                injection h with h1
                subst h1
                have h3 := finish_for_keeps hfin
                show s.d.apply_state.applied_index
                  ≤ s3.d.apply_state.applied_index
                rw [h3]
                exact hrel
        · simp only [hpl] at h
          rcases hs : handle_raft_entry_conf_change s e.index e.term cc
            with g | pr
          · simp only [hs] at h
            exact Except.noConfusion h
          · simp only [hs] at h
            rcases pr with ⟨ar, s2⟩
            have hap := handle_raft_entry_conf_change_applied hs
            have hrel : s.d.apply_state.applied_index
                ≤ s2.d.apply_state.applied_index := by
              omega
            rcases ar with _ | _ | r | _
            · try dsimp only [] at h
              exact le_trans hrel (ih s2 results s1 h)
            · try dsimp only [] at h
              split at h
              · exact Except.noConfusion h
              · next s3 hfin =>
                injection h with h1
                subst h1
                have h3 := finish_for_keeps hfin
                show s.d.apply_state.applied_index
                  ≤ s3.d.apply_state.applied_index
                rw [h3]
                exact hrel
            · try dsimp only [] at h
              exact le_trans hrel (ih s2 (results ++ [r]) s1 h)
            · try dsimp only [] at h
              split at h
              · exact Except.noConfusion h
              · next s3 hfin =>
                injection h with h1
                subst h1
                have h3 := finish_for_keeps hfin
                show s.d.apply_state.applied_index
                  ≤ s3.d.apply_state.applied_index
                rw [h3]
                exact hrel
        · simp only [hpl] at h
          exact Except.noConfusion h

/-- C1: in the entry loop of handle_raft_committed_entries, an entry whose
index is not the applied index plus one is skipped with no state change
when it is below the expected index and the delegate is merging, and
otherwise aborts fatally with the index gap; under the precondition that
the delivered entries are consecutively indexed from the applied index
plus one, the index-gap abort is unreachable, and on every non-fatal run
the applied index never decreases. -/
theorem claim_C1 (s : ApplySt) (entries : List Entry) :
    (∀ (e : Entry) (rest : List Entry) (results : List ExecResult),
        s.d.pending_remove = false →
        s.d.apply_state.applied_index + 1 ≠ e.index →
        s.d.apply_state.applied_index + 1 > e.index →
        s.d.is_merging = true →
        handle_entries_loop s (e :: rest) results
          = handle_entries_loop s rest results)
    ∧ (∀ (e : Entry) (rest : List Entry) (results : List ExecResult),
        s.d.pending_remove = false →
        s.d.apply_state.applied_index + 1 ≠ e.index →
        ¬ (s.d.apply_state.applied_index + 1 > e.index
            ∧ s.d.is_merging = true) →
        handle_entries_loop s (e :: rest) results
          = .error (.indexGap (s.d.apply_state.applied_index + 1) e.index))
    ∧ ((∀ i en, entries.get? i = some en →
          en.index = s.d.apply_state.applied_index + 1 + i) →
        ∀ a b, handle_raft_committed_entries s entries
          ≠ .error (.indexGap a b))
    ∧ (∀ s1, handle_raft_committed_entries s entries = .ok s1 →
        s.d.apply_state.applied_index ≤ s1.d.apply_state.applied_index) := by
  refine ⟨?_, ?_, ?_, ?_⟩
  · intro e rest results hpr hne hlt hm
    simp only [handle_entries_loop, hpr, Bool.false_eq_true, if_false]
    rw [if_pos (by simpa using hne), if_pos (by simp [hm, hlt])]
  · intro e rest results hpr hne hno
    simp only [handle_entries_loop, hpr, Bool.false_eq_true, if_false]
    rw [if_pos (by simpa using hne), if_neg (by simpa using hno)]
  · intro hctg a b h
    unfold handle_raft_committed_entries at h
    split at h
    · exact Except.noConfusion h
    · exact handle_entries_loop_no_gap entries (prepare_for s) []
        (fun i en hg => hctg i en hg) a b h
  · intro s1 h
    unfold handle_raft_committed_entries at h
    split at h
    · injection h with h1
      subst h1
      exact le_refl _
    · exact handle_entries_loop_mono entries (prepare_for s) [] s1 h

theorem claim_C1_witness :
    (fx_st_c1.d.pending_remove = false
      ∧ fx_st_c1.d.apply_state.applied_index + 1 ≠ fx_entry_old.index
      ∧ fx_st_c1.d.apply_state.applied_index + 1 > fx_entry_old.index
      ∧ fx_st_c1.d.is_merging = true
      ∧ handle_entries_loop fx_st_c1 [fx_entry_old] []
          = handle_entries_loop fx_st_c1 [] [])
    ∧ (fx_st.d.pending_remove = false
      ∧ fx_st.d.apply_state.applied_index + 1 ≠ fx_entry_far.index
      ∧ ¬ (fx_st.d.apply_state.applied_index + 1 > fx_entry_far.index
            ∧ fx_st.d.is_merging = true)
      ∧ handle_entries_loop fx_st [fx_entry_far] []
          = .error (.indexGap (fx_st.d.apply_state.applied_index + 1)
              fx_entry_far.index)) := by
  refine ⟨⟨by decide, by decide, by decide, by decide, ?_⟩,
          ⟨by decide, by decide, by decide, ?_⟩⟩
  · exact (claim_C1 fx_st_c1 []).1 fx_entry_old [] [] (by decide) (by decide)
      (by decide) (by decide)
  · exact (claim_C1 fx_st []).2.1 fx_entry_far [] [] (by decide) (by decide)
      (by decide)

end TikvApply
